import Mathlib

/-!
Verification of `etheno/logger.py` (futureswap/etheno).

The development shallowly embeds the two cores of the module:

* the stream-tailing loop of `StreamLogger.run` (and the `is_done`
  overrides of `ProcessLogger` / `PtyLogger`), modelled over byte lists;
* the logger hierarchy of `EthenoLogger` (handler propagation, directory
  assignment, severity levels, logged-file creation, teardown), modelled
  as an arena of nodes together with an abstract filesystem.

Bytes are modelled as `Nat` (values 0..255); Python byte strings as
`List Nat`.  `bytes.decode()` (strict UTF-8) is modelled by an executable
UTF-8 validity checker; the decoded line is identified with its byte
sequence (UTF-8 decoding is injective on valid sequences, so nothing is
lost by keeping the bytes).
-/

namespace Etheno

/-! ## UTF-8 decodability (models Python `bytes.decode()` succeeding)

Strict UTF-8 as CPython implements it: continuation bytes are 0x80..0xBF,
overlong encodings and surrogates (0xED A0..BF ..) are rejected, and the
lead byte ranges are those of RFC 3629. -/

def isCont (b : Nat) : Bool := 0x80 ≤ b && b ≤ 0xBF

def utf8Decodable : List Nat → Bool
  | [] => true
  | b :: rest =>
    if b ≤ 0x7F then utf8Decodable rest
    else if 0xC2 ≤ b && b ≤ 0xDF then
      match rest with
      | c1 :: rest' => isCont c1 && utf8Decodable rest'
      | [] => false
    else if b == 0xE0 then
      match rest with
      | c1 :: c2 :: rest' => (0xA0 ≤ c1 && c1 ≤ 0xBF) && isCont c2 && utf8Decodable rest'
      | _ => false
    else if (0xE1 ≤ b && b ≤ 0xEC) || b == 0xEE || b == 0xEF then
      match rest with
      | c1 :: c2 :: rest' => isCont c1 && isCont c2 && utf8Decodable rest'
      | _ => false
    else if b == 0xED then
      match rest with
      | c1 :: c2 :: rest' => (0x80 ≤ c1 && c1 ≤ 0x9F) && isCont c2 && utf8Decodable rest'
      | _ => false
    else if b == 0xF0 then
      match rest with
      | c1 :: c2 :: c3 :: rest' =>
        (0x90 ≤ c1 && c1 ≤ 0xBF) && isCont c2 && isCont c3 && utf8Decodable rest'
      | _ => false
    else if 0xF1 ≤ b && b ≤ 0xF3 then
      match rest with
      | c1 :: c2 :: c3 :: rest' => isCont c1 && isCont c2 && isCont c3 && utf8Decodable rest'
      | _ => false
    else if b == 0xF4 then
      match rest with
      | c1 :: c2 :: c3 :: rest' =>
        (0x80 ≤ c1 && c1 ≤ 0x8F) && isCont c2 && isCont c3 && utf8Decodable rest'
      | _ => false
    else false

/-! ## The stream-tailing loop (`StreamLogger.run`, logger.py lines 265-286)

One monitored stream is modelled.  What the loop observes of a stream is a
sequence of events: a successfully read byte, or an exception raised by
`stream.read(1)` (read failure / closure).  Decoding failure of
`self._buffers[i].decode()` also raises; both kinds of exception are
caught by the `except Exception:` clause, which sets `self._done = True`
and breaks out of the current pass. -/

inductive Ev where
  | byte (b : Nat)
  | err
  deriving Repr, DecidableEq

structure TailState where
  /-- `self._buffers[i]`: bytes accumulated since the last delimiter. -/
  buffer : List Nat
  /-- `self._done`. -/
  done : Bool
  /-- the lines dispatched so far via `self.log(self.logger, ...)`,
  oldest first, each recorded as the byte sequence that was decoded. -/
  output : List (List Nat)
  deriving Repr, DecidableEq

def TailState.init : TailState := { buffer := [], done := false, output := [] }

/-- One pass of the inner read loop over the events a stream yields,
faithful to logger.py lines 269-283: a read byte equal to
`self._newline_char` makes the loop decode the buffer and dispatch it
(resetting the buffer), any other byte is appended to the buffer, and an
exception (from `read` or from `.decode()`) sets `_done` and abandons the
rest of the pass. -/
def runPass (nl : Nat) : TailState → List Ev → TailState
  | st, [] => st
  | st, Ev.byte b :: rest =>
    if b = nl then
      if utf8Decodable st.buffer then
        runPass nl { st with output := st.output ++ [st.buffer], buffer := [] } rest
      else
        -- `self._buffers[i].decode()` raised; caught by `except Exception`.
        { st with done := true }
    else
      runPass nl { st with buffer := st.buffer ++ [b] } rest
  | st, Ev.err :: _ =>
    -- `stream.read(1)` raised; caught by `except Exception`.
    { st with done := true }

/-- The outer loop of `StreamLogger.run` for the base class, whose
`is_done` returns `self._done` (line 263-264): before each pass the loop
re-checks `is_done` and stops once `_done` is set.  The input is the list
of event batches the stream yields on successive passes. -/
def runStream (nl : Nat) : TailState → List (List Ev) → TailState
  | st, [] => st
  | st, p :: ps => if st.done then st else runStream nl (runPass nl st p) ps

/-- The outer loop as `ProcessLogger` runs it: `is_done` is overridden
(lines 292-293) to `self.process.poll() is not None`, ignoring `_done`.
Each pass comes with the liveness observation made before it: `true`
means the process was still alive (`poll()` returned `None`), so the
loop body runs; `false` means the exit status was observable and the
loop stops. -/
def runProcess (nl : Nat) : TailState → List (Bool × List Ev) → TailState
  | st, [] => st
  | st, (alive, p) :: ps =>
    if alive then runProcess nl (runPass nl st p) ps else st

/-! ## Specification-side line splitting

`splitLines nl buf s` splits the byte sequence `s` (arriving after the
already-buffered `buf`) at each delimiter byte `nl`: the first component
lists the delimited segments in order (each excluding the delimiter), the
second is the trailing partial segment. -/

def splitLines (nl : Nat) (buf : List Nat) : List Nat → List (List Nat) × List Nat
  | [] => ([], buf)
  | b :: rest =>
    if b = nl then
      let r := splitLines nl [] rest
      (buf :: r.1, r.2)
    else
      splitLines nl (buf ++ [b]) rest

theorem splitLines_length_count (nl : Nat) (buf : List Nat) (s : List Nat) :
    (splitLines nl buf s).1.length = s.count nl := by
  induction s generalizing buf with
  | nil => simp [splitLines]
  | cons b rest ih =>
    by_cases hb : b = nl
    · subst hb
      simp [splitLines, ih, List.count_cons]
    · simp [splitLines, hb, ih, List.count_cons, Ne.symm hb]

/-- Main simulation lemma: as long as every completed segment decodes,
`runPass` on a byte-only event stream dispatches exactly the delimited
segments (in order), ends with the trailing partial segment buffered, and
never sets `_done`. -/
theorem runPass_eq_splitLines (nl : Nat) (st : TailState) (s : List Nat)
    (hdone : st.done = false)
    (hdec : ∀ l ∈ (splitLines nl st.buffer s).1, utf8Decodable l = true) :
    runPass nl st (s.map Ev.byte) =
      { buffer := (splitLines nl st.buffer s).2,
        done := false,
        output := st.output ++ (splitLines nl st.buffer s).1 } := by
  induction s generalizing st with
  | nil =>
    simp only [List.map_nil, runPass, splitLines]
    cases st with
    | mk b d o => simp only at hdone; simp [hdone]
  | cons b rest ih =>
    by_cases hb : b = nl
    · subst hb
      have hbuf : utf8Decodable st.buffer = true := by
        apply hdec
        simp [splitLines]
      have ih' := ih { buffer := [], done := st.done, output := st.output ++ [st.buffer] }
        hdone
        (by
          intro l hl
          apply hdec
          simp only [splitLines, if_pos rfl]
          right
          simpa using hl)
      simp only [List.map_cons, runPass, if_pos rfl, hbuf, if_true]
      rw [ih']
      simp [splitLines]
    · have ih' := ih { buffer := st.buffer ++ [b], done := st.done, output := st.output }
        hdone
        (by
          intro l hl
          apply hdec
          simpa [splitLines, hb] using hl)
      simp only [List.map_cons, runPass, if_neg hb]
      rw [ih']
      simp [splitLines, hb]

/-- C1, amended: the count / content / order / buffer-reset property of
the line-assembly loop, under the proviso that each delimited segment is
decodable. -/
theorem lineAssembly_spec (nl : Nat) (s : List Nat)
    (hdec : ∀ l ∈ (splitLines nl [] s).1, utf8Decodable l = true) :
    runPass nl TailState.init (s.map Ev.byte) =
      { buffer := (splitLines nl [] s).2,
        done := false,
        output := (splitLines nl [] s).1 } ∧
    (runPass nl TailState.init (s.map Ev.byte)).output.length = s.count nl := by
  have h := runPass_eq_splitLines nl TailState.init s rfl hdec
  refine ⟨by simpa [TailState.init] using h, ?_⟩
  rw [h]
  simp only [TailState.init, List.nil_append]
  exact splitLines_length_count nl [] s

/-- C1, witness: on the byte sequence `"a\nb\n"` (97 10 98 10) the loop
dispatches exactly the two delimited lines, in order, with the buffer
reset. -/
theorem lineAssembly_spec_witness :
    runPass 10 TailState.init ([97, 10, 98, 10].map Ev.byte) =
      { buffer := (splitLines 10 [] [97, 10, 98, 10]).2,
        done := false,
        output := (splitLines 10 [] [97, 10, 98, 10]).1 } ∧
    (runPass 10 TailState.init ([97, 10, 98, 10].map Ev.byte)).output.length =
      [97, 10, 98, 10].count 10 :=
  lineAssembly_spec 10 [97, 10, 98, 10] (by decide)

/-- C1, counterexample to the claim as stated: feeding the bytes
255 10 (an undecodable byte and then the delimiter) dispatches no line at
all, although one delimiter byte is present — `self._buffers[i].decode()`
raises `UnicodeDecodeError`, which the loop catches by setting `_done`. -/
theorem lineAssembly_count_cex :
    (runPass 10 TailState.init ([255, 10].map Ev.byte)).output.length = 0 ∧
    [255, 10].count 10 = 1 := by
  constructor
  · rfl
  · rfl

/-- C3, amended: a decode failure never propagates out of the loop
(the model is a total function mirroring the `except Exception` clause),
but contrary to the claim it terminates the tailer: `_done` is set, no
warning-level record is dispatched, the undecodable bytes stay in the
buffer, the rest of the pass is abandoned, and the base-class loop
(whose `is_done` reads `_done`) performs no further passes. -/
theorem decodeFailure_amended (nl : Nat) (st : TailState) (rest : List Ev)
    (ps : List (List Ev)) (hdec : utf8Decodable st.buffer = false) :
    runPass nl st (Ev.byte nl :: rest) = { st with done := true } ∧
    runStream nl { st with done := true } ps = { st with done := true } := by
  constructor
  · simp [runPass, hdec]
  · cases ps with
    | nil => rfl
    | cons p ps' => simp [runStream]

/-- C3, witness for the amended theorem, at the buffered byte 255. -/
theorem decodeFailure_amended_witness :
    runPass 10 { buffer := [255], done := false, output := [] }
        (Ev.byte 10 :: [Ev.byte 97]) =
      { buffer := [255], done := true, output := [] } ∧
    runStream 10 { buffer := [255], done := true, output := [] } [[Ev.byte 97]] =
      { buffer := [255], done := true, output := [] } :=
  decodeFailure_amended 10 { buffer := [255], done := false, output := [] }
    [Ev.byte 97] [[Ev.byte 97]] (by decide)

/-- C3, counterexample to the claim as stated: on input 255 10 the claim
demands that the tailer not terminate and that a warning record reach the
sink; instead `_done` is set and nothing is dispatched. -/
theorem decodeFailure_cex :
    (runPass 10 TailState.init ([255, 10].map Ev.byte)).done = true ∧
    (runPass 10 TailState.init ([255, 10].map Ev.byte)).output = [] := by
  constructor
  · rfl
  · rfl

/-- Helper for C7: a pass consisting of bytes followed by a read failure
dispatches exactly the delimited segments of the bytes and then sets
`_done`, leaving the trailing partial segment buffered and undispatched. -/
theorem runPass_bytes_err (nl : Nat) (st : TailState) (bs : List Nat)
    (hdone : st.done = false)
    (hdec : ∀ l ∈ (splitLines nl st.buffer bs).1, utf8Decodable l = true) :
    runPass nl st (bs.map Ev.byte ++ [Ev.err]) =
      { buffer := (splitLines nl st.buffer bs).2,
        done := true,
        output := st.output ++ (splitLines nl st.buffer bs).1 } := by
  induction bs generalizing st with
  | nil => simp [runPass, splitLines]
  | cons b rest ih =>
    by_cases hb : b = nl
    · subst hb
      have hbuf : utf8Decodable st.buffer = true := by
        apply hdec
        simp [splitLines]
      have ih' := ih { buffer := [], done := st.done, output := st.output ++ [st.buffer] }
        hdone
        (by
          intro l hl
          apply hdec
          simp only [splitLines, if_pos rfl]
          right
          simpa using hl)
      simp only [List.map_cons, List.cons_append, List.append_eq, runPass, if_pos rfl, hbuf,
        if_true]
      rw [ih']
      simp [splitLines]
    · have ih' := ih { buffer := st.buffer ++ [b], done := st.done, output := st.output }
        hdone
        (by
          intro l hl
          apply hdec
          simpa [splitLines, hb] using hl)
      simp only [List.map_cons, List.cons_append, List.append_eq, runPass, if_neg hb]
      rw [ih']
      simp [splitLines, hb]

/-- C7, amended: for the base `StreamLogger` (whose `is_done` reads
`_done`) an exception during a pass marks the tailer terminated without
propagating, the loop then performs no further passes, and a trailing
partial line is left in the buffer, never dispatched.  (For
`ProcessLogger`, whose `is_done` override polls the process and ignores
`_done`, the loop does NOT stop — see the counterexample.) -/
theorem tailerException_amended (nl : Nat) (st stDone : TailState)
    (rest : List Ev) (ps : List (List Ev)) (bs : List Nat)
    (hdone : stDone.done = true)
    (hdec : ∀ l ∈ (splitLines nl [] bs).1, utf8Decodable l = true) :
    runPass nl st (Ev.err :: rest) = { st with done := true } ∧
    runStream nl stDone ps = stDone ∧
    runPass nl TailState.init (bs.map Ev.byte ++ [Ev.err]) =
      { buffer := (splitLines nl [] bs).2,
        done := true,
        output := (splitLines nl [] bs).1 } := by
  refine ⟨rfl, ?_, ?_⟩
  · cases ps with
    | nil => rfl
    | cons p ps' => simp [runStream, hdone]
  · have h := runPass_bytes_err nl TailState.init bs rfl hdec
    simpa [TailState.init] using h

/-- C7, witness: stream yields `"a\nb"` then the read raises — `"a"` is
dispatched, `"b"` stays buffered and is discarded, the loop stops. -/
theorem tailerException_amended_witness :
    runPass 10 TailState.init (Ev.err :: [Ev.byte 97]) =
      { buffer := [], done := true, output := [] } ∧
    runStream 10 { buffer := [98], done := true, output := [[97]] } [[Ev.byte 99]] =
      { buffer := [98], done := true, output := [[97]] } ∧
    runPass 10 TailState.init ([97, 10, 98].map Ev.byte ++ [Ev.err]) =
      { buffer := (splitLines 10 [] [97, 10, 98]).2,
        done := true,
        output := (splitLines 10 [] [97, 10, 98]).1 } :=
  tailerException_amended 10 TailState.init
    { buffer := [98], done := true, output := [[97]] }
    [Ev.byte 97] [[Ev.byte 99]] [97, 10, 98] rfl (by decide)

/-- C7, counterexample to the claim as stated: a `ProcessLogger` whose
read raises on the first pass while the process is still alive does NOT
stop — on the next pass it keeps reading and even dispatches the line
`"a"`, because its `is_done` override ignores `_done`. -/
theorem tailerException_cex :
    (runProcess 10 TailState.init
        [(true, [Ev.err]), (true, [Ev.byte 97, Ev.byte 10])]).done = true ∧
    (runProcess 10 TailState.init
        [(true, [Ev.err]), (true, [Ev.byte 97, Ev.byte 10])]).output = [[97]] := by
  constructor
  · rfl
  · rfl

/-! ## Logged-file creation (`EthenoLogger.make_logged_file`, lines 173-189)

The loop computes `f"{prefix}{suffix}"` for `i = 1` and
`f"{prefix}{i}{suffix}"` for `i ≥ 2`, joins it to the node's directory
and returns a handle on the first name for which `os.path.exists` is
false.  Since the directory (and the `dir` argument, here its default)
is fixed across the loop, collision is decided by the set of file names
already existing in that directory, which is how the filesystem is
presented to the model.  The returned pair is the chosen name and the
directory contents after `open(path, mode)` created the file. -/

/-- Decimal digit characters of `n`, most significant first — the
rendering Python's `str(i)` / f-string interpolation performs. -/
def decChars (n : Nat) : List Char :=
  (Nat.digits 10 n).reverse.map (fun d => Char.ofNat (48 + d))

def decStr (n : Nat) : String := String.mk (decChars n)

/-- The candidate filename at loop index `i` (logger.py lines 181-185). -/
def loggedFileName (pre suf : String) (i : Nat) : String :=
  if i = 1 then pre ++ suf else pre ++ decStr i ++ suf

def make_logged_file_loop (existing : List String) (pre suf : String) :
    Nat → Nat → Option String
  | _, 0 => none
  | i, fuel + 1 =>
    if loggedFileName pre suf i ∈ existing then
      make_logged_file_loop existing pre suf (i + 1) fuel
    else
      some (loggedFileName pre suf i)

/-- `make_logged_file`: runs the `while True` loop from `i = 1`.  The
loop of the source is unbounded; the model gives it
`existing.length + 1` iterations, which are proven sufficient
(`make_logged_file_spec`). -/
def make_logged_file (existing : List String) (pre suf : String) :
    Option (String × List String) :=
  match make_logged_file_loop existing pre suf 1 (existing.length + 1) with
  | some name => some (name, existing ++ [name])
  | none => none

theorem digitChar_inj : ∀ d1 < 10, ∀ d2 < 10,
    Char.ofNat (48 + d1) = Char.ofNat (48 + d2) → d1 = d2 := by
  decide

theorem map_digitChar_inj : ∀ l1 l2 : List Nat, (∀ d ∈ l1, d < 10) → (∀ d ∈ l2, d < 10) →
    l1.map (fun d => Char.ofNat (48 + d)) = l2.map (fun d => Char.ofNat (48 + d)) →
    l1 = l2 := by
  intro l1
  induction l1 with
  | nil =>
    intro l2 _ _ h
    cases l2 with
    | nil => rfl
    | cons b t => simp at h
  | cons a t ih =>
    intro l2 h1 h2 h
    cases l2 with
    | nil => simp at h
    | cons b t2 =>
      simp only [List.map_cons, List.cons.injEq] at h
      have ha : a = b := digitChar_inj a (h1 a (by simp)) b (h2 b (by simp)) h.1
      have ht : t = t2 := ih t2 (fun d hd => h1 d (by simp [hd]))
        (fun d hd => h2 d (by simp [hd])) h.2
      rw [ha, ht]

theorem decChars_inj {m n : Nat} (h : decChars m = decChars n) : m = n := by
  unfold decChars at h
  have h' := map_digitChar_inj (Nat.digits 10 m).reverse (Nat.digits 10 n).reverse
    (fun d hd => Nat.digits_lt_base (by norm_num) (List.mem_reverse.mp hd))
    (fun d hd => Nat.digits_lt_base (by norm_num) (List.mem_reverse.mp hd)) h
  have := List.reverse_injective h'
  exact Nat.digits_inj_iff.mp this

theorem decChars_ne_nil {n : Nat} (hn : n ≠ 0) : decChars n ≠ [] := by
  unfold decChars
  simp only [ne_eq, List.map_eq_nil_iff, List.reverse_eq_nil_iff]
  exact Nat.digits_ne_nil_iff_ne_zero.mpr hn

theorem loggedFileName_inj (pre suf : String) :
    ∀ i, 1 ≤ i → ∀ j, 1 ≤ j → loggedFileName pre suf i = loggedFileName pre suf j →
    i = j := by
  have key : ∀ i, 2 ≤ i → ∀ j, 2 ≤ j →
      loggedFileName pre suf i = loggedFileName pre suf j → i = j := by
    intro i hi j hj h
    unfold loggedFileName at h
    rw [if_neg (by omega), if_neg (by omega)] at h
    have hd := congrArg String.data h
    simp only [String.data_append] at hd
    have h1 := List.append_cancel_right hd
    have h2 := List.append_cancel_left h1
    exact decChars_inj (by
      have : (decStr i).data = (decStr j).data := h2
      simpa [decStr] using this)
  have base : ∀ j, 2 ≤ j → loggedFileName pre suf 1 ≠ loggedFileName pre suf j := by
    intro j hj h
    unfold loggedFileName at h
    rw [if_pos rfl, if_neg (by omega)] at h
    have hd := congrArg String.data h
    simp only [String.data_append] at hd
    have h1 := List.append_cancel_right hd
    have hlen := congrArg List.length h1
    simp only [List.length_append] at hlen
    have hnil : (decStr j).data = [] := List.length_eq_zero.mp (by omega)
    exact @decChars_ne_nil j (by omega) (by simpa [decStr] using hnil)
  intro i hi j hj h
  rcases Nat.lt_or_ge i 2 with hi2 | hi2
  · rcases Nat.lt_or_ge j 2 with hj2 | hj2
    · omega
    · have hi1 : i = 1 := by omega
      subst hi1
      exact absurd h (base j hj2)
  · rcases Nat.lt_or_ge j 2 with hj2 | hj2
    · have hj1 : j = 1 := by omega
      subst hj1
      exact absurd h.symm (base i hi2)
    · exact key i hi2 j hj2 h

/-- Pigeonhole: among the first `existing.length + 1` candidate names one
is unused. -/
theorem exists_fresh_name (existing : List String) (pre suf : String) :
    ∃ k, k < existing.length + 1 ∧
      loggedFileName pre suf (k + 1) ∉ existing := by
  by_contra hcon
  push_neg at hcon
  set cands := (List.range (existing.length + 1)).map
    (fun k => loggedFileName pre suf (k + 1)) with hc
  have hsub : cands ⊆ existing := by
    intro x hx
    simp only [hc, List.mem_map, List.mem_range] at hx
    obtain ⟨k, hk, rfl⟩ := hx
    exact hcon k hk
  have hnd : cands.Nodup := by
    apply List.Nodup.map_on _ (List.nodup_range _)
    intro x hx y hy hf
    have := loggedFileName_inj pre suf (x + 1) (by omega) (y + 1) (by omega) hf
    omega
  have hle := (hnd.subperm hsub).length_le
  simp only [hc, List.length_map, List.length_range] at hle
  omega

theorem make_logged_file_loop_finds (existing : List String) (pre suf : String) :
    ∀ fuel start, 1 ≤ start →
      (∃ k, k < fuel ∧ loggedFileName pre suf (start + k) ∉ existing) →
      ∃ i, start ≤ i ∧
        make_logged_file_loop existing pre suf start fuel =
          some (loggedFileName pre suf i) ∧
        loggedFileName pre suf i ∉ existing ∧
        ∀ j, start ≤ j → j < i → loggedFileName pre suf j ∈ existing := by
  intro fuel
  induction fuel with
  | zero =>
    intro start _ h
    obtain ⟨k, hk, _⟩ := h
    omega
  | succ fuel ih =>
    intro start hstart h
    obtain ⟨k, hk, hfree⟩ := h
    by_cases hmem : loggedFileName pre suf start ∈ existing
    · have hk' : ∃ k', k' < fuel ∧
          loggedFileName pre suf (start + 1 + k') ∉ existing := by
        cases k with
        | zero => simp only [Nat.add_zero] at hfree; exact absurd hmem hfree
        | succ k' =>
          refine ⟨k', by omega, ?_⟩
          have : start + 1 + k' = start + (k' + 1) := by omega
          rw [this]
          exact hfree
      obtain ⟨i, hi1, hi2, hi3, hi4⟩ := ih (start + 1) (by omega) hk'
      refine ⟨i, by omega, ?_, hi3, ?_⟩
      · simpa [make_logged_file_loop, hmem] using hi2
      · intro j hj1 hj2
        by_cases hj : j = start
        · rw [hj]; exact hmem
        · exact hi4 j (by omega) hj2
    · refine ⟨start, Nat.le_refl _, ?_, hmem, ?_⟩
      · simp [make_logged_file_loop, hmem]
      · intro j hj1 hj2
        omega

theorem make_logged_file_loop_step_mem (existing : List String) (pre suf : String)
    (start fuel : Nat) (hmem : loggedFileName pre suf start ∈ existing) :
    make_logged_file_loop existing pre suf start (fuel + 1) =
      make_logged_file_loop existing pre suf (start + 1) fuel := by
  simp [make_logged_file_loop, hmem]

theorem make_logged_file_loop_step_free (existing : List String) (pre suf : String)
    (start fuel : Nat) (hfree : loggedFileName pre suf start ∉ existing) :
    make_logged_file_loop existing pre suf start (fuel + 1) =
      some (loggedFileName pre suf start) := by
  simp [make_logged_file_loop, hfree]

/-- C6: `make_logged_file` always returns a name that collides with no
existing file, namely the base name `prefix+suffix` if unused, else
`prefix+i+suffix` for the first available `i` (starting at 2, since the
scan starts at `i = 1` and every name before the chosen one is taken);
and three successive calls on a directory initially lacking all three
names yield `prefix+suffix`, `prefix+"2"+suffix`, `prefix+"3"+suffix`,
three distinct paths. -/
theorem make_logged_file_spec (existing : List String) (pre suf : String)
    (h1 : loggedFileName pre suf 1 ∉ existing)
    (h2 : loggedFileName pre suf 2 ∉ existing)
    (h3 : loggedFileName pre suf 3 ∉ existing) :
    (∀ ex : List String, ∃ i, 1 ≤ i ∧
      make_logged_file ex pre suf =
        some (loggedFileName pre suf i, ex ++ [loggedFileName pre suf i]) ∧
      loggedFileName pre suf i ∉ ex ∧
      (∀ j, 1 ≤ j → j < i → loggedFileName pre suf j ∈ ex)) ∧
    make_logged_file existing pre suf =
      some (loggedFileName pre suf 1, existing ++ [loggedFileName pre suf 1]) ∧
    make_logged_file (existing ++ [loggedFileName pre suf 1]) pre suf =
      some (loggedFileName pre suf 2,
        existing ++ [loggedFileName pre suf 1] ++ [loggedFileName pre suf 2]) ∧
    make_logged_file (existing ++ [loggedFileName pre suf 1] ++ [loggedFileName pre suf 2])
        pre suf =
      some (loggedFileName pre suf 3,
        existing ++ [loggedFileName pre suf 1] ++ [loggedFileName pre suf 2] ++
          [loggedFileName pre suf 3]) := by
  have general : ∀ ex : List String, ∃ i, 1 ≤ i ∧
      make_logged_file ex pre suf =
        some (loggedFileName pre suf i, ex ++ [loggedFileName pre suf i]) ∧
      loggedFileName pre suf i ∉ ex ∧
      (∀ j, 1 ≤ j → j < i → loggedFileName pre suf j ∈ ex) := by
    intro ex
    obtain ⟨k, hk, hfree⟩ := exists_fresh_name ex pre suf
    obtain ⟨i, hi1, hi2, hi3, hi4⟩ := make_logged_file_loop_finds ex pre suf
      (ex.length + 1) 1 (Nat.le_refl _)
      ⟨k, hk, by rw [Nat.add_comm 1 k]; exact hfree⟩
    exact ⟨i, hi1, by simp [make_logged_file, hi2], hi3, hi4⟩
  have hne21 : loggedFileName pre suf 2 ≠ loggedFileName pre suf 1 := by
    intro h
    have := loggedFileName_inj pre suf 2 (by omega) 1 (by omega) h
    omega
  have hne31 : loggedFileName pre suf 3 ≠ loggedFileName pre suf 1 := by
    intro h
    have := loggedFileName_inj pre suf 3 (by omega) 1 (by omega) h
    omega
  have hne32 : loggedFileName pre suf 3 ≠ loggedFileName pre suf 2 := by
    intro h
    have := loggedFileName_inj pre suf 3 (by omega) 2 (by omega) h
    omega
  refine ⟨general, ?_, ?_, ?_⟩
  · rw [make_logged_file,
      make_logged_file_loop_step_free existing pre suf 1 existing.length h1]
  · have hlen : (existing ++ [loggedFileName pre suf 1]).length =
        existing.length + 1 := by simp
    rw [make_logged_file, hlen,
      make_logged_file_loop_step_mem _ pre suf 1 (existing.length + 1)
        (by simp),
      make_logged_file_loop_step_free _ pre suf 2 existing.length
        (by simp [h2, hne21])]
  · have hlen : (existing ++ [loggedFileName pre suf 1] ++
        [loggedFileName pre suf 2]).length = existing.length + 2 := by simp
    rw [make_logged_file, hlen,
      make_logged_file_loop_step_mem _ pre suf 1 (existing.length + 2)
        (by simp),
      make_logged_file_loop_step_mem _ pre suf 2 (existing.length + 1)
        (by simp),
      make_logged_file_loop_step_free _ pre suf 3 existing.length
        (by simp [h3, hne31, hne32])]

theorem decStr_eval_two : decStr 2 = "2" := by
  have hd : Nat.digits 10 2 = [2] := by
    rw [Nat.digits_def' (by norm_num : (1:ℕ) < 10) (by norm_num : (0:ℕ) < 2)]
    norm_num
  simp only [decStr, decChars, hd]
  decide

theorem decStr_eval_three : decStr 3 = "3" := by
  have hd : Nat.digits 10 3 = [3] := by
    rw [Nat.digits_def' (by norm_num : (1:ℕ) < 10) (by norm_num : (0:ℕ) < 3)]
    norm_num
  simp only [decStr, decChars, hd]
  decide

/-- C6, witness: three calls with prefix `"run"` and suffix `".log"` on an
initially empty directory yield `run.log`, `run2.log`, `run3.log`. -/
theorem make_logged_file_spec_witness :
    make_logged_file [] "run" ".log" =
      some (loggedFileName "run" ".log" 1, [] ++ [loggedFileName "run" ".log" 1]) ∧
    make_logged_file ([] ++ [loggedFileName "run" ".log" 1]) "run" ".log" =
      some (loggedFileName "run" ".log" 2,
        [] ++ [loggedFileName "run" ".log" 1] ++ [loggedFileName "run" ".log" 2]) ∧
    loggedFileName "run" ".log" 1 = "run.log" ∧
    loggedFileName "run" ".log" 2 = "run2.log" ∧
    loggedFileName "run" ".log" 3 = "run3.log" := by
  have h := make_logged_file_spec [] "run" ".log" (by decide)
    (by rw [List.mem_nil_iff]; exact not_false)
    (by rw [List.mem_nil_iff]; exact not_false)
  refine ⟨h.2.1, h.2.2.1, by decide, ?_, ?_⟩
  · simp only [loggedFileName]
    rw [if_neg (by norm_num), decStr_eval_two]
    decide
  · simp only [loggedFileName]
    rw [if_neg (by norm_num), decStr_eval_three]
    decide

/-! ## The logger hierarchy (`EthenoLogger`, logger.py lines 86-250)

Nodes live in an arena (`St.nodes`); a node id is its index, so ids of
children are strictly greater than their parent's (children are only ever
attached at construction, when the child is the freshest node).

Paths: an absolute canonical path is its list of components (the model
assumes symlink-free, `.`/`..`-free component names, so
`os.path.realpath` only resolves relative paths against the working
directory).  `save_to_directory` receives either a path string —
absolute or relative — or, from `_add_child` line 146, the
`tempfile.TemporaryDirectory` OBJECT itself, on which `os.path.realpath`
raises `TypeError` (`os.fspath` rejects it: `TemporaryDirectory` is not
`os.PathLike`).

Python exceptions: operations return `St × Option PyErr`; the state
component reflects every mutation performed before the raise, as in
Python, and `runOps` stops at the first error (the program crashed). -/

inductive PyErr where
  | valueError
  | typeError
  deriving Repr, DecidableEq

inductive PathArg where
  | absPath (comps : List String)
  | relPath (comps : List String)
  | tmpdirObj (t : Nat)
  deriving Repr, DecidableEq

def realpath (cwd : List String) : PathArg → Except PyErr (List String)
  | PathArg.absPath l => Except.ok l
  | PathArg.relPath l => Except.ok (cwd ++ l)
  | PathArg.tmpdirObj _ => Except.error PyErr.typeError

def pathJoin : PathArg → String → PathArg
  | PathArg.absPath l, n => PathArg.absPath (l ++ [n])
  | PathArg.relPath l, n => PathArg.relPath (l ++ [n])
  | PathArg.tmpdirObj t, _ => PathArg.tmpdirObj t

/-- `self.directory == path` (line 215): the stored realpath string
compared to the raw argument; `None == path` and string-vs-object
comparisons are `False`. -/
def dirEq (stored : Option (List String)) (p : PathArg) : Bool :=
  match stored, p with
  | some d, PathArg.absPath l => decide (d = l)
  | _, _ => false

structure FS where
  dirs : List (List String)
  files : List (List String × Nat)
  deriving Repr, DecidableEq

def FS.hasFile (fs : FS) (p : List String) : Bool :=
  fs.files.any (fun e => decide (e.1 = p))

def pathPrefixes (p : List String) : List (List String) :=
  (List.range p.length).map (fun k => p.take (k + 1))

/-- `os.makedirs(path, exist_ok=True)`: creates the directory and every
missing ancestor. -/
def FS.makedirs (fs : FS) (p : List String) : FS :=
  { fs with dirs := fs.dirs ++ (pathPrefixes p).filter (fun q => decide (q ∉ fs.dirs)) }

/-- `logging.FileHandler(path)` opens the file in append mode at
construction, creating an empty file when none exists. -/
def FS.touch (fs : FS) (p : List String) : FS :=
  if fs.hasFile p then fs else { fs with files := fs.files ++ [(p, 0)] }

def FS.removeFile (fs : FS) (p : List String) : FS :=
  { fs with files := fs.files.filter (fun e => decide (e.1 ≠ p)) }

def FS.rmdir (fs : FS) (p : List String) : FS :=
  { fs with dirs := fs.dirs.filter (fun q => decide (q ≠ p)) }

structure Handler where
  /-- `logging.FileHandler` (true) vs `logging.StreamHandler` (false). -/
  isFile : Bool
  /-- for a file handler, `h.stream.name`. -/
  path : List String
  /-- `h.level` (handlers start at `NOTSET = 0`). -/
  level : Int
  /-- `h.stream is not None` (becomes false on `h.close()`). -/
  streamOpen : Bool
  deriving Repr, DecidableEq, Inhabited

/-- The underlying `logging.Logger` object; `logging.getLogger` keys these
by name, so two `EthenoLogger`s with equal names share one. -/
structure LoggerObj where
  level : Int
  handlers : List Nat
  deriving Repr, DecidableEq, Inhabited

structure Node where
  name : String
  parent : Option Nat
  children : List Nat
  /-- `self._log_level`. -/
  logLevel : Option Int
  /-- `self._handlers`. -/
  ethHandlers : List Nat
  /-- `self._descendant_handlers`. -/
  descHandlers : List Nat
  /-- `self._directory` (a realpath). -/
  directory : Option (List String)
  /-- `self._tmpdir`. -/
  tmpdir : Option Nat
  cleanupEmpty : Bool
  deriving Repr, DecidableEq, Inhabited

structure St where
  nodes : List Node
  handlers : List Handler
  loggers : List (String × LoggerObj)
  fs : FS
  cwd : List String
  nextTmp : Nat
  deriving Repr, DecidableEq

def St.node (st : St) (i : Nat) : Node := st.nodes.getD i default

def St.setNode (st : St) (i : Nat) (n : Node) : St :=
  { st with nodes := st.nodes.set i n }

def St.updNode (st : St) (i : Nat) (f : Node → Node) : St :=
  st.setNode i (f (st.node i))

def St.handler (st : St) (h : Nat) : Handler := st.handlers.getD h default

def St.updHandler (st : St) (h : Nat) (f : Handler → Handler) : St :=
  { st with handlers := st.handlers.set h (f (st.handler h)) }

def updLoggerAssoc (l : List (String × LoggerObj)) (name : String)
    (f : LoggerObj → LoggerObj) : List (String × LoggerObj) :=
  l.map (fun e => if e.1 = name then (e.1, f e.2) else e)

/-- `logging.getLogger(name)` (line 100): reuses an existing logger of
that name, otherwise registers a fresh one (level `NOTSET`, no
handlers). -/
def getLoggerEnsure (st : St) (name : String) : St :=
  if st.loggers.any (fun e => decide (e.1 = name)) then st
  else { st with loggers := st.loggers ++ [(name, { level := 0, handlers := [] })] }

/-- The handler list of the underlying `logging.Logger` of node `i`. -/
def loggerHandlersOf (st : St) (i : Nat) : List Nat :=
  ((st.loggers.lookup (st.node i).name).getD default).handlers

/-- `Logger.addHandler` of the logging library: appends unless the handler
is already present (CPython: `if not (hdlr in self.handlers)`). -/
def St.loggerAdd (st : St) (name : String) (h : Nat) : St :=
  { st with loggers := updLoggerAssoc st.loggers name
                (fun lo => if h ∈ lo.handlers then lo
                           else { lo with handlers := lo.handlers ++ [h] }) }

/-- The `log_level` property (lines 226-233): the node's own
`_log_level`, resolved through the parent chain when unset.  Parent ids
are strictly smaller than child ids, so `i + 1` steps suffice; `none`
models the `ValueError` the getter raises on an unset root. -/
def St.logLevelOf (st : St) : Nat → Nat → Option Int
  | 0, _ => none
  | fuel + 1, i =>
    match (st.node i).logLevel with
    | some v => some v
    | none =>
      match (st.node i).parent with
      | some p => st.logLevelOf fuel p
      | none => none

def St.getLogLevel (st : St) (i : Nat) : Int :=
  (st.logLevelOf (i + 1) i).getD 0

inductive LevelArg where
  | int (n : Int)
  | str (s : String)
  deriving Repr, DecidableEq

def pyUpper (s : String) : String := String.mk (s.data.map Char.toUpper)

/-- `getattr(logging, name)` restricted to the module's integer level
constants; any other attribute name raises `AttributeError` here.  (The
logging module has further, non-integer attributes; a string naming one
of those would pass the `getattr` and blow up later inside
`Logger.setLevel`, also a `ValueError` — no claim depends on that path,
so those attributes are left out.) -/
def loggingAttr (s : String) : Option Int :=
  if s = "CRITICAL" then some 50
  else if s = "FATAL" then some 50
  else if s = "ERROR" then some 40
  else if s = "WARNING" then some 30
  else if s = "WARN" then some 30
  else if s = "INFO" then some 20
  else if s = "DEBUG" then some 10
  else if s = "NOTSET" then some 0
  else none

/-- The tuple `(CRITICAL, ERROR, WARNING, INFO, DEBUG)` of line 242. -/
def recognizedLevels : List Int := [50, 40, 30, 20, 10]

/-- Validation performed by the `log_level` setter (lines 236-243): an
int is checked against the five recognized constants; anything else is
converted via `getattr(logging, str(level).upper())`, unrecognized names
raising `ValueError`. -/
def checkLevelArg (arg : LevelArg) : Except PyErr Int :=
  match arg with
  | LevelArg.int n =>
    if n ∈ recognizedLevels then Except.ok n else Except.error PyErr.valueError
  | LevelArg.str s =>
    match loggingAttr (pyUpper s) with
    | some v => Except.ok v
    | none => Except.error PyErr.valueError

def setLevels (v : Int) (hs : List Nat) (s : St) : St :=
  hs.foldl (fun s h => s.updHandler h (fun hd => { hd with level := v })) s

/-- First two mutations of the successful setter branch: store
`_log_level` and set the underlying logger's level. -/
def setterMid (st : St) (i : Nat) (v : Int) : St :=
  let st1 := st.updNode i (fun n => { n with logLevel := some v })
  { st1 with loggers := updLoggerAssoc st1.loggers (st1.node i).name
               (fun lo => { lo with level := v }) }

/-- Successful branch of the `log_level` setter: store `_log_level`, set
the underlying logger's level, and set the level of every handler in
`self._handlers`. -/
def set_log_level_ok (st : St) (i : Nat) (v : Int) : St :=
  setLevels v ((setterMid st i v).node i).ethHandlers (setterMid st i v)

/-- The `log_level` setter (lines 235-247): validate, then apply. -/
def set_log_level (st : St) (i : Nat) (arg : LevelArg) : St × Option PyErr :=
  match checkLevelArg arg with
  | Except.error e => (st, some e)
  | Except.ok v => (set_log_level_ok st i v, none)

/-- `addHandler` (lines 160-171), fuel-recursive over the subtree (child
ids strictly exceed their parent's, so `st.nodes.length` fuel covers any
chain).  Optionally sets the handler's level to this node's effective
level, adds it to the underlying logger (library-side dedup), appends to
`self._handlers`, and with `include_descendants` records it in
`self._descendant_handlers` and recurses into every child. -/
def addHandlerAux (h : Nat) (includeDesc setLvl : Bool) :
    Nat → Nat → St → St
  | 0, _, st => st
  | fuel + 1, x, st =>
    let st1 := if setLvl then st.updHandler h (fun hd => { hd with level := st.getLogLevel x })
               else st
    let st2 := st1.loggerAdd (st1.node x).name h
    let st3 := st2.updNode x (fun n => { n with ethHandlers := n.ethHandlers ++ [h] })
    if includeDesc then
      let st4 := st3.updNode x (fun n => { n with descHandlers := n.descHandlers ++ [h] })
      (st4.node x).children.foldl (fun s c => addHandlerAux h includeDesc setLvl fuel c s) st4
    else st3

def addHandler (st : St) (x h : Nat) (includeDesc setLvl : Bool) : St :=
  addHandlerAux h includeDesc setLvl st.nodes.length x st

/-- `save_to_file` (lines 206-212) with an explicit level, as
`save_to_directory` calls it: construct a `logging.FileHandler` on the
resolved path (append mode, so an empty file appears if none exists),
set its level, and attach it via `addHandler` with
`set_log_level=False`. -/
def saveFileMid (st : St) (path : List String) (lvl : Int) : St :=
  { st with
    handlers := st.handlers ++
      [({ isFile := true, path := path, level := lvl, streamOpen := true } : Handler)],
    fs := st.fs.touch path }

def save_to_file (st : St) (x : Nat) (path : List String)
    (includeDesc : Bool) (lvl : Int) : St :=
  addHandler (saveFileMid st path lvl) x st.handlers.length includeDesc false

/-- `save_to_directory` (lines 214-224): no-op when the stored directory
string equals the raw argument; `ValueError` when a different directory
is stored; otherwise store the realpath (`TypeError` here when handed
the `TemporaryDirectory` object), create the directory, attach a
debug-level file sink at `<path>/<name>.log` without descendant
propagation, and recurse into each child on the raw joined path. -/
def save_to_directoryAux : Nat → Nat → PathArg → St → St × Option PyErr
  | 0, _, _, st => (st, none)
  | fuel + 1, x, p, st =>
    if dirEq (st.node x).directory p then (st, none)
    else if (st.node x).directory.isSome then (st, some PyErr.valueError)
    else
      match realpath st.cwd p with
      | Except.error e => (st, some e)
      | Except.ok rp =>
        let st1 := st.updNode x (fun n => { n with directory := some rp })
        let st2 := { st1 with fs := st1.fs.makedirs rp }
        let st3 := save_to_file st2 x (rp ++ [(st2.node x).name ++ ".log"]) false 10
        (st3.node x).children.foldl
          (fun acc c =>
            match acc with
            | (s, some e) => (s, some e)
            | (s, none) => save_to_directoryAux fuel c (pathJoin p (s.node c).name) s)
          (st3, none)

def save_to_directory (st : St) (x : Nat) (p : PathArg) : St × Option PyErr :=
  save_to_directoryAux (st.nodes.length + 1) x p st

/-- Number of iterations of the `while parent is not None` loop of
`_add_child` (lines 147-151): the length of the chain from `self` to the
root.  Each iteration replays `self._descendant_handlers` — the loop
reads `self`'s list, not `parent`'s. -/
def chainLength (st : St) : Nat → Nat → Nat
  | 0, _ => 0
  | fuel + 1, i =>
    match (st.node i).parent with
    | some p => chainLength st fuel p + 1
    | none => 1

def repeatAddHandlers (c : Nat) (hs : List Nat) : Nat → St → St
  | 0, st => st
  | k + 1, st =>
    let st1 := hs.foldl (fun s h => addHandler s c h true true) st
    repeatAddHandlers c hs k st1

/-- The abstract location `tempfile.TemporaryDirectory()` number `t`
creates. -/
def tmpPath (t : Nat) : List String := ["tmp", "etheno-" ++ decStr t]

/-- `_add_child` (lines 138-151): reject a child already present (object
identity, hence arena id); append it; hand it a directory — the parent's
directory joined with the child's name when assigned, otherwise a fresh
`TemporaryDirectory` whose OBJECT is passed to `save_to_directory`,
which therefore raises `TypeError`; finally replay
`self._descendant_handlers` into the child once per node on the chain up
to the root.  `add_child_dirless` is the directory-less branch (lines
144-146): create a `TemporaryDirectory`, store it in `child._tmpdir`,
and pass the OBJECT to `save_to_directory`. -/
def add_child_dirless (st1 : St) (c : Nat) : St × Option PyErr :=
  let t := st1.nextTmp
  let stt := { st1 with nextTmp := t + 1, fs := st1.fs.makedirs (tmpPath t) }
  let stt2 := stt.updNode c (fun n => { n with tmpdir := some t })
  save_to_directory stt2 c (PathArg.tmpdirObj t)

def add_child (st : St) (p c : Nat) : St × Option PyErr :=
  if c ∈ (st.node p).children then (st, some PyErr.valueError)
  else
    let st1 := st.updNode p (fun n => { n with children := n.children ++ [c] })
    let res :=
      match (st1.node p).directory with
      | some d => save_to_directory st1 c (PathArg.absPath (d ++ [(st1.node c).name]))
      | none => add_child_dirless st1 c
    match res with
    | (st2, some e) => (st2, some e)
    | (st2, none) =>
      let hs := (st2.node p).descHandlers
      let k := chainLength st2 (st2.nodes.length + 1) p
      (repeatAddHandlers c hs k st2, none)

/-- The freshly allocated node of `__init__` lines 90-99: directory
unset, no children, no descendant handlers, `_log_level` stored
eagerly — line 99 copies the parent's CURRENT level when the argument is
`None` (resolved in `mkLogger`).  `self._tmpdir = None`, line 111, is
the initial state of `tmpdir`; in every non-crashed run `_add_child` has
not set it. -/
def mkNode0 (name : String) (lvl : Int) (parent : Option Nat) (cleanup : Bool) : Node :=
  { name := name, parent := parent, children := [], logLevel := some lvl,
    ethHandlers := [], descHandlers := [], directory := none, tmpdir := none,
    cleanupEmpty := cleanup }

/-- `logging.StreamHandler()` of line 101. -/
def consoleHandler : Handler :=
  { isFile := false, path := [], level := 0, streamOpen := true }

/-- State after lines 89-101: node allocated, underlying logger
obtained, console handler created and stored as `self._handlers[0]`. -/
def mkSt4 (st : St) (name : String) (lvl : Int) (parent : Option Nat)
    (cleanup : Bool) : St :=
  let st2 := getLoggerEnsure
    { st with nodes := st.nodes ++ [mkNode0 name lvl parent cleanup] } name
  ({ st2 with handlers := st2.handlers ++ [consoleHandler] } : St).updNode
    st.nodes.length (fun n => { n with ethHandlers := [st2.handlers.length] })

/-- The console handler's index: `getLoggerEnsure` does not touch the
handler array. -/
def mkHid (st : St) : Nat := st.handlers.length

/-- `EthenoLogger.__init__` (lines 89-111) with the level already
resolved to an int.  Order follows the source: allocate the node,
get-or-create the underlying logger, create the console `StreamHandler`
as `self._handlers[0]` (= `mkSt4`), run the `log_level` setter, then
`parent._add_child(self)`, then attach the console handler to the
underlying logger. -/
def mkLoggerCore (st : St) (name : String) (lvl : Int) (parent : Option Nat)
    (cleanup : Bool) : St × Option PyErr :=
  let nid := st.nodes.length
  let hid := (getLoggerEnsure
    { st with nodes := st.nodes ++ [mkNode0 name lvl parent cleanup] } name).handlers.length
  match set_log_level (mkSt4 st name lvl parent cleanup) nid (LevelArg.int lvl) with
  | (st5, some e) => (st5, some e)
  | (st5, none) =>
    match parent with
    | none => (st5.loggerAdd name hid, none)
    | some p =>
      match add_child st5 p nid with
      | (st6, some e) => (st6, some e)
      | (st6, none) => (st6.loggerAdd name hid, none)

/-- `EthenoLogger(name, log_level, parent, cleanup_empty)`: a `None`
level requires a parent (line 97) and is resolved by reading the
parent's `log_level` property eagerly, before construction proceeds. -/
def mkLogger (st : St) (name : String) (lvl : Option Int) (parent : Option Nat)
    (cleanup : Bool) : St × Option PyErr :=
  match lvl, parent with
  | none, none => (st, some PyErr.valueError)
  | none, some p => mkLoggerCore st name (st.getLogLevel p) (some p) cleanup
  | some v, _ => mkLoggerCore st name v parent cleanup

/-- The zero-byte-file pass of `close` (lines 117-124): for each
`FileHandler` in `self._handlers` whose stream is open, if its log file
exists with size 0, close the handler and remove the file. -/
def cleanupStep (s : St) (h : Nat) : St :=
  let hd := s.handler h
  if hd.isFile && hd.streamOpen then
    match s.fs.files.find? (fun e => decide (e.1 = hd.path)) with
    | some entry =>
      if entry.2 = 0 then
        let s1 := s.updHandler h (fun hh => { hh with streamOpen := false })
        { s1 with fs := s1.fs.removeFile hd.path }
      else s
    | none => s
  else s

def fileCleanup (st : St) (x : Nat) : St :=
  (st.node x).ethHandlers.foldl cleanupStep st

/-- `os.walk(self.directory, topdown=False)` driving `os.rmdir` (lines
126-129): bottom-up; a directory's listing is taken when its generator
frame starts, i.e. before its subtree is processed, so a directory
emptied by the removal of its own subdirectory is NOT removed (its
recorded listing still names it), while one emptied by the earlier
file-removal pass is. -/
def walkCleanupAux : Nat → List String → List String → FS → FS
  | 0, _, _, fs => fs
  | fuel + 1, top, root, fs =>
    let subdirs := fs.dirs.filter
      (fun q => decide (q.length = top.length + 1 ∧ q.take top.length = top))
    let subfiles := fs.files.filter
      (fun e => decide (e.1.length = top.length + 1 ∧ e.1.take top.length = top))
    let fs1 := subdirs.foldl (fun f d => walkCleanupAux fuel d root f) fs
    if subdirs.isEmpty && subfiles.isEmpty && decide (top ≠ root) then fs1.rmdir top
    else fs1

def FS.maxPathLen (fs : FS) : Nat :=
  fs.dirs.foldl (fun m p => max m p.length) 0

def dirCleanup (fs : FS) (root : List String) : FS :=
  walkCleanupAux (fs.maxPathLen + 1) root root fs

/-- `close` (lines 113-132): recurse into the children first; then, when
`cleanup_empty`, remove the zero-byte files of this node's handlers and
the directories under `self.directory` that `os.walk` reports empty;
finally release `self._tmpdir` (removing the temporary tree). -/
def closeNodePhase (st1 : St) (x : Nat) : St :=
  let st2 :=
    if (st1.node x).cleanupEmpty then
      let stf := fileCleanup st1 x
      match (stf.node x).directory with
      | some d => { stf with fs := dirCleanup stf.fs d }
      | none => stf
    else st1
  match (st2.node x).tmpdir with
  | some t =>
    let st3 := st2.updNode x (fun n => { n with tmpdir := none })
    { st3 with fs := { dirs := st3.fs.dirs.filter (fun q => decide (q.take 2 ≠ tmpPath t)),
                       files := st3.fs.files.filter (fun e => decide (e.1.take 2 ≠ tmpPath t)) } }
  | none => st2

def closeAux : Nat → Nat → St → St
  | 0, _, st => st
  | fuel + 1, x, st =>
    closeNodePhase ((st.node x).children.foldl (fun s c => closeAux fuel c s) st) x

def closeLogger (st : St) (x : Nat) : St :=
  closeAux (st.nodes.length + 1) x st

/-! ### Operation sequences -/

inductive Op where
  /-- `EthenoLogger(name, log_level, parent, cleanup_empty)`. -/
  | newLogger (name : String) (lvl : Option Int) (parent : Option Nat) (cleanup : Bool)
  /-- construct a fresh handler object and `addHandler` it at `x`. -/
  | attachFresh (x : Nat) (isFile : Bool) (path : List String) (includeDesc setLvl : Bool)
  /-- `addHandler` at `x` of a handler object the caller already holds. -/
  | attachExisting (x h : Nat) (includeDesc setLvl : Bool)
  /-- the `log_level` setter at `x`. -/
  | setLevel (x : Nat) (arg : LevelArg)
  /-- `save_to_directory` at `x`. -/
  | saveDir (x : Nat) (p : PathArg)
  /-- `close` at `x`. -/
  | closeOp (x : Nat)

def step (st : St) : Op → St × Option PyErr
  | Op.newLogger name lvl parent cleanup => mkLogger st name lvl parent cleanup
  | Op.attachFresh x isFile path includeDesc setLvl =>
    let hid := st.handlers.length
    let st1 := { st with handlers := st.handlers ++
                    [({ isFile := isFile, path := path, level := 0, streamOpen := true } : Handler)] }
    (addHandler st1 x hid includeDesc setLvl, none)
  | Op.attachExisting x h includeDesc setLvl =>
    (addHandler st x h includeDesc setLvl, none)
  | Op.setLevel x arg => set_log_level st x arg
  | Op.saveDir x p => save_to_directory st x p
  | Op.closeOp x => (closeLogger st x, none)

def runOps : St → List Op → St × Option PyErr
  | st, [] => (st, none)
  | st, op :: ops =>
    match step st op with
    | (st1, none) => runOps st1 ops
    | (st1, some e) => (st1, some e)

def St.empty (cwd : List String) : St :=
  { nodes := [], handlers := [], loggers := [],
    fs := { dirs := [], files := [] }, cwd := cwd, nextTmp := 0 }

/-- `d` is reachable from `x` by child links. -/
inductive Reaches (st : St) : Nat → Nat → Prop
  | refl (x : Nat) : Reaches st x x
  | step {x c d : Nat} : c ∈ (st.node x).children → Reaches st c d → Reaches st x d

/-! ### Arena accessor lemmas -/

theorem St.node_updNode_self (st : St) (i : Nat) (f : Node → Node)
    (h : i < st.nodes.length) : (st.updNode i f).node i = f (st.node i) := by
  simp [St.updNode, St.setNode, St.node, List.getD_eq_getElem?_getD,
    List.getElem?_set_self, h]

theorem St.node_updNode_ne (st : St) (i j : Nat) (f : Node → Node)
    (h : i ≠ j) : (st.updNode i f).node j = st.node j := by
  simp [St.updNode, St.setNode, St.node, List.getD_eq_getElem?_getD,
    List.getElem?_set_ne h]

theorem St.node_updNode_oob (st : St) (i : Nat) (f : Node → Node)
    (h : st.nodes.length ≤ i) : (st.updNode i f).nodes = st.nodes := by
  simp [St.updNode, St.setNode, List.set_eq_of_length_le h]

theorem St.node_eq_of_nodes_eq {st st' : St} (h : st'.nodes = st.nodes) (j : Nat) :
    st'.node j = st.node j := by
  simp [St.node, h]

theorem St.handler_updHandler_self (st : St) (hh : Nat) (f : Handler → Handler)
    (h : hh < st.handlers.length) :
    (st.updHandler hh f).handler hh = f (st.handler hh) := by
  simp [St.updHandler, St.handler, List.getD_eq_getElem?_getD,
    List.getElem?_set_self, h]

theorem St.handler_updHandler_ne (st : St) (hh j : Nat) (f : Handler → Handler)
    (h : hh ≠ j) : (st.updHandler hh f).handler j = st.handler j := by
  simp [St.updHandler, St.handler, List.getD_eq_getElem?_getD,
    List.getElem?_set_ne h]

theorem St.handlers_length_updHandler (st : St) (hh : Nat) (f : Handler → Handler) :
    (st.updHandler hh f).handlers.length = st.handlers.length := by
  simp [St.updHandler]

/-! ### The severity setter: C9 -/

theorem setLevels_cons (v : Int) (a : Nat) (t : List Nat) (s : St) :
    setLevels v (a :: t) s =
      setLevels v t (s.updHandler a (fun hd => { hd with level := v })) := rfl

theorem setLevels_frame (v : Int) (hs : List Nat) (s : St) :
    (setLevels v hs s).nodes = s.nodes ∧ (setLevels v hs s).loggers = s.loggers ∧
    (setLevels v hs s).fs = s.fs ∧ (setLevels v hs s).cwd = s.cwd ∧
    (setLevels v hs s).nextTmp = s.nextTmp ∧
    (setLevels v hs s).handlers.length = s.handlers.length := by
  induction hs generalizing s with
  | nil => exact ⟨rfl, rfl, rfl, rfl, rfl, rfl⟩
  | cons a t ih =>
    rw [setLevels_cons]
    have h := ih (s.updHandler a (fun hd => { hd with level := v }))
    refine ⟨h.1, h.2.1, h.2.2.1, h.2.2.2.1, h.2.2.2.2.1, ?_⟩
    rw [h.2.2.2.2.2, St.handlers_length_updHandler]

theorem setLevels_handler_not_mem (v : Int) (hs : List Nat) (s : St) (h : Nat)
    (hnot : h ∉ hs) : (setLevels v hs s).handler h = s.handler h := by
  induction hs generalizing s with
  | nil => rfl
  | cons a t ih =>
    rw [setLevels_cons]
    have hna : a ≠ h := fun e => hnot (by simp [e])
    rw [ih _ (fun e => hnot (by simp [e]))]
    exact St.handler_updHandler_ne s a h _ hna

theorem setLevels_sets (v : Int) (hs : List Nat) (s : St) :
    ∀ h ∈ hs, h < s.handlers.length → ((setLevels v hs s).handler h).level = v := by
  induction hs generalizing s with
  | nil => intro h hmem; simp at hmem
  | cons a t ih =>
    intro h hmem hlt
    rw [setLevels_cons]
    have hlen : (s.updHandler a (fun hd => { hd with level := v })).handlers.length
        = s.handlers.length := St.handlers_length_updHandler _ _ _
    rcases List.mem_cons.mp hmem with rfl | hmem'
    · by_cases ht : h ∈ t
      · exact ih _ h ht (by omega)
      · rw [setLevels_handler_not_mem v t _ h ht,
          St.handler_updHandler_self s h _ hlt]
    · exact ih _ h hmem' (by omega)

theorem set_log_level_ok_spec (st : St) (i : Nat) (v : Int)
    (hi : i < st.nodes.length) :
    ((set_log_level_ok st i v).node i).logLevel = some v ∧
    (∀ j, j ≠ i → (set_log_level_ok st i v).node j = st.node j) ∧
    (∀ h ∈ (st.node i).ethHandlers, h < st.handlers.length →
      ((set_log_level_ok st i v).handler h).level = v) ∧
    ((set_log_level_ok st i v).node i).ethHandlers = (st.node i).ethHandlers ∧
    ((set_log_level_ok st i v).node i).descHandlers = (st.node i).descHandlers ∧
    ((set_log_level_ok st i v).node i).children = (st.node i).children ∧
    (set_log_level_ok st i v).nodes.length = st.nodes.length ∧
    (set_log_level_ok st i v).fs = st.fs := by
  have h1 : ∀ j, (setterMid st i v).node j =
      (if j = i then { st.node i with logLevel := some v } else st.node j) := by
    intro j
    by_cases hj : j = i
    · subst hj
      show ((st.updNode j (fun n => { n with logLevel := some v })).node j) = _
      simp [St.node_updNode_self st j _ hi]
    · show ((st.updNode i (fun n => { n with logLevel := some v })).node j) = _
      simp [hj, St.node_updNode_ne st i j _ (fun e => hj e.symm)]
  have hres : set_log_level_ok st i v =
      setLevels v ((setterMid st i v).node i).ethHandlers (setterMid st i v) := rfl
  have hframe := setLevels_frame v ((setterMid st i v).node i).ethHandlers (setterMid st i v)
  have hnodes : (set_log_level_ok st i v).nodes = (setterMid st i v).nodes := by
    rw [hres]; exact hframe.1
  have hmidnodes : (setterMid st i v).nodes =
      (st.updNode i (fun n => { n with logLevel := some v })).nodes := rfl
  have hnode : ∀ j, (set_log_level_ok st i v).node j = (setterMid st i v).node j :=
    fun j => St.node_eq_of_nodes_eq hnodes j
  have heth : ((setterMid st i v).node i).ethHandlers = (st.node i).ethHandlers := by
    rw [h1]; simp
  have hhlen : (setterMid st i v).handlers.length = st.handlers.length := rfl
  refine ⟨?_, ?_, ?_, ?_, ?_, ?_, ?_, ?_⟩
  · rw [hnode, h1]; simp
  · intro j hj
    rw [hnode, h1]; simp [hj]
  · intro h hmem hlt
    rw [hres, heth]
    exact setLevels_sets v _ (setterMid st i v) h hmem (by rw [hhlen]; exact hlt)
  · rw [hnode, h1]; simp
  · rw [hnode, h1]; simp
  · rw [hnode, h1]; simp
  · rw [hnodes, hmidnodes]
    simp [St.updNode, St.setNode]
  · rw [hres, hframe.2.2.1]
    rfl

/-- C9, amended: the severity setter rejects any INT outside the five
recognized constants and any STRING that does not name a logging-module
level constant, synchronously with `ValueError`; but a string naming any
logging level constant is accepted — in particular `"notset"` succeeds
and stores `NOTSET = 0`, which lies outside the recognized set.  On
success it stores the level, updates the level of every handler attached
to this node, and leaves every other node — in particular every
descendant's own `_log_level` — untouched. -/
theorem setLevel_spec (st : St) (i : Nat) (hi : i < st.nodes.length)
    (hh : ∀ h ∈ (st.node i).ethHandlers, h < st.handlers.length) :
    (∀ n : Int, n ∉ recognizedLevels →
      set_log_level st i (LevelArg.int n) = (st, some PyErr.valueError)) ∧
    (∀ s : String, loggingAttr (pyUpper s) = none →
      set_log_level st i (LevelArg.str s) = (st, some PyErr.valueError)) ∧
    (∀ v : Int, v ∈ recognizedLevels →
      set_log_level st i (LevelArg.int v) = (set_log_level_ok st i v, none) ∧
      ((set_log_level_ok st i v).node i).logLevel = some v ∧
      (∀ h ∈ (st.node i).ethHandlers, ((set_log_level_ok st i v).handler h).level = v) ∧
      (∀ j, j ≠ i → (set_log_level_ok st i v).node j = st.node j)) := by
  refine ⟨?_, ?_, ?_⟩
  · intro n hn
    simp [set_log_level, checkLevelArg, hn]
  · intro s hs
    simp [set_log_level, checkLevelArg, hs]
  · intro v hv
    have hspec := set_log_level_ok_spec st i v hi
    exact ⟨by simp [set_log_level, checkLevelArg, hv], hspec.1,
      fun h hmem => hspec.2.2.1 h hmem (hh h hmem), hspec.2.1⟩

/-- C9, counterexample to the claim as stated: in a real run, setting the
root's level to the string `"notset"` — a value outside the recognized
severity set — succeeds (no error) and stores `NOTSET = 0`. -/
theorem setLevel_cex :
    (runOps (St.empty ["cwd"]) [Op.newLogger "root" (some 20) none false,
        Op.setLevel 0 (LevelArg.str "notset")]).2 = none ∧
    (((runOps (St.empty ["cwd"]) [Op.newLogger "root" (some 20) none false,
        Op.setLevel 0 (LevelArg.str "notset")]).1.node 0).logLevel = some 0) ∧
    (0 : Int) ∉ recognizedLevels := by
  refine ⟨by decide, by decide, by decide⟩

/-- C9, witness: in the one-root state, an out-of-set int (`25`) and an
unrecognized string (`"loud"`) are rejected, and the recognized
`WARNING = 30` succeeds, updating the root's threshold and its handlers'
levels. -/
theorem setLevel_spec_witness :
    (∀ n : Int, n ∉ recognizedLevels →
      set_log_level (runOps (St.empty ["cwd"])
          [Op.newLogger "root" (some 20) none false]).1 0 (LevelArg.int n) =
        ((runOps (St.empty ["cwd"]) [Op.newLogger "root" (some 20) none false]).1,
          some PyErr.valueError)) ∧
    (∀ s : String, loggingAttr (pyUpper s) = none →
      set_log_level (runOps (St.empty ["cwd"])
          [Op.newLogger "root" (some 20) none false]).1 0 (LevelArg.str s) =
        ((runOps (St.empty ["cwd"]) [Op.newLogger "root" (some 20) none false]).1,
          some PyErr.valueError)) ∧
    (∀ v : Int, v ∈ recognizedLevels →
      set_log_level (runOps (St.empty ["cwd"])
          [Op.newLogger "root" (some 20) none false]).1 0 (LevelArg.int v) =
        (set_log_level_ok (runOps (St.empty ["cwd"])
          [Op.newLogger "root" (some 20) none false]).1 0 v, none) ∧
      ((set_log_level_ok (runOps (St.empty ["cwd"])
          [Op.newLogger "root" (some 20) none false]).1 0 v).node 0).logLevel = some v ∧
      (∀ h ∈ ((runOps (St.empty ["cwd"])
          [Op.newLogger "root" (some 20) none false]).1.node 0).ethHandlers,
        ((set_log_level_ok (runOps (St.empty ["cwd"])
          [Op.newLogger "root" (some 20) none false]).1 0 v).handler h).level = v) ∧
      (∀ j, j ≠ 0 → (set_log_level_ok (runOps (St.empty ["cwd"])
          [Op.newLogger "root" (some 20) none false]).1 0 v).node j =
        (runOps (St.empty ["cwd"]) [Op.newLogger "root" (some 20) none false]).1.node j)) :=
  setLevel_spec (runOps (St.empty ["cwd"]) [Op.newLogger "root" (some 20) none false]).1 0
    (by decide) (by decide)

/-! ### Frame lemmas

`NodeShape st st'`: `st'` differs from `st` at most in handler levels,
logger handler lists / levels, the per-node handler lists, and the
handler array beyond its old entries — the relation every
`addHandler`-family function preserves.  `DirShape` is the analogue for
`save_to_directory`: it additionally allows `directory`, `ethHandlers`,
the filesystem and fresh handler allocation to change, but keeps
`descHandlers`. -/

def NodeShape (st st' : St) : Prop :=
  st'.nodes.length = st.nodes.length ∧
  (∀ j, (st'.node j).name = (st.node j).name ∧
    (st'.node j).parent = (st.node j).parent ∧
    (st'.node j).children = (st.node j).children ∧
    (st'.node j).logLevel = (st.node j).logLevel ∧
    (st'.node j).directory = (st.node j).directory ∧
    (st'.node j).tmpdir = (st.node j).tmpdir ∧
    (st'.node j).cleanupEmpty = (st.node j).cleanupEmpty) ∧
  st'.fs = st.fs ∧ st'.cwd = st.cwd ∧ st'.nextTmp = st.nextTmp ∧
  st'.handlers.length = st.handlers.length ∧
  st'.loggers.map Prod.fst = st.loggers.map Prod.fst

theorem nodeShape_refl (st : St) : NodeShape st st :=
  ⟨rfl, fun _ => ⟨rfl, rfl, rfl, rfl, rfl, rfl, rfl⟩, rfl, rfl, rfl, rfl, rfl⟩

theorem nodeShape_comp {a b c : St} (h1 : NodeShape a b) (h2 : NodeShape b c) :
    NodeShape a c := by
  obtain ⟨l1, n1, f1, c1, t1, hl1, k1⟩ := h1
  obtain ⟨l2, n2, f2, c2, t2, hl2, k2⟩ := h2
  refine ⟨l2.trans l1, fun j => ?_, f2.trans f1, c2.trans c1, t2.trans t1,
    hl2.trans hl1, k2.trans k1⟩
  obtain ⟨a1, a2, a3, a4, a5, a6, a7⟩ := n1 j
  obtain ⟨b1, b2, b3, b4, b5, b6, b7⟩ := n2 j
  exact ⟨b1.trans a1, b2.trans a2, b3.trans a3, b4.trans a4, b5.trans a5,
    b6.trans a6, b7.trans a7⟩

theorem updNode_nodeShape (st : St) (x : Nat) (f : Node → Node)
    (hf : ∀ n, (f n).name = n.name ∧ (f n).parent = n.parent ∧
      (f n).children = n.children ∧ (f n).logLevel = n.logLevel ∧
      (f n).directory = n.directory ∧ (f n).tmpdir = n.tmpdir ∧
      (f n).cleanupEmpty = n.cleanupEmpty) :
    NodeShape st (st.updNode x f) := by
  by_cases hx : x < st.nodes.length
  · refine ⟨by simp [St.updNode, St.setNode], ?_, rfl, rfl, rfl, rfl, rfl⟩
    intro j
    by_cases hj : j = x
    · subst hj
      rw [St.node_updNode_self st j f hx]
      exact hf _
    · rw [St.node_updNode_ne st x j f (fun e => hj e.symm)]
      exact ⟨rfl, rfl, rfl, rfl, rfl, rfl, rfl⟩
  · have hnn := St.node_updNode_oob st x f (by omega)
    refine ⟨by rw [hnn], fun j => ?_, rfl, rfl, rfl, rfl, rfl⟩
    rw [St.node_eq_of_nodes_eq hnn]
    exact ⟨rfl, rfl, rfl, rfl, rfl, rfl, rfl⟩

theorem updHandler_nodeShape (st : St) (hh : Nat) (f : Handler → Handler) :
    NodeShape st (st.updHandler hh f) :=
  ⟨rfl, fun _ => ⟨rfl, rfl, rfl, rfl, rfl, rfl, rfl⟩, rfl, rfl, rfl,
    St.handlers_length_updHandler st hh f, rfl⟩

theorem updLoggerAssoc_keys (l : List (String × LoggerObj)) (name : String)
    (f : LoggerObj → LoggerObj) :
    (updLoggerAssoc l name f).map Prod.fst = l.map Prod.fst := by
  unfold updLoggerAssoc
  rw [List.map_map]
  apply List.map_congr_left
  intro e _
  by_cases h : e.1 = name <;> simp [h, Function.comp]

theorem loggerAdd_nodeShape (st : St) (name : String) (h : Nat) :
    NodeShape st (st.loggerAdd name h) := by
  refine ⟨rfl, fun _ => ⟨rfl, rfl, rfl, rfl, rfl, rfl, rfl⟩, rfl, rfl, rfl, rfl, ?_⟩
  unfold St.loggerAdd
  exact updLoggerAssoc_keys st.loggers name
    (fun lo => if h ∈ lo.handlers then lo else { lo with handlers := lo.handlers ++ [h] })

theorem foldl_nodeShape {α : Type} (f : St → α → St) (hf : ∀ s a, NodeShape s (f s a)) :
    ∀ (l : List α) (s : St), NodeShape s (l.foldl f s) := by
  intro l
  induction l with
  | nil => intro s; exact nodeShape_refl s
  | cons a t ih =>
    intro s
    exact nodeShape_comp (hf s a) (ih (f s a))

theorem addHandlerAux_nodeShape (h : Nat) (inc slvl : Bool) :
    ∀ fuel x st, NodeShape st (addHandlerAux h inc slvl fuel x st) := by
  intro fuel
  induction fuel with
  | zero => intro x st; exact nodeShape_refl st
  | succ fuel ih =>
    intro x st
    have hbase : NodeShape st (if slvl then
        st.updHandler h (fun hd => { hd with level := st.getLogLevel x }) else st) := by
      by_cases hs : slvl
      · rw [if_pos hs]; exact updHandler_nodeShape _ _ _
      · rw [if_neg hs]; exact nodeShape_refl _
    simp only [addHandlerAux]
    by_cases hinc : inc
    · rw [if_pos hinc]
      refine nodeShape_comp (nodeShape_comp (nodeShape_comp (nodeShape_comp hbase
        (loggerAdd_nodeShape _ _ _)) (updNode_nodeShape _ _ _ ?_))
        (updNode_nodeShape _ _ _ ?_)) (foldl_nodeShape _ ?_ _ _)
      · intro n; exact ⟨rfl, rfl, rfl, rfl, rfl, rfl, rfl⟩
      · intro n; exact ⟨rfl, rfl, rfl, rfl, rfl, rfl, rfl⟩
      · intro s c; exact ih c s
    · rw [if_neg hinc]
      refine nodeShape_comp (nodeShape_comp hbase (loggerAdd_nodeShape _ _ _))
        (updNode_nodeShape _ _ _ ?_)
      intro n; exact ⟨rfl, rfl, rfl, rfl, rfl, rfl, rfl⟩

theorem addHandler_nodeShape (st : St) (x h : Nat) (inc slvl : Bool) :
    NodeShape st (addHandler st x h inc slvl) :=
  addHandlerAux_nodeShape h inc slvl st.nodes.length x st

theorem repeatAddHandlers_nodeShape (c : Nat) (hs : List Nat) :
    ∀ k st, NodeShape st (repeatAddHandlers c hs k st) := by
  intro k
  induction k with
  | zero => intro st; exact nodeShape_refl st
  | succ k ih =>
    intro st
    exact nodeShape_comp
      (foldl_nodeShape _ (fun s h => addHandler_nodeShape s c h true true) hs st)
      (ih _)

def DirShape (st st' : St) : Prop :=
  st'.nodes.length = st.nodes.length ∧
  (∀ j, (st'.node j).name = (st.node j).name ∧
    (st'.node j).parent = (st.node j).parent ∧
    (st'.node j).children = (st.node j).children ∧
    (st'.node j).logLevel = (st.node j).logLevel ∧
    (st'.node j).tmpdir = (st.node j).tmpdir ∧
    (st'.node j).cleanupEmpty = (st.node j).cleanupEmpty ∧
    (st'.node j).descHandlers = (st.node j).descHandlers) ∧
  st'.cwd = st.cwd ∧ st'.nextTmp = st.nextTmp ∧
  st'.loggers.map Prod.fst = st.loggers.map Prod.fst

theorem dirShape_refl (st : St) : DirShape st st :=
  ⟨rfl, fun _ => ⟨rfl, rfl, rfl, rfl, rfl, rfl, rfl⟩, rfl, rfl, rfl⟩

theorem dirShape_comp {a b c : St} (h1 : DirShape a b) (h2 : DirShape b c) :
    DirShape a c := by
  obtain ⟨l1, n1, c1, t1, k1⟩ := h1
  obtain ⟨l2, n2, c2, t2, k2⟩ := h2
  refine ⟨l2.trans l1, fun j => ?_, c2.trans c1, t2.trans t1, k2.trans k1⟩
  obtain ⟨a1, a2, a3, a4, a5, a6, a7⟩ := n1 j
  obtain ⟨b1, b2, b3, b4, b5, b6, b7⟩ := n2 j
  exact ⟨b1.trans a1, b2.trans a2, b3.trans a3, b4.trans a4, b5.trans a5,
    b6.trans a6, b7.trans a7⟩

theorem updNode_dirShape (st : St) (x : Nat) (f : Node → Node)
    (hf : ∀ n, (f n).name = n.name ∧ (f n).parent = n.parent ∧
      (f n).children = n.children ∧ (f n).logLevel = n.logLevel ∧
      (f n).tmpdir = n.tmpdir ∧ (f n).cleanupEmpty = n.cleanupEmpty ∧
      (f n).descHandlers = n.descHandlers) :
    DirShape st (st.updNode x f) := by
  by_cases hx : x < st.nodes.length
  · refine ⟨by simp [St.updNode, St.setNode], ?_, rfl, rfl, rfl⟩
    intro j
    by_cases hj : j = x
    · subst hj
      rw [St.node_updNode_self st j f hx]
      exact hf _
    · rw [St.node_updNode_ne st x j f (fun e => hj e.symm)]
      exact ⟨rfl, rfl, rfl, rfl, rfl, rfl, rfl⟩
  · have hnn := St.node_updNode_oob st x f (by omega)
    refine ⟨by rw [hnn], fun j => ?_, rfl, rfl, rfl⟩
    rw [St.node_eq_of_nodes_eq hnn]
    exact ⟨rfl, rfl, rfl, rfl, rfl, rfl, rfl⟩

theorem updHandler_dirShape (st : St) (hh : Nat) (f : Handler → Handler) :
    DirShape st (st.updHandler hh f) :=
  ⟨rfl, fun _ => ⟨rfl, rfl, rfl, rfl, rfl, rfl, rfl⟩, rfl, rfl, rfl⟩

theorem loggerAdd_dirShape (st : St) (name : String) (h : Nat) :
    DirShape st (st.loggerAdd name h) := by
  refine ⟨rfl, fun _ => ⟨rfl, rfl, rfl, rfl, rfl, rfl, rfl⟩, rfl, rfl, ?_⟩
  unfold St.loggerAdd
  exact updLoggerAssoc_keys st.loggers name
    (fun lo => if h ∈ lo.handlers then lo else { lo with handlers := lo.handlers ++ [h] })

theorem addHandlerAux_false_dirShape (h : Nat) (slvl : Bool) (fuel x : Nat) (st : St) :
    DirShape st (addHandlerAux h false slvl fuel x st) := by
  cases fuel with
  | zero => exact dirShape_refl st
  | succ fuel =>
    have hbase : DirShape st (if slvl then
        st.updHandler h (fun hd => { hd with level := st.getLogLevel x }) else st) := by
      by_cases hs : slvl
      · rw [if_pos hs]; exact updHandler_dirShape _ _ _
      · rw [if_neg hs]; exact dirShape_refl _
    simp only [addHandlerAux, Bool.false_eq_true, if_false]
    exact dirShape_comp (dirShape_comp hbase (loggerAdd_dirShape _ _ _))
      (updNode_dirShape _ _ _ (fun n => ⟨rfl, rfl, rfl, rfl, rfl, rfl, rfl⟩))

theorem save_to_file_false_dirShape (st : St) (x : Nat) (path : List String) (lvl : Int) :
    DirShape st (save_to_file st x path false lvl) := by
  unfold save_to_file addHandler
  exact dirShape_comp
    (⟨rfl, fun _ => ⟨rfl, rfl, rfl, rfl, rfl, rfl, rfl⟩, rfl, rfl, rfl⟩ :
      DirShape st { st with
        handlers := st.handlers ++
          [({ isFile := true, path := path, level := lvl, streamOpen := true } : Handler)],
        fs := st.fs.touch path })
    (addHandlerAux_false_dirShape _ _ _ _ _)

theorem foldl_exc_absorb {α : Type} (g : St → α → St × Option PyErr) :
    ∀ (l : List α) (s : St) (e : PyErr),
      l.foldl (fun acc c => match acc with
        | (s1, some e1) => (s1, some e1)
        | (s1, none) => g s1 c) (s, some e) = (s, some e) := by
  intro l
  induction l with
  | nil => intro s e; rfl
  | cons a t ih => intro s e; exact ih s e

theorem foldl_exc_dirShape {α : Type} (g : St → α → St × Option PyErr)
    (hg : ∀ s a, DirShape s (g s a).1) :
    ∀ (l : List α) (s : St),
      DirShape s ((l.foldl (fun acc c => match acc with
        | (s1, some e1) => (s1, some e1)
        | (s1, none) => g s1 c) (s, none)).1) := by
  intro l
  induction l with
  | nil => intro s; exact dirShape_refl s
  | cons a t ih =>
    intro s
    show DirShape s ((t.foldl _ (match (s, (none : Option PyErr)) with
      | (s1, some e1) => (s1, some e1)
      | (s1, none) => g s1 a)).1)
    rcases hga : g s a with ⟨s1, e1⟩
    cases e1 with
    | none =>
      have := ih s1
      simp only [hga]
      refine dirShape_comp ?_ this
      have h := hg s a
      rw [hga] at h
      exact h
    | some e =>
      simp only [hga, foldl_exc_absorb]
      have h := hg s a
      rw [hga] at h
      exact h

theorem saveFileFold_dirShape (fuel : Nat) (p : PathArg) (x : Nat)
    (path : List String) (lvl : Int) (stB : St)
    (ih : ∀ x' p' s, DirShape s (save_to_directoryAux fuel x' p' s).1) :
    DirShape stB (((save_to_file stB x path false lvl).node x).children.foldl
      (fun acc c => match acc with
        | (s, some e) => (s, some e)
        | (s, none) => save_to_directoryAux fuel c (pathJoin p (s.node c).name) s)
      (save_to_file stB x path false lvl, none)).1 :=
  dirShape_comp (save_to_file_false_dirShape stB x path lvl)
    (foldl_exc_dirShape
      (fun s1 c => save_to_directoryAux fuel c (pathJoin p (s1.node c).name) s1)
      (fun s c => ih c _ s) _ _)

theorem save_to_directoryAux_dirShape :
    ∀ fuel x p st, DirShape st (save_to_directoryAux fuel x p st).1 := by
  intro fuel
  induction fuel with
  | zero => intro x p st; exact dirShape_refl st
  | succ fuel ih =>
    intro x p st
    simp only [save_to_directoryAux]
    by_cases h1 : dirEq (st.node x).directory p
    · rw [if_pos h1]; exact dirShape_refl st
    · rw [if_neg h1]
      by_cases h2 : (st.node x).directory.isSome
      · rw [if_pos h2]; exact dirShape_refl st
      · rw [if_neg h2]
        rcases hr : realpath st.cwd p with e | rp
        · simp only [hr]
          exact dirShape_refl st
        · simp only [hr]
          refine dirShape_comp (updNode_dirShape st x
            (fun n => { n with directory := some rp })
            (fun n => ⟨rfl, rfl, rfl, rfl, rfl, rfl, rfl⟩)) ?_
          refine dirShape_comp
            (⟨rfl, fun _ => ⟨rfl, rfl, rfl, rfl, rfl, rfl, rfl⟩, rfl, rfl, rfl⟩ :
              DirShape (st.updNode x (fun n => { n with directory := some rp }))
                { st.updNode x (fun n => { n with directory := some rp }) with
                  fs := (st.updNode x (fun n => { n with directory := some rp })).fs.makedirs rp }) ?_
          exact saveFileFold_dirShape fuel p x _ 10 _ (fun x' p' s => ih x' p' s)

theorem save_to_directory_dirShape (st : St) (x : Nat) (p : PathArg) :
    DirShape st (save_to_directory st x p).1 :=
  save_to_directoryAux_dirShape _ x p st

/-! ### C5: a child's threshold is copied at construction, not resolved
dynamically -/

theorem St.node_append_last (st : St) (n : Node) :
    ({ st with nodes := st.nodes ++ [n] } : St).node st.nodes.length = n := by
  simp [St.node, List.getD_eq_getElem?_getD,
    List.getElem?_append_right (Nat.le_refl st.nodes.length)]

theorem getLoggerEnsure_frame (st : St) (name : String) :
    (getLoggerEnsure st name).nodes = st.nodes ∧
    (getLoggerEnsure st name).handlers = st.handlers ∧
    (getLoggerEnsure st name).fs = st.fs ∧
    (getLoggerEnsure st name).cwd = st.cwd ∧
    (getLoggerEnsure st name).nextTmp = st.nextTmp := by
  unfold getLoggerEnsure
  by_cases h : st.loggers.any (fun e => decide (e.1 = name))
  · rw [if_pos h]; exact ⟨rfl, rfl, rfl, rfl, rfl⟩
  · rw [if_neg h]; exact ⟨rfl, rfl, rfl, rfl, rfl⟩

theorem mkSt4_facts (st : St) (name : String) (lvl : Int) (parent : Option Nat)
    (cleanup : Bool) :
    (mkSt4 st name lvl parent cleanup).node st.nodes.length =
      { mkNode0 name lvl parent cleanup with ethHandlers := [st.handlers.length] } ∧
    (mkSt4 st name lvl parent cleanup).nodes.length = st.nodes.length + 1 ∧
    (mkSt4 st name lvl parent cleanup).handlers.length = st.handlers.length + 1 := by
  have hge := getLoggerEnsure_frame
    { st with nodes := st.nodes ++ [mkNode0 name lvl parent cleanup] } name
  unfold mkSt4
  rw [St.updNode, St.setNode]
  have hnodes : ({ getLoggerEnsure
        { st with nodes := st.nodes ++ [mkNode0 name lvl parent cleanup] } name with
      handlers := (getLoggerEnsure
        { st with nodes := st.nodes ++ [mkNode0 name lvl parent cleanup] } name).handlers ++
        [consoleHandler] } : St).nodes =
      st.nodes ++ [mkNode0 name lvl parent cleanup] := hge.1
  have hmid : ({ getLoggerEnsure
        { st with nodes := st.nodes ++ [mkNode0 name lvl parent cleanup] } name with
      handlers := (getLoggerEnsure
        { st with nodes := st.nodes ++ [mkNode0 name lvl parent cleanup] } name).handlers ++
        [consoleHandler] } : St).node st.nodes.length =
      mkNode0 name lvl parent cleanup := by
    rw [@St.node_eq_of_nodes_eq ({ st with
      nodes := st.nodes ++ [mkNode0 name lvl parent cleanup] } : St) _ hnodes]
    exact St.node_append_last st _
  refine ⟨?_, ?_, ?_⟩
  · rw [show (∀ s : St, ∀ ns, ({ s with nodes := ns } : St).node st.nodes.length =
        ns.getD st.nodes.length default) from fun _ _ => rfl]
    rw [List.getD_eq_getElem?_getD, List.getElem?_set_self
      (by rw [hnodes]; simp)]
    simp only [Option.getD_some]
    rw [hmid, hge.2.1]
  · rw [show (∀ s : St, ∀ ns, ({ s with nodes := ns } : St).nodes = ns) from fun _ _ => rfl]
    rw [List.length_set, hnodes]
    simp
  · show ((getLoggerEnsure
        { st with nodes := st.nodes ++ [mkNode0 name lvl parent cleanup] } name).handlers ++
        [consoleHandler]).length = st.handlers.length + 1
    rw [hge.2.1]
    simp

/-- Handing `save_to_directory` the `TemporaryDirectory` object always
raises: either the node already has a directory (`ValueError`) or
`os.path.realpath` rejects the object (`TypeError`). -/
theorem save_to_directory_tmpdirObj (s : St) (c t : Nat) :
    (save_to_directory s c (PathArg.tmpdirObj t)).1 = s ∧
    ∃ e, (save_to_directory s c (PathArg.tmpdirObj t)).2 = some e := by
  unfold save_to_directory save_to_directoryAux
  have hde : dirEq (s.node c).directory (PathArg.tmpdirObj t) = false := by
    cases (s.node c).directory <;> rfl
  rw [hde]
  simp only [Bool.false_eq_true, if_false]
  by_cases h2 : (s.node c).directory.isSome
  · rw [if_pos h2]
    exact ⟨rfl, PyErr.valueError, rfl⟩
  · rw [if_neg h2]
    simp only [realpath]
    exact ⟨trivial, PyErr.typeError, rfl⟩

theorem add_child_dirless_err (s : St) (c : Nat) :
    ∃ e, (add_child_dirless s c).2 = some e := by
  unfold add_child_dirless
  exact (save_to_directory_tmpdirObj _ c _).2

theorem set_log_level_int_ok {s : St} {i : Nat} {v : Int} {s' : St}
    (h : set_log_level s i (LevelArg.int v) = (s', none)) :
    s' = set_log_level_ok s i v := by
  unfold set_log_level at h
  split at h
  · simp at h
  · rename_i v' heq
    have hv : v' = v := by
      simp only [checkLevelArg] at heq
      by_cases hmem : v ∈ recognizedLevels
      · rw [if_pos hmem] at heq
        injection heq with hh
        exact hh.symm
      · rw [if_neg hmem] at heq
        simp at heq
    rw [← hv]
    exact (congrArg Prod.fst h).symm

/-- A successful `_add_child` leaves the child's `_log_level` (and the
arena size) unchanged: the work it does — directory assignment, handler
replay — never touches a stored threshold. -/
theorem add_child_preserves (st : St) (p c : Nat) (st6 : St) (hp : p ≠ c)
    (h : add_child st p c = (st6, none)) :
    (st6.node c).logLevel = (st.node c).logLevel ∧
    st6.nodes.length = st.nodes.length := by
  unfold add_child at h
  by_cases hmem : c ∈ (st.node p).children
  · rw [if_pos hmem] at h
    simp at h
  · rw [if_neg hmem] at h
    rcases hd : ((st.updNode p fun n =>
        { n with children := n.children ++ [c] }).node p).directory with _ | d
    · simp only [hd] at h
      rcases hres : add_child_dirless
          (st.updNode p fun n => { n with children := n.children ++ [c] }) c with ⟨sA, eA⟩
      simp only [hres] at h
      cases eA with
      | some e2 => simp at h
      | none =>
        obtain ⟨e2, he2⟩ := add_child_dirless_err
          (st.updNode p fun n => { n with children := n.children ++ [c] }) c
        rw [hres] at he2
        simp at he2
    · simp only [hd] at h
      rcases hres : save_to_directory
          (st.updNode p fun n => { n with children := n.children ++ [c] }) c
          (PathArg.absPath (d ++ [((st.updNode p fun n =>
            { n with children := n.children ++ [c] }).node c).name])) with ⟨sA, eA⟩
      simp only [hres] at h
      cases eA with
      | some e => simp at h
      | none =>
        have hst6 : st6 = repeatAddHandlers c ((sA.node p).descHandlers)
            (chainLength sA (sA.nodes.length + 1) p) sA := by
          have := congrArg Prod.fst h
          exact this.symm
        have hdirs : DirShape (st.updNode p fun n =>
            { n with children := n.children ++ [c] }) sA := by
          have hh := save_to_directory_dirShape
            (st.updNode p fun n => { n with children := n.children ++ [c] }) c
            (PathArg.absPath (d ++ [((st.updNode p fun n =>
              { n with children := n.children ++ [c] }).node c).name]))
          rw [hres] at hh
          exact hh
        have hrep := repeatAddHandlers_nodeShape c ((sA.node p).descHandlers)
          (chainLength sA (sA.nodes.length + 1) p) sA
        have hupd : ((st.updNode p fun n =>
            { n with children := n.children ++ [c] }).node c) = st.node c :=
          St.node_updNode_ne st p c _ hp
        constructor
        · rw [hst6]
          rw [(hrep.2.1 c).2.2.2.1]
          rw [(hdirs.2.1 c).2.2.2.1]
          rw [hupd]
        · rw [hst6, hrep.1, hdirs.1]
          show (st.updNode p _).nodes.length = st.nodes.length
          by_cases hplen : p < st.nodes.length
          · simp [St.updNode, St.setNode]
          · rw [St.node_updNode_oob st p _ (by omega)]

/-- C5 core: `EthenoLogger(name, log_level=None, parent=p)` stores the
parent's CURRENT effective level into the child's own `_log_level` at
construction time. -/
theorem mkLoggerCore_level (st : St) (name : String) (lvl : Int)
    (parent : Option Nat) (cleanup : Bool) (st' : St)
    (hpar : ∀ q, parent = some q → q < st.nodes.length)
    (hsucc : mkLoggerCore st name lvl parent cleanup = (st', none)) :
    (st'.node st.nodes.length).logLevel = some lvl ∧
    st'.nodes.length = st.nodes.length + 1 := by
  unfold mkLoggerCore at hsucc
  rcases h5 : set_log_level (mkSt4 st name lvl parent cleanup) st.nodes.length
      (LevelArg.int lvl) with ⟨st5, e5⟩
  simp only [h5] at hsucc
  cases e5 with
  | some e => simp at hsucc
  | none =>
    have hm4 := mkSt4_facts st name lvl parent cleanup
    have h5ok := set_log_level_int_ok h5
    have h5spec := set_log_level_ok_spec (mkSt4 st name lvl parent cleanup)
      st.nodes.length lvl (by omega)
    have h5lvl : (st5.node st.nodes.length).logLevel = some lvl := by
      rw [h5ok]; exact h5spec.1
    have h5len : st5.nodes.length = st.nodes.length + 1 := by
      rw [h5ok]
      rw [h5spec.2.2.2.2.2.2.1, hm4.2.1]
    cases parent with
    | none =>
      have h' : st' = st5.loggerAdd name st.handlers.length := by
        have := congrArg Prod.fst hsucc
        simp at this
        rw [← this]
        have hh : (getLoggerEnsure { st with
            nodes := st.nodes ++ [mkNode0 name lvl none cleanup] } name).handlers.length =
            st.handlers.length := by
          rw [(getLoggerEnsure_frame _ _).2.1]
        rw [hh]
      rw [h']
      exact ⟨h5lvl, h5len⟩
    | some p =>
      rcases h6 : add_child st5 p st.nodes.length with ⟨st6, e6⟩
      simp only [h6] at hsucc
      cases e6 with
      | some e => simp at hsucc
      | none =>
        have hpn : p ≠ st.nodes.length := by
          have := hpar p rfl
          omega
        have hadd := add_child_preserves st5 p st.nodes.length st6 hpn h6
        have h' : st' = st6.loggerAdd name st.handlers.length := by
          have := congrArg Prod.fst hsucc
          simp at this
          rw [← this]
          have hh : (getLoggerEnsure { st with
              nodes := st.nodes ++ [mkNode0 name lvl (some p) cleanup] } name).handlers.length =
              st.handlers.length := by
            rw [(getLoggerEnsure_frame _ _).2.1]
          rw [hh]
        rw [h']
        refine ⟨?_, ?_⟩
        · show (st6.node st.nodes.length).logLevel = some lvl
          rw [hadd.1, h5lvl]
        · show st6.nodes.length = st.nodes.length + 1
          rw [hadd.2, h5len]

theorem set_log_level_ok_node_ne (stX : St) (i : Nat) (v : Int) (j : Nat) (hj : j ≠ i) :
    (set_log_level_ok stX i v).node j = stX.node j := by
  have hframe := setLevels_frame v ((setterMid stX i v).node i).ethHandlers (setterMid stX i v)
  have hnodes : (set_log_level_ok stX i v).nodes = (setterMid stX i v).nodes := hframe.1
  rw [St.node_eq_of_nodes_eq hnodes]
  show ((stX.updNode i fun n => { n with logLevel := some v }).node j) = stX.node j
  exact St.node_updNode_ne stX i j _ (fun e => hj e.symm)

/-- C5, amended: a child constructed without an explicit threshold copies
the parent's CURRENT effective level into its own `_log_level` at
construction time (line 98-99), so later changes to the root's threshold
are NOT observed by the child: the `log_level` setter touches no node but
its own.  (The dynamic parent-chain resolution of the getter, lines
228-231, exists but is unreachable through the constructor, which never
leaves `_log_level` unset.) -/
theorem childLevel_spec (st : St) (p : Nat) (name : String) (cleanup : Bool)
    (hp : p < st.nodes.length) (st' : St)
    (hsucc : mkLogger st name none (some p) cleanup = (st', none)) :
    (st'.node st.nodes.length).logLevel = some (st.getLogLevel p) ∧
    (∀ (stX : St) (i j : Nat) (v : Int), j ≠ i →
      (set_log_level_ok stX i v).node j = stX.node j) := by
  constructor
  · have heq : mkLogger st name none (some p) cleanup =
        mkLoggerCore st name (st.getLogLevel p) (some p) cleanup := rfl
    rw [heq] at hsucc
    exact (mkLoggerCore_level st name (st.getLogLevel p) (some p) cleanup st'
      (fun q hq => by cases hq; exact hp) hsucc).1
  · intro stX i j v hj
    exact set_log_level_ok_node_ne stX i v j hj

def c5ops : List Op :=
  [Op.newLogger "root" (some 10) none false,
   Op.saveDir 0 (PathArg.absPath ["logs"]),
   Op.newLogger "child" none (some 0) false,
   Op.setLevel 0 (LevelArg.int 30)]

/-- C5, counterexample to the claim as stated: root at DEBUG (10), child
created with no explicit threshold, root then set to WARNING (30) — the
child's effective threshold still reads 10, not 30: the child copied the
parent's level at construction and is decoupled from the start. -/
theorem childLevel_cex :
    (runOps (St.empty ["cwd"]) c5ops).2 = none ∧
    ((runOps (St.empty ["cwd"]) c5ops).1.node 1).logLevel = some 10 ∧
    (runOps (St.empty ["cwd"]) c5ops).1.getLogLevel 1 = 10 ∧
    ((runOps (St.empty ["cwd"]) c5ops).1.node 0).logLevel = some 30 := by
  exact ⟨by decide, by decide, by decide, by decide⟩

/-- C5, witness: the amended theorem applied to a concrete root with
directory `/logs` and level 10. -/
theorem childLevel_spec_witness :
    (((mkLogger (runOps (St.empty ["cwd"]) [Op.newLogger "root" (some 10) none false,
        Op.saveDir 0 (PathArg.absPath ["logs"])]).1 "child" none (some 0) false).1.node
      (runOps (St.empty ["cwd"]) [Op.newLogger "root" (some 10) none false,
        Op.saveDir 0 (PathArg.absPath ["logs"])]).1.nodes.length).logLevel =
      some ((runOps (St.empty ["cwd"]) [Op.newLogger "root" (some 10) none false,
        Op.saveDir 0 (PathArg.absPath ["logs"])]).1.getLogLevel 0)) ∧
    (∀ (stX : St) (i j : Nat) (v : Int), j ≠ i →
      (set_log_level_ok stX i v).node j = stX.node j) :=
  childLevel_spec (runOps (St.empty ["cwd"]) [Op.newLogger "root" (some 10) none false,
      Op.saveDir 0 (PathArg.absPath ["logs"])]).1 0 "child" false (by decide)
    (mkLogger (runOps (St.empty ["cwd"]) [Op.newLogger "root" (some 10) none false,
      Op.saveDir 0 (PathArg.absPath ["logs"])]).1 "child" none (some 0) false).1
    (by decide)

/-! ### C8: directory hand-off at attachment -/

/-- C8: evaluation at the failing input.  Attaching a child to a parent
WITH a directory works and assigns `<parentDir>/<childName>`, and
re-attaching the same child raises `ValueError`; but attaching a child to
a parent WITHOUT a directory crashes with `TypeError`: `_add_child`
creates the `TemporaryDirectory` (stored in `child._tmpdir`) and then
passes the OBJECT — not its path — to `save_to_directory`, where
`os.path.realpath` rejects it.  The child never receives the temporary
directory the spec promises. -/
theorem tmpdirAttach_bug :
    (runOps (St.empty ["cwd"]) [Op.newLogger "root" (some 20) none false,
      Op.newLogger "child" none (some 0) false]).2 = some PyErr.typeError ∧
    ((runOps (St.empty ["cwd"]) [Op.newLogger "root" (some 20) none false,
      Op.newLogger "child" none (some 0) false]).1.node 1).tmpdir = some 0 ∧
    ((runOps (St.empty ["cwd"]) [Op.newLogger "root" (some 20) none false,
      Op.newLogger "child" none (some 0) false]).1.node 1).directory = none ∧
    ((runOps (St.empty ["cwd"]) [Op.newLogger "root" (some 20) none false,
      Op.saveDir 0 (PathArg.absPath ["logs"]),
      Op.newLogger "child" none (some 0) false]).1.node 1).directory =
      some ["logs", "child"] ∧
    add_child (runOps (St.empty ["cwd"]) [Op.newLogger "root" (some 20) none false,
      Op.saveDir 0 (PathArg.absPath ["logs"]),
      Op.newLogger "child" none (some 0) false]).1 0 1 =
      ((runOps (St.empty ["cwd"]) [Op.newLogger "root" (some 20) none false,
        Op.saveDir 0 (PathArg.absPath ["logs"]),
        Op.newLogger "child" none (some 0) false]).1, some PyErr.valueError) := by
  exact ⟨by decide, by decide, by decide, by decide, by decide⟩

/-! ### C4: directory assignment -/

/-- Handler list of the underlying logger registered under `nm`. -/
def loggersByName (st : St) (nm : String) : List Nat :=
  ((st.loggers.lookup nm).getD default).handlers

theorem lookup_updLoggerAssoc (l : List (String × LoggerObj)) (name nm : String)
    (f : LoggerObj → LoggerObj) :
    (updLoggerAssoc l name f).lookup nm =
      if nm = name then (l.lookup nm).map f else l.lookup nm := by
  induction l with
  | nil => by_cases h : nm = name <;> simp [updLoggerAssoc, List.lookup, h]
  | cons a t ih =>
    by_cases ha : a.1 = name
    · by_cases hnm : nm = a.1
      · have hbeq : (nm == a.1) = true := by simpa using hnm
        simp only [updLoggerAssoc, List.map_cons] at ih ⊢
        rw [if_pos ha]
        simp only [List.lookup, hbeq]
        rw [if_pos (hnm.trans ha)]
        simp
      · have hbeq : (nm == a.1) = false := by simpa using hnm
        simp only [updLoggerAssoc, List.map_cons] at ih ⊢
        rw [if_pos ha]
        simp only [List.lookup, hbeq]
        exact ih
    · by_cases hnm : nm = a.1
      · have hbeq : (nm == a.1) = true := by simpa using hnm
        simp only [updLoggerAssoc, List.map_cons] at ih ⊢
        rw [if_neg ha]
        simp only [List.lookup, hbeq]
        rw [if_neg (fun e => ha (hnm.symm.trans e))]
      · have hbeq : (nm == a.1) = false := by simpa using hnm
        simp only [updLoggerAssoc, List.map_cons] at ih ⊢
        rw [if_neg ha]
        simp only [List.lookup, hbeq]
        exact ih

/-- Handler-array preservation: existing entries survive, the array only
grows.  Holds for everything `save_to_directory` does (its `addHandler`
calls pass `set_log_level=False`, so no `setLevel` mutation occurs). -/
def HPres (st st' : St) : Prop :=
  st.handlers.length ≤ st'.handlers.length ∧
  ∀ h, h < st.handlers.length → st'.handler h = st.handler h

theorem hPres_refl (st : St) : HPres st st := ⟨Nat.le_refl _, fun _ _ => rfl⟩

theorem hPres_comp {a b c : St} (h1 : HPres a b) (h2 : HPres b c) : HPres a c := by
  obtain ⟨le1, p1⟩ := h1
  obtain ⟨le2, p2⟩ := h2
  exact ⟨le1.trans le2, fun h hh => (p2 h (by omega)).trans (p1 h hh)⟩

theorem handlerAppend_HPres (st : St) (l : List Handler) :
    HPres st { st with handlers := st.handlers ++ l } := by
  refine ⟨by simp, fun h hh => ?_⟩
  show (st.handlers ++ l).getD h default = st.handlers.getD h default
  simp [List.getD_eq_getElem?_getD, List.getElem?_append, hh]

theorem updNode_HPres (st : St) (x : Nat) (f : Node → Node) :
    HPres st (st.updNode x f) := ⟨Nat.le_refl _, fun _ _ => rfl⟩

theorem loggerAdd_HPres (st : St) (nm : String) (h : Nat) :
    HPres st (st.loggerAdd nm h) := ⟨Nat.le_refl _, fun _ _ => rfl⟩

theorem fsSet_HPres (st : St) (f : FS) : HPres st { st with fs := f } :=
  ⟨Nat.le_refl _, fun _ _ => rfl⟩

theorem addHandlerAux_false_HPres (h : Nat) (fuel x : Nat) (st : St) :
    HPres st (addHandlerAux h false false fuel x st) := by
  cases fuel with
  | zero => exact hPres_refl st
  | succ fuel =>
    simp only [addHandlerAux, Bool.false_eq_true, if_false]
    exact hPres_comp (loggerAdd_HPres _ _ _) (updNode_HPres _ _ _)

theorem save_to_file_HPres (st : St) (x : Nat) (path : List String) (lvl : Int) :
    HPres st (save_to_file st x path false lvl) := by
  unfold save_to_file addHandler
  exact hPres_comp
    (hPres_comp (handlerAppend_HPres st _) (fsSet_HPres _ _))
    (addHandlerAux_false_HPres _ _ _ _)

theorem foldl_exc_HPres {α : Type} (g : St → α → St × Option PyErr)
    (hg : ∀ s a, HPres s (g s a).1) :
    ∀ (l : List α) (s : St),
      HPres s ((l.foldl (fun acc c => match acc with
        | (s1, some e1) => (s1, some e1)
        | (s1, none) => g s1 c) (s, none)).1) := by
  intro l
  induction l with
  | nil => intro s; exact hPres_refl s
  | cons a t ih =>
    intro s
    show HPres s ((t.foldl _ (match (s, (none : Option PyErr)) with
      | (s1, some e1) => (s1, some e1)
      | (s1, none) => g s1 a)).1)
    rcases hga : g s a with ⟨s1, e1⟩
    cases e1 with
    | none =>
      simp only [hga]
      refine hPres_comp ?_ (ih s1)
      have h := hg s a
      rw [hga] at h
      exact h
    | some e =>
      simp only [hga, foldl_exc_absorb]
      have h := hg s a
      rw [hga] at h
      exact h

theorem saveDirTail_HPres (fuel : Nat) (p : PathArg) (x : Nat) (rp : List String)
    (stA : St) (ih : ∀ x' p' s, HPres s (save_to_directoryAux fuel x' p' s).1) :
    HPres stA (((save_to_file ({ stA with fs := stA.fs.makedirs rp } : St) x
        (rp ++ [(({ stA with fs := stA.fs.makedirs rp } : St).node x).name ++ ".log"])
        false 10).node x).children.foldl
      (fun acc c => match acc with
        | (s, some e) => (s, some e)
        | (s, none) => save_to_directoryAux fuel c (pathJoin p (s.node c).name) s)
      (save_to_file ({ stA with fs := stA.fs.makedirs rp } : St) x
        (rp ++ [(({ stA with fs := stA.fs.makedirs rp } : St).node x).name ++ ".log"])
        false 10, none)).1 :=
  hPres_comp (fsSet_HPres stA (stA.fs.makedirs rp))
    (hPres_comp (save_to_file_HPres _ _ _ _)
      (foldl_exc_HPres
        (fun s1 c => save_to_directoryAux fuel c (pathJoin p (s1.node c).name) s1)
        (fun s c => ih c _ s) _ _))

theorem save_to_directoryAux_HPres :
    ∀ fuel x p st, HPres st (save_to_directoryAux fuel x p st).1 := by
  intro fuel
  induction fuel with
  | zero => intro x p st; exact hPres_refl st
  | succ fuel ih =>
    intro x p st
    simp only [save_to_directoryAux]
    by_cases h1 : dirEq (st.node x).directory p
    · rw [if_pos h1]; exact hPres_refl st
    · rw [if_neg h1]
      by_cases h2 : (st.node x).directory.isSome
      · rw [if_pos h2]; exact hPres_refl st
      · rw [if_neg h2]
        rcases hr : realpath st.cwd p with e | rp
        · simp only [hr]; exact hPres_refl st
        · simp only [hr]
          refine hPres_comp (updNode_HPres st x
            (fun n => { n with directory := some rp })) ?_
          exact saveDirTail_HPres fuel p x rp _ (fun x' p' s => ih x' p' s)

/-- Membership monotonicity: per-node handler lists, per-logger handler
lists and the set of directories only grow under the attachment and
directory-assignment operations. -/
def Mono (st st' : St) : Prop :=
  (∀ j h, h ∈ (st.node j).ethHandlers → h ∈ (st'.node j).ethHandlers) ∧
  (∀ j h, h ∈ (st.node j).descHandlers → h ∈ (st'.node j).descHandlers) ∧
  (∀ nm h, h ∈ loggersByName st nm → h ∈ loggersByName st' nm) ∧
  (∀ d, d ∈ st.fs.dirs → d ∈ st'.fs.dirs)

theorem mono_refl (st : St) : Mono st st :=
  ⟨fun _ _ h => h, fun _ _ h => h, fun _ _ h => h, fun _ h => h⟩

theorem mono_comp {a b c : St} (h1 : Mono a b) (h2 : Mono b c) : Mono a c :=
  ⟨fun j h hm => h2.1 j h (h1.1 j h hm), fun j h hm => h2.2.1 j h (h1.2.1 j h hm),
   fun nm h hm => h2.2.2.1 nm h (h1.2.2.1 nm h hm),
   fun d hd => h2.2.2.2 d (h1.2.2.2 d hd)⟩

theorem updNode_mono (st : St) (x : Nat) (f : Node → Node)
    (hf : ∀ n h, (h ∈ n.ethHandlers → h ∈ (f n).ethHandlers) ∧
      (h ∈ n.descHandlers → h ∈ (f n).descHandlers)) :
    Mono st (st.updNode x f) := by
  by_cases hx : x < st.nodes.length
  · refine ⟨fun j h hm => ?_, fun j h hm => ?_, fun _ _ h => h, fun _ h => h⟩
    · by_cases hj : j = x
      · subst hj; rw [St.node_updNode_self st j f hx]; exact (hf _ h).1 hm
      · rw [St.node_updNode_ne st x j f (fun e => hj e.symm)]; exact hm
    · by_cases hj : j = x
      · subst hj; rw [St.node_updNode_self st j f hx]; exact (hf _ h).2 hm
      · rw [St.node_updNode_ne st x j f (fun e => hj e.symm)]; exact hm
  · have hnn := St.node_updNode_oob st x f (by omega)
    refine ⟨fun j h hm => ?_, fun j h hm => ?_, fun _ _ h => h, fun _ h => h⟩
    · rw [St.node_eq_of_nodes_eq hnn]; exact hm
    · rw [St.node_eq_of_nodes_eq hnn]; exact hm

theorem loggerAdd_mono (st : St) (name : String) (hh : Nat) :
    Mono st (st.loggerAdd name hh) := by
  refine ⟨fun _ _ h => h, fun _ _ h => h, fun nm h hm => ?_, fun _ h => h⟩
  unfold loggersByName at hm ⊢
  show h ∈ (((updLoggerAssoc st.loggers name
    (fun lo => if hh ∈ lo.handlers then lo
               else { lo with handlers := lo.handlers ++ [hh] })).lookup nm).getD
      default).handlers
  rw [lookup_updLoggerAssoc]
  by_cases hnm : nm = name
  · rw [if_pos hnm]
    rcases hlk : st.loggers.lookup nm with _ | lo
    · rw [hlk] at hm
      exact absurd hm (List.not_mem_nil h)
    · rw [hlk] at hm
      have hm' : h ∈ lo.handlers := hm
      show h ∈ (if hh ∈ lo.handlers then lo
                else { lo with handlers := lo.handlers ++ [hh] }).handlers
      by_cases hmem : hh ∈ lo.handlers
      · rw [if_pos hmem]; exact hm'
      · rw [if_neg hmem]
        exact List.mem_append_left _ hm'
  · rw [if_neg hnm]; exact hm

theorem updHandler_mono (st : St) (hh : Nat) (f : Handler → Handler) :
    Mono st (st.updHandler hh f) :=
  ⟨fun _ _ h => h, fun _ _ h => h, fun _ _ h => h, fun _ h => h⟩

theorem makedirs_dirs_mem (fs : FS) (p : List String) (d : List String)
    (hd : d ∈ fs.dirs) : d ∈ (fs.makedirs p).dirs := by
  unfold FS.makedirs
  exact List.mem_append_left _ hd

theorem fsMakedirs_mono (st : St) (p : List String) :
    Mono st { st with fs := st.fs.makedirs p } :=
  ⟨fun _ _ h => h, fun _ _ h => h, fun _ _ h => h,
   fun d hd => makedirs_dirs_mem st.fs p d hd⟩

theorem handlerAppendTouch_mono (st : St) (l : List Handler) (p : List String) :
    Mono st { st with handlers := st.handlers ++ l, fs := st.fs.touch p } := by
  refine ⟨fun _ _ h => h, fun _ _ h => h, fun _ _ h => h, fun d hd => ?_⟩
  show d ∈ (st.fs.touch p).dirs
  unfold FS.touch
  by_cases h : st.fs.hasFile p
  · rw [if_pos h]; exact hd
  · rw [if_neg h]; exact hd

theorem foldl_exc_mono {α : Type} (g : St → α → St × Option PyErr)
    (hg : ∀ s a, Mono s (g s a).1) :
    ∀ (l : List α) (s : St),
      Mono s ((l.foldl (fun acc c => match acc with
        | (s1, some e1) => (s1, some e1)
        | (s1, none) => g s1 c) (s, none)).1) := by
  intro l
  induction l with
  | nil => intro s; exact mono_refl s
  | cons a t ih =>
    intro s
    show Mono s ((t.foldl _ (match (s, (none : Option PyErr)) with
      | (s1, some e1) => (s1, some e1)
      | (s1, none) => g s1 a)).1)
    rcases hga : g s a with ⟨s1, e1⟩
    cases e1 with
    | none =>
      simp only [hga]
      refine mono_comp ?_ (ih s1)
      have h := hg s a
      rw [hga] at h
      exact h
    | some e =>
      simp only [hga, foldl_exc_absorb]
      have h := hg s a
      rw [hga] at h
      exact h

theorem foldl_plain_mono {α : Type} (f : St → α → St) (hf : ∀ s a, Mono s (f s a)) :
    ∀ (l : List α) (s : St), Mono s (l.foldl f s) := by
  intro l
  induction l with
  | nil => intro s; exact mono_refl s
  | cons a t ih =>
    intro s
    exact mono_comp (hf s a) (ih (f s a))

theorem addHandlerAux_mono (h : Nat) (inc slvl : Bool) :
    ∀ fuel x st, Mono st (addHandlerAux h inc slvl fuel x st) := by
  intro fuel
  induction fuel with
  | zero => intro x st; exact mono_refl st
  | succ fuel ih =>
    intro x st
    have hbase : Mono st (if slvl then
        st.updHandler h (fun hd => { hd with level := st.getLogLevel x }) else st) := by
      by_cases hs : slvl
      · rw [if_pos hs]; exact updHandler_mono _ _ _
      · rw [if_neg hs]; exact mono_refl _
    simp only [addHandlerAux]
    by_cases hinc : inc
    · rw [if_pos hinc]
      refine mono_comp (mono_comp (mono_comp (mono_comp hbase
        (loggerAdd_mono _ _ _)) (updNode_mono _ _ _ ?_)) (updNode_mono _ _ _ ?_))
        (foldl_plain_mono _ ?_ _ _)
      · intro n hh
        exact ⟨fun hm => List.mem_append_left _ hm, fun hm => hm⟩
      · intro n hh
        exact ⟨fun hm => hm, fun hm => List.mem_append_left _ hm⟩
      · intro s c
        exact ih c s
    · rw [if_neg hinc]
      refine mono_comp (mono_comp hbase (loggerAdd_mono _ _ _)) (updNode_mono _ _ _ ?_)
      intro n hh
      exact ⟨fun hm => List.mem_append_left _ hm, fun hm => hm⟩

theorem save_to_file_mono (st : St) (x : Nat) (path : List String) (lvl : Int) :
    Mono st (save_to_file st x path false lvl) := by
  unfold save_to_file addHandler
  exact mono_comp (handlerAppendTouch_mono st _ path) (addHandlerAux_mono _ _ _ _ _ _)

theorem saveDirTail_mono (fuel : Nat) (p : PathArg) (x : Nat) (rp : List String)
    (stA : St) (ih : ∀ x' p' s, Mono s (save_to_directoryAux fuel x' p' s).1) :
    Mono stA (((save_to_file ({ stA with fs := stA.fs.makedirs rp } : St) x
        (rp ++ [(({ stA with fs := stA.fs.makedirs rp } : St).node x).name ++ ".log"])
        false 10).node x).children.foldl
      (fun acc c => match acc with
        | (s, some e) => (s, some e)
        | (s, none) => save_to_directoryAux fuel c (pathJoin p (s.node c).name) s)
      (save_to_file ({ stA with fs := stA.fs.makedirs rp } : St) x
        (rp ++ [(({ stA with fs := stA.fs.makedirs rp } : St).node x).name ++ ".log"])
        false 10, none)).1 :=
  mono_comp (fsMakedirs_mono stA rp)
    (mono_comp (save_to_file_mono _ _ _ _)
      (foldl_exc_mono
        (fun s1 c => save_to_directoryAux fuel c (pathJoin p (s1.node c).name) s1)
        (fun s c => ih c _ s) _ _))

theorem save_to_directoryAux_mono :
    ∀ fuel x p st, Mono st (save_to_directoryAux fuel x p st).1 := by
  intro fuel
  induction fuel with
  | zero => intro x p st; exact mono_refl st
  | succ fuel ih =>
    intro x p st
    simp only [save_to_directoryAux]
    by_cases h1 : dirEq (st.node x).directory p
    · rw [if_pos h1]; exact mono_refl st
    · rw [if_neg h1]
      by_cases h2 : (st.node x).directory.isSome
      · rw [if_pos h2]; exact mono_refl st
      · rw [if_neg h2]
        rcases hr : realpath st.cwd p with e | rp
        · simp only [hr]; exact mono_refl st
        · simp only [hr]
          refine mono_comp (updNode_mono st x (fun n => { n with directory := some rp })
            (fun n hh => ⟨fun hm => hm, fun hm => hm⟩)) ?_
          exact saveDirTail_mono fuel p x rp _ (fun x' p' s => ih x' p' s)

/-- Generic preservation of a state predicate through the error-threaded
child fold. -/
theorem foldl_exc_pred {α : Type} (g : St → α → St × Option PyErr) (P : St → Prop) :
    ∀ (l : List α), (∀ s a, a ∈ l → P s → P (g s a).1) →
    ∀ (s : St), P s → P ((l.foldl (fun acc c => match acc with
        | (s1, some e1) => (s1, some e1)
        | (s1, none) => g s1 c) (s, none)).1) := by
  intro l
  induction l with
  | nil => intro _ s hs; exact hs
  | cons a t ih =>
    intro hg s hs
    show P ((t.foldl _ (match (s, (none : Option PyErr)) with
      | (s1, some e1) => (s1, some e1)
      | (s1, none) => g s1 a)).1)
    rcases hga : g s a with ⟨s1, e1⟩
    have hP1 : P s1 := by
      have := hg s a (by simp) hs
      rw [hga] at this
      exact this
    cases e1 with
    | none =>
      simp only [hga]
      exact ih (fun s' a' ha' => hg s' a' (by simp [ha'])) s1 hP1
    | some e =>
      simp only [hga, foldl_exc_absorb]
      exact hP1

theorem addHandlerAux_false_node_ne (h : Nat) (slvl : Bool) (fuel x : Nat) (st : St)
    (j : Nat) (hj : j ≠ x) :
    (addHandlerAux h false slvl fuel x st).node j = st.node j := by
  cases fuel with
  | zero => rfl
  | succ fuel =>
    simp only [addHandlerAux, Bool.false_eq_true, if_false]
    rw [St.node_updNode_ne _ x j _ (fun e => hj e.symm)]
    by_cases hs : slvl
    · rw [if_pos hs]; rfl
    · rw [if_neg hs]; rfl

theorem save_to_file_node_ne (st : St) (x : Nat) (path : List String) (lvl : Int)
    (j : Nat) (hj : j ≠ x) :
    (save_to_file st x path false lvl).node j = st.node j := by
  unfold save_to_file addHandler
  rw [addHandlerAux_false_node_ne _ _ _ _ _ _ hj]
  rfl

/-- Once a node's directory is assigned, no later `save_to_directory`
call changes it (re-assignment is a no-op or an error). -/
theorem save_to_directoryAux_dir_mono :
    ∀ fuel y p st j v, (st.node j).directory = some v →
      (((save_to_directoryAux fuel y p st).1).node j).directory = some v := by
  intro fuel
  induction fuel with
  | zero => intro y p st j v hv; exact hv
  | succ fuel ih =>
    intro y p st j v hv
    simp only [save_to_directoryAux]
    by_cases h1 : dirEq (st.node y).directory p
    · rw [if_pos h1]; exact hv
    · rw [if_neg h1]
      by_cases h2 : (st.node y).directory.isSome
      · rw [if_pos h2]; exact hv
      · rw [if_neg h2]
        rcases hr : realpath st.cwd p with e | rp
        · simp only [hr]; exact hv
        · simp only [hr]
          have hjy : j ≠ y := by
            intro e
            rw [e] at hv
            rw [hv] at h2
            simp at h2
          refine foldl_exc_pred _ (fun s => ((s.node j).directory = some v)) _
            (fun s c _ hP => ih c _ s j v hP) _ ?_
          show ((save_to_file _ y _ false 10).node j).directory = some v
          rw [save_to_file_node_ne _ _ _ _ _ hjy]
          show (((st.updNode y fun n => { n with directory := some rp }).node j)).directory
            = some v
          rw [St.node_updNode_ne st y j _ (fun e => hjy e.symm)]
          exact hv

theorem mem_makedirs_self (fs : FS) (p : List String) (hp : p ≠ []) :
    p ∈ (fs.makedirs p).dirs := by
  unfold FS.makedirs
  by_cases h : p ∈ fs.dirs
  · exact List.mem_append_left _ h
  · refine List.mem_append_right _ ?_
    rw [List.mem_filter]
    constructor
    · unfold pathPrefixes
      rw [List.mem_map]
      refine ⟨p.length - 1, ?_, ?_⟩
      · rw [List.mem_range]
        have := List.length_pos.mpr hp
        omega
      · have hlen : p.length - 1 + 1 = p.length := by
          have := List.length_pos.mpr hp
          omega
        rw [hlen]
        exact List.take_length p
    · simpa using h

theorem mem_loggerAdd_self (s : St) (nm : String) (h : Nat)
    (hs : (s.loggers.lookup nm).isSome) :
    h ∈ loggersByName (s.loggerAdd nm h) nm := by
  unfold loggersByName St.loggerAdd
  show h ∈ (((updLoggerAssoc s.loggers nm
    (fun lo => if h ∈ lo.handlers then lo
               else { lo with handlers := lo.handlers ++ [h] })).lookup nm).getD
      default).handlers
  rw [lookup_updLoggerAssoc]
  rw [if_pos rfl]
  rcases hlk : s.loggers.lookup nm with _ | lo
  · rw [hlk] at hs; simp at hs
  · show h ∈ (if h ∈ lo.handlers then lo
              else { lo with handlers := lo.handlers ++ [h] }).handlers
    by_cases hmem : h ∈ lo.handlers
    · rw [if_pos hmem]; exact hmem
    · rw [if_neg hmem]
      exact List.mem_append_right _ (by simp)

theorem addHandlerAux_false_attach (h x : Nat) (st : St) (fuel : Nat)
    (hfuel : 0 < fuel) (hx : x < st.nodes.length) :
    ((addHandlerAux h false false fuel x st).node x).ethHandlers =
      (st.node x).ethHandlers ++ [h] ∧
    ((addHandlerAux h false false fuel x st).node x).descHandlers =
      (st.node x).descHandlers ∧
    ((addHandlerAux h false false fuel x st).node x).directory =
      (st.node x).directory ∧
    ((addHandlerAux h false false fuel x st).node x).name = (st.node x).name ∧
    (addHandlerAux h false false fuel x st).handlers = st.handlers ∧
    ((st.loggers.lookup (st.node x).name).isSome →
      h ∈ loggersByName (addHandlerAux h false false fuel x st) (st.node x).name) := by
  cases fuel with
  | zero => omega
  | succ fuel =>
    simp only [addHandlerAux, Bool.false_eq_true, if_false]
    have hxlen : x < (st.loggerAdd (st.node x).name h).nodes.length := hx
    refine ⟨?_, ?_, ?_, ?_, rfl, ?_⟩
    · rw [St.node_updNode_self _ _ _ hxlen]; rfl
    · rw [St.node_updNode_self _ _ _ hxlen]; rfl
    · rw [St.node_updNode_self _ _ _ hxlen]; rfl
    · rw [St.node_updNode_self _ _ _ hxlen]; rfl
    · intro hsome
      show h ∈ loggersByName (st.loggerAdd (st.node x).name h) (st.node x).name
      exact mem_loggerAdd_self _ _ _ hsome

theorem save_to_file_attach (st : St) (x : Nat) (path : List String) (lvl : Int)
    (hx : x < st.nodes.length) :
    ((save_to_file st x path false lvl).node x).ethHandlers =
      (st.node x).ethHandlers ++ [st.handlers.length] ∧
    ((save_to_file st x path false lvl).node x).descHandlers =
      (st.node x).descHandlers ∧
    ((save_to_file st x path false lvl).node x).directory = (st.node x).directory ∧
    ((save_to_file st x path false lvl).node x).name = (st.node x).name ∧
    (save_to_file st x path false lvl).handler st.handlers.length =
      { isFile := true, path := path, level := lvl, streamOpen := true } ∧
    (save_to_file st x path false lvl).handlers.length = st.handlers.length + 1 ∧
    ((st.loggers.lookup (st.node x).name).isSome →
      st.handlers.length ∈ loggersByName (save_to_file st x path false lvl)
        (st.node x).name) := by
  have hmidlen : (saveFileMid st path lvl).nodes.length = st.nodes.length := rfl
  have hmidnode : ∀ j, (saveFileMid st path lvl).node j = st.node j := fun _ => rfl
  have hattach := addHandlerAux_false_attach st.handlers.length x
    (saveFileMid st path lvl) (saveFileMid st path lvl).nodes.length
    (by rw [hmidlen]; omega) (by rw [hmidlen]; exact hx)
  obtain ⟨a1, a2, a3, a4, a5, a6⟩ := hattach
  have hres : save_to_file st x path false lvl =
      addHandlerAux st.handlers.length false false
        (saveFileMid st path lvl).nodes.length x (saveFileMid st path lvl) := rfl
  rw [hmidnode] at a1 a2 a3 a4
  refine ⟨by rw [hres, a1], by rw [hres, a2], by rw [hres, a3], by rw [hres, a4],
    ?_, ?_, ?_⟩
  · rw [hres]
    unfold St.handler
    rw [a5]
    show ((st.handlers ++
      [({ isFile := true, path := path, level := lvl, streamOpen := true } : Handler)]).getD
        st.handlers.length default) = _
    simp [List.getD_eq_getElem?_getD,
      List.getElem?_append_right (Nat.le_refl st.handlers.length)]
  · rw [hres, a5]
    show (st.handlers ++
      [({ isFile := true, path := path, level := lvl, streamOpen := true } : Handler)]).length = _
    simp
  · intro hsome
    rw [hres]
    refine a6 ?_
    show (st.loggers.lookup (st.node x).name).isSome
    exact hsome

/-! ### C4: directory assignment (`save_to_directory`) -/

theorem saveDirTail_assign (fuel : Nat) (p : PathArg) (x : Nat) (rp : List String)
    (stA : St) (hx : x < stA.nodes.length)
    (hdir : (stA.node x).directory = some rp) :
    (((((save_to_file ({ stA with fs := stA.fs.makedirs rp } : St) x (rp ++ [(({ stA with fs := stA.fs.makedirs rp } : St).node x).name ++ ".log"]) false 10).node x).children.foldl
      (fun acc c => match acc with
        | (s, some e) => (s, some e)
        | (s, none) => save_to_directoryAux fuel c (pathJoin p (s.node c).name) s)
      ((save_to_file ({ stA with fs := stA.fs.makedirs rp } : St) x (rp ++ [(({ stA with fs := stA.fs.makedirs rp } : St).node x).name ++ ".log"]) false 10), none)).1).node x).directory = some rp := by
  refine foldl_exc_pred _ (fun s1 => ((s1.node x).directory = some rp)) _
    (fun s1 a _ hP => save_to_directoryAux_dir_mono fuel a _ s1 x rp hP) _ ?_
  show ((save_to_file _ x _ false 10).node x).directory = some rp
  rw [(save_to_file_attach ({ stA with fs := stA.fs.makedirs rp } : St) x (rp ++ [(({ stA with fs := stA.fs.makedirs rp } : St).node x).name ++ ".log"]) 10 hx).2.2.1]
  exact hdir

theorem saveDirTail_mono2 (fuel : Nat) (p : PathArg) (x : Nat) (rp : List String)
    (stA : St) (ih : ∀ x' p' s, Mono s (save_to_directoryAux fuel x' p' s).1) :
    Mono ({ stA with fs := stA.fs.makedirs rp } : St) ((((save_to_file ({ stA with fs := stA.fs.makedirs rp } : St) x (rp ++ [(({ stA with fs := stA.fs.makedirs rp } : St).node x).name ++ ".log"]) false 10).node x).children.foldl
      (fun acc c => match acc with
        | (s, some e) => (s, some e)
        | (s, none) => save_to_directoryAux fuel c (pathJoin p (s.node c).name) s)
      ((save_to_file ({ stA with fs := stA.fs.makedirs rp } : St) x (rp ++ [(({ stA with fs := stA.fs.makedirs rp } : St).node x).name ++ ".log"]) false 10), none)).1) :=
  mono_comp (save_to_file_mono _ _ _ _)
    (foldl_exc_mono
      (fun s1 c => save_to_directoryAux fuel c (pathJoin p (s1.node c).name) s1)
      (fun s c => ih c _ s) _ _)

theorem saveDirTail_attach (fuel : Nat) (p : PathArg) (x : Nat) (rp : List String)
    (stA : St) (hx : x < stA.nodes.length)
    (hlog : (stA.loggers.lookup (stA.node x).name).isSome) :
    (((((save_to_file ({ stA with fs := stA.fs.makedirs rp } : St) x (rp ++ [(({ stA with fs := stA.fs.makedirs rp } : St).node x).name ++ ".log"]) false 10).node x).children.foldl
      (fun acc c => match acc with
        | (s, some e) => (s, some e)
        | (s, none) => save_to_directoryAux fuel c (pathJoin p (s.node c).name) s)
      ((save_to_file ({ stA with fs := stA.fs.makedirs rp } : St) x (rp ++ [(({ stA with fs := stA.fs.makedirs rp } : St).node x).name ++ ".log"]) false 10), none)).1).handler stA.handlers.length =
      ({ isFile := true, path := rp ++ [(stA.node x).name ++ ".log"],
         level := 10, streamOpen := true } : Handler)) ∧
    stA.handlers.length ∈ (((((save_to_file ({ stA with fs := stA.fs.makedirs rp } : St) x (rp ++ [(({ stA with fs := stA.fs.makedirs rp } : St).node x).name ++ ".log"]) false 10).node x).children.foldl
      (fun acc c => match acc with
        | (s, some e) => (s, some e)
        | (s, none) => save_to_directoryAux fuel c (pathJoin p (s.node c).name) s)
      ((save_to_file ({ stA with fs := stA.fs.makedirs rp } : St) x (rp ++ [(({ stA with fs := stA.fs.makedirs rp } : St).node x).name ++ ".log"]) false 10), none)).1).node x).ethHandlers ∧
    stA.handlers.length ∈ loggersByName ((((save_to_file ({ stA with fs := stA.fs.makedirs rp } : St) x (rp ++ [(({ stA with fs := stA.fs.makedirs rp } : St).node x).name ++ ".log"]) false 10).node x).children.foldl
      (fun acc c => match acc with
        | (s, some e) => (s, some e)
        | (s, none) => save_to_directoryAux fuel c (pathJoin p (s.node c).name) s)
      ((save_to_file ({ stA with fs := stA.fs.makedirs rp } : St) x (rp ++ [(({ stA with fs := stA.fs.makedirs rp } : St).node x).name ++ ".log"]) false 10), none)).1) (stA.node x).name := by
  obtain ⟨a1, a2, a3, a4, a5, a6, a7⟩ :=
    save_to_file_attach ({ stA with fs := stA.fs.makedirs rp } : St) x (rp ++ [(({ stA with fs := stA.fs.makedirs rp } : St).node x).name ++ ".log"]) 10 hx
  have hHP : HPres (save_to_file ({ stA with fs := stA.fs.makedirs rp } : St) x (rp ++ [(({ stA with fs := stA.fs.makedirs rp } : St).node x).name ++ ".log"]) false 10) ((((save_to_file ({ stA with fs := stA.fs.makedirs rp } : St) x (rp ++ [(({ stA with fs := stA.fs.makedirs rp } : St).node x).name ++ ".log"]) false 10).node x).children.foldl
      (fun acc c => match acc with
        | (s, some e) => (s, some e)
        | (s, none) => save_to_directoryAux fuel c (pathJoin p (s.node c).name) s)
      ((save_to_file ({ stA with fs := stA.fs.makedirs rp } : St) x (rp ++ [(({ stA with fs := stA.fs.makedirs rp } : St).node x).name ++ ".log"]) false 10), none)).1) :=
    foldl_exc_HPres
      (fun s1 c => save_to_directoryAux fuel c (pathJoin p (s1.node c).name) s1)
      (fun s c => save_to_directoryAux_HPres fuel c _ s) _ _
  have hM : Mono (save_to_file ({ stA with fs := stA.fs.makedirs rp } : St) x (rp ++ [(({ stA with fs := stA.fs.makedirs rp } : St).node x).name ++ ".log"]) false 10) ((((save_to_file ({ stA with fs := stA.fs.makedirs rp } : St) x (rp ++ [(({ stA with fs := stA.fs.makedirs rp } : St).node x).name ++ ".log"]) false 10).node x).children.foldl
      (fun acc c => match acc with
        | (s, some e) => (s, some e)
        | (s, none) => save_to_directoryAux fuel c (pathJoin p (s.node c).name) s)
      ((save_to_file ({ stA with fs := stA.fs.makedirs rp } : St) x (rp ++ [(({ stA with fs := stA.fs.makedirs rp } : St).node x).name ++ ".log"]) false 10), none)).1) :=
    foldl_exc_mono
      (fun s1 c => save_to_directoryAux fuel c (pathJoin p (s1.node c).name) s1)
      (fun s c => save_to_directoryAux_mono fuel c _ s) _ _
  refine ⟨?_, ?_, ?_⟩
  · rw [hHP.2 stA.handlers.length (by rw [a6]; exact Nat.lt_succ_self _)]
    exact a5
  · exact hM.1 x stA.handlers.length
      (by rw [a1]; exact List.mem_append_right _ (List.mem_singleton.mpr rfl))
  · exact hM.2.2.1 (stA.node x).name stA.handlers.length (a7 hlog)

/-- A successful `save_to_directory` call on a node leaves that node's
`_directory` equal to the resolved argument: either it was already equal
(line 215 no-op) or line 220 just stored it. -/
theorem saveDir_assign_self (fuel c : Nat) (m : List String) (s : St)
    (hfuel : 0 < fuel) (hc : c < s.nodes.length)
    (hsucc : (save_to_directoryAux fuel c (PathArg.absPath m) s).2 = none) :
    (((save_to_directoryAux fuel c (PathArg.absPath m) s).1).node c).directory =
      some m := by
  obtain ⟨f, rfl⟩ : ∃ f, fuel = f + 1 := ⟨fuel - 1, by omega⟩
  simp only [save_to_directoryAux] at hsucc ⊢
  by_cases h1 : dirEq (s.node c).directory (PathArg.absPath m)
  · rw [if_pos h1] at hsucc ⊢
    rcases hd : (s.node c).directory with _ | d
    · rw [hd] at h1
      exact absurd h1 Bool.false_ne_true
    · rw [hd] at h1
      have hdm : d = m := by simpa [dirEq] using h1
      rw [hdm]
  · rw [if_neg h1] at hsucc ⊢
    by_cases h2 : (s.node c).directory.isSome
    · rw [if_pos h2] at hsucc
      exact absurd hsucc (by simp)
    · rw [if_neg h2] at hsucc ⊢
      rcases hr : realpath s.cwd (PathArg.absPath m) with e | rp
      · simp [realpath] at hr
      · have hrl : rp = m := by
          simp only [realpath, Except.ok.injEq] at hr
          exact hr.symm
        simp only [hr] at hsucc
        rw [hrl] at hsucc ⊢
        exact saveDirTail_assign f (PathArg.absPath m) c m
          (s.updNode c (fun n => { n with directory := some m }))
          (by simpa [St.updNode, St.setNode] using hc)
          (by rw [St.node_updNode_self s c _ hc])

/-- The recursion of lines 223-224: a successful pass over the children
list assigns each child the parent path joined with the child's name. -/
theorem saveDirFold_assigns (fuel : Nat) (l : List String) (hfuel : 0 < fuel) :
    ∀ (cs : List Nat) (s0 st' : St),
      cs.foldl (fun acc c => match acc with
          | (s, some e) => (s, some e)
          | (s, none) =>
            save_to_directoryAux fuel c (pathJoin (PathArg.absPath l) (s.node c).name) s)
        (s0, none) = (st', none) →
      (∀ c ∈ cs, c < s0.nodes.length) →
      ∀ c ∈ cs, (st'.node c).directory = some (l ++ [(s0.node c).name]) := by
  intro cs
  induction cs with
  | nil =>
    intro s0 st' _ _ c hc
    exact absurd hc (List.not_mem_nil c)
  | cons a t ih =>
    intro s0 st' hfold hbound c hc
    rw [List.foldl_cons] at hfold
    rcases hga : save_to_directoryAux fuel a
        (pathJoin (PathArg.absPath l) ((s0.node a).name)) s0 with ⟨s1, e1⟩
    simp only [hga] at hfold
    cases e1 with
    | some e =>
      rw [foldl_exc_absorb] at hfold
      exact absurd hfold (by simp)
    | none =>
      have hshape := save_to_directoryAux_dirShape fuel a
        (pathJoin (PathArg.absPath l) ((s0.node a).name)) s0
      rw [hga] at hshape
      rcases List.mem_cons.mp hc with rfl | hct
      · have hsucc2 : (save_to_directoryAux fuel c
            (PathArg.absPath (l ++ [(s0.node c).name])) s0).2 = none := by
          rw [show PathArg.absPath (l ++ [(s0.node c).name]) =
              pathJoin (PathArg.absPath l) ((s0.node c).name) from rfl, hga]
        have hdir1 := saveDir_assign_self fuel c (l ++ [(s0.node c).name]) s0 hfuel
          (hbound c (by simp)) hsucc2
        rw [show PathArg.absPath (l ++ [(s0.node c).name]) =
            pathJoin (PathArg.absPath l) ((s0.node c).name) from rfl, hga] at hdir1
        have hdir1' : (s1.node c).directory = some (l ++ [(s0.node c).name]) := hdir1
        have hst' : st' = (t.foldl (fun acc c => match acc with
            | (s, some e) => (s, some e)
            | (s, none) =>
              save_to_directoryAux fuel c
                (pathJoin (PathArg.absPath l) (s.node c).name) s) (s1, none)).1 := by
          rw [hfold]
        rw [hst']
        refine foldl_exc_pred _
          (fun s2 => ((s2.node c).directory = some (l ++ [(s0.node c).name]))) _
          (fun s2 a2 _ hP => save_to_directoryAux_dir_mono fuel a2 _ s2 c _ hP) _ hdir1'
      · have hlen : s1.nodes.length = s0.nodes.length := hshape.1
        have hname : (s1.node c).name = (s0.node c).name := (hshape.2.1 c).1
        have hres := ih s1 st' hfold
          (fun c' hc' => by rw [hlen]; exact hbound c' (List.mem_cons_of_mem a hc')) c hct
        rw [hname] at hres
        exact hres

/-- A first assignment creates the directory (line 221). -/
theorem saveDir_mkdir (fuel x : Nat) (l : List String) (st : St) (hl : l ≠ [])
    (hdir : (st.node x).directory = none) :
    l ∈ ((save_to_directoryAux (fuel + 1) x (PathArg.absPath l) st).1).fs.dirs := by
  simp only [save_to_directoryAux]
  rw [hdir]
  rw [if_neg (show ¬(dirEq none (PathArg.absPath l) = true) from
      fun hcon => Bool.false_ne_true hcon),
    if_neg (show ¬((none : Option (List String)).isSome = true) from
      fun hcon => Bool.false_ne_true hcon)]
  rcases hr : realpath st.cwd (PathArg.absPath l) with e | rp
  · simp [realpath] at hr
  · have hrl : rp = l := by
      simp only [realpath, Except.ok.injEq] at hr
      exact hr.symm
    rw [hrl]
    exact (saveDirTail_mono2 fuel (PathArg.absPath l) x l
        (st.updNode x (fun n => { n with directory := some l }))
        (fun x' p' s => save_to_directoryAux_mono fuel x' p' s)).2.2.2 l
      (mem_makedirs_self _ l hl)

/-- A first assignment attaches the debug-level file sink (line 222): the
fresh handler is the node's log file, lands in the node's `_handlers` and
in its underlying logger. -/
theorem saveDir_attach_facts (fuel x : Nat) (l : List String) (st : St)
    (hx : x < st.nodes.length)
    (hlog : (st.loggers.lookup (st.node x).name).isSome)
    (hdir : (st.node x).directory = none) :
    ((save_to_directoryAux (fuel + 1) x (PathArg.absPath l) st).1).handler
        st.handlers.length =
      ({ isFile := true, path := l ++ [(st.node x).name ++ ".log"],
         level := 10, streamOpen := true } : Handler) ∧
    st.handlers.length ∈
      (((save_to_directoryAux (fuel + 1) x (PathArg.absPath l) st).1).node x).ethHandlers ∧
    st.handlers.length ∈
      loggersByName ((save_to_directoryAux (fuel + 1) x (PathArg.absPath l) st).1)
        (st.node x).name := by
  have hnm : ((st.updNode x (fun n => { n with directory := some l })).node x).name = (st.node x).name := by
    rw [St.node_updNode_self st x _ hx]
  simp only [save_to_directoryAux]
  rw [hdir]
  rw [if_neg (show ¬(dirEq none (PathArg.absPath l) = true) from
      fun hcon => Bool.false_ne_true hcon),
    if_neg (show ¬((none : Option (List String)).isSome = true) from
      fun hcon => Bool.false_ne_true hcon)]
  rcases hr : realpath st.cwd (PathArg.absPath l) with e | rp
  · simp [realpath] at hr
  · have hrl : rp = l := by
      simp only [realpath, Except.ok.injEq] at hr
      exact hr.symm
    rw [hrl]
    have h := saveDirTail_attach fuel (PathArg.absPath l) x l
      (st.updNode x (fun n => { n with directory := some l }))
      (by simpa [St.updNode, St.setNode] using hx)
      (by show (st.loggers.lookup ((st.updNode x (fun n => { n with directory := some l })).node x).name).isSome
          rw [hnm]
          exact hlog)
    rw [hnm] at h
    exact h

/-- A successful first assignment recursively assigns
`<path>/<childName>` to each existing child (lines 223-224). -/
theorem saveDir_children (fuel x : Nat) (l : List String) (st : St)
    (hfuel : 0 < fuel) (hx : x < st.nodes.length)
    (hchild : ∀ c ∈ (st.node x).children, c < st.nodes.length)
    (hdir : (st.node x).directory = none)
    (hsucc : (save_to_directoryAux (fuel + 1) x (PathArg.absPath l) st).2 = none) :
    ∀ c ∈ (st.node x).children,
      (((save_to_directoryAux (fuel + 1) x (PathArg.absPath l) st).1).node c).directory =
        some (l ++ [(st.node c).name]) := by
  simp only [save_to_directoryAux] at hsucc ⊢
  rw [hdir] at hsucc ⊢
  rw [if_neg (show ¬(dirEq none (PathArg.absPath l) = true) from
      fun hcon => Bool.false_ne_true hcon),
    if_neg (show ¬((none : Option (List String)).isSome = true) from
      fun hcon => Bool.false_ne_true hcon)] at hsucc ⊢
  rcases hr : realpath st.cwd (PathArg.absPath l) with e | rp
  · simp [realpath] at hr
  · have hrl : rp = l := by
      simp only [realpath, Except.ok.injEq] at hr
      exact hr.symm
    simp only [hr] at hsucc
    rw [hrl] at hsucc ⊢
    have hs03 : DirShape st (save_to_file ({ nodes := (st.updNode x (fun n => { n with directory := some l })).nodes, handlers := (st.updNode x (fun n => { n with directory := some l })).handlers, loggers := (st.updNode x (fun n => { n with directory := some l })).loggers, fs := (st.updNode x (fun n => { n with directory := some l })).fs.makedirs l, cwd := (st.updNode x (fun n => { n with directory := some l })).cwd, nextTmp := (st.updNode x (fun n => { n with directory := some l })).nextTmp } : St) x (l ++ [(({ nodes := (st.updNode x (fun n => { n with directory := some l })).nodes, handlers := (st.updNode x (fun n => { n with directory := some l })).handlers, loggers := (st.updNode x (fun n => { n with directory := some l })).loggers, fs := (st.updNode x (fun n => { n with directory := some l })).fs.makedirs l, cwd := (st.updNode x (fun n => { n with directory := some l })).cwd, nextTmp := (st.updNode x (fun n => { n with directory := some l })).nextTmp } : St).node x).name ++ ".log"]) false 10) :=
      dirShape_comp
        (dirShape_comp
          (updNode_dirShape st x (fun n => { n with directory := some l })
            (fun n => ⟨rfl, rfl, rfl, rfl, rfl, rfl, rfl⟩))
          (⟨rfl, fun _ => ⟨rfl, rfl, rfl, rfl, rfl, rfl, rfl⟩, rfl, rfl, rfl⟩ :
            DirShape (st.updNode x (fun n => { n with directory := some l })) ({ nodes := (st.updNode x (fun n => { n with directory := some l })).nodes, handlers := (st.updNode x (fun n => { n with directory := some l })).handlers, loggers := (st.updNode x (fun n => { n with directory := some l })).loggers, fs := (st.updNode x (fun n => { n with directory := some l })).fs.makedirs l, cwd := (st.updNode x (fun n => { n with directory := some l })).cwd, nextTmp := (st.updNode x (fun n => { n with directory := some l })).nextTmp } : St)))
        (save_to_file_false_dirShape ({ nodes := (st.updNode x (fun n => { n with directory := some l })).nodes, handlers := (st.updNode x (fun n => { n with directory := some l })).handlers, loggers := (st.updNode x (fun n => { n with directory := some l })).loggers, fs := (st.updNode x (fun n => { n with directory := some l })).fs.makedirs l, cwd := (st.updNode x (fun n => { n with directory := some l })).cwd, nextTmp := (st.updNode x (fun n => { n with directory := some l })).nextTmp } : St) x
          (l ++ [(({ nodes := (st.updNode x (fun n => { n with directory := some l })).nodes, handlers := (st.updNode x (fun n => { n with directory := some l })).handlers, loggers := (st.updNode x (fun n => { n with directory := some l })).loggers, fs := (st.updNode x (fun n => { n with directory := some l })).fs.makedirs l, cwd := (st.updNode x (fun n => { n with directory := some l })).cwd, nextTmp := (st.updNode x (fun n => { n with directory := some l })).nextTmp } : St).node x).name ++ ".log"]) 10)
    have hcs : ((save_to_file ({ nodes := (st.updNode x (fun n => { n with directory := some l })).nodes, handlers := (st.updNode x (fun n => { n with directory := some l })).handlers, loggers := (st.updNode x (fun n => { n with directory := some l })).loggers, fs := (st.updNode x (fun n => { n with directory := some l })).fs.makedirs l, cwd := (st.updNode x (fun n => { n with directory := some l })).cwd, nextTmp := (st.updNode x (fun n => { n with directory := some l })).nextTmp } : St) x (l ++ [(({ nodes := (st.updNode x (fun n => { n with directory := some l })).nodes, handlers := (st.updNode x (fun n => { n with directory := some l })).handlers, loggers := (st.updNode x (fun n => { n with directory := some l })).loggers, fs := (st.updNode x (fun n => { n with directory := some l })).fs.makedirs l, cwd := (st.updNode x (fun n => { n with directory := some l })).cwd, nextTmp := (st.updNode x (fun n => { n with directory := some l })).nextTmp } : St).node x).name ++ ".log"]) false 10).node x).children = (st.node x).children := (hs03.2.1 x).2.2.1
    have hlen : (save_to_file ({ nodes := (st.updNode x (fun n => { n with directory := some l })).nodes, handlers := (st.updNode x (fun n => { n with directory := some l })).handlers, loggers := (st.updNode x (fun n => { n with directory := some l })).loggers, fs := (st.updNode x (fun n => { n with directory := some l })).fs.makedirs l, cwd := (st.updNode x (fun n => { n with directory := some l })).cwd, nextTmp := (st.updNode x (fun n => { n with directory := some l })).nextTmp } : St) x (l ++ [(({ nodes := (st.updNode x (fun n => { n with directory := some l })).nodes, handlers := (st.updNode x (fun n => { n with directory := some l })).handlers, loggers := (st.updNode x (fun n => { n with directory := some l })).loggers, fs := (st.updNode x (fun n => { n with directory := some l })).fs.makedirs l, cwd := (st.updNode x (fun n => { n with directory := some l })).cwd, nextTmp := (st.updNode x (fun n => { n with directory := some l })).nextTmp } : St).node x).name ++ ".log"]) false 10).nodes.length = st.nodes.length := hs03.1
    intro c hc
    have hname : ((save_to_file ({ nodes := (st.updNode x (fun n => { n with directory := some l })).nodes, handlers := (st.updNode x (fun n => { n with directory := some l })).handlers, loggers := (st.updNode x (fun n => { n with directory := some l })).loggers, fs := (st.updNode x (fun n => { n with directory := some l })).fs.makedirs l, cwd := (st.updNode x (fun n => { n with directory := some l })).cwd, nextTmp := (st.updNode x (fun n => { n with directory := some l })).nextTmp } : St) x (l ++ [(({ nodes := (st.updNode x (fun n => { n with directory := some l })).nodes, handlers := (st.updNode x (fun n => { n with directory := some l })).handlers, loggers := (st.updNode x (fun n => { n with directory := some l })).loggers, fs := (st.updNode x (fun n => { n with directory := some l })).fs.makedirs l, cwd := (st.updNode x (fun n => { n with directory := some l })).cwd, nextTmp := (st.updNode x (fun n => { n with directory := some l })).nextTmp } : St).node x).name ++ ".log"]) false 10).node c).name = (st.node c).name := (hs03.2.1 c).1
    have hres := saveDirFold_assigns fuel l hfuel _ _ _
      (Prod.ext_iff.mpr ⟨rfl, hsucc⟩)
      (fun c' hc' => by
        rw [hlen]
        exact hchild c' (by rwa [hcs] at hc'))
      c (by rwa [hcs])
    rw [hname] at hres
    exact hres

/-- C4, amended: `save_to_directory` compares the STORED realpath with the
RAW argument (line 215), so re-assignment is a no-op exactly when the raw
argument equals the resolved stored path — re-assigning the same
RELATIVE path twice raises (see the counterexample) — and any other value
on an already-assigned node raises `ValueError` leaving the state
untouched.  A first successful assignment on an unassigned node stores
the resolved path, creates the directory, attaches a file sink at
`<path>/<name>.log` at level `DEBUG = 10` regardless of the node's own
threshold (a fresh handler in the node's `_handlers` and its underlying
logger, not in `_descendant_handlers`), and recursively assigns
`<path>/<childName>` to each existing child. -/
theorem saveDir_spec (st : St) (x : Nat) (l : List String)
    (hx : x < st.nodes.length) (hl : l ≠ [])
    (hlog : (st.loggers.lookup (st.node x).name).isSome)
    (hdesc : ∀ h ∈ (st.node x).descHandlers, h < st.handlers.length)
    (hchild : ∀ c ∈ (st.node x).children, c < st.nodes.length) :
    ((st.node x).directory = some l →
      save_to_directory st x (PathArg.absPath l) = (st, none)) ∧
    (∀ d, (st.node x).directory = some d → d ≠ l →
      save_to_directory st x (PathArg.absPath l) = (st, some PyErr.valueError)) ∧
    ((st.node x).directory = none →
      (save_to_directory st x (PathArg.absPath l)).2 = none →
      ((((save_to_directory st x (PathArg.absPath l)).1).node x).directory = some l ∧
       l ∈ ((save_to_directory st x (PathArg.absPath l)).1).fs.dirs ∧
       ((save_to_directory st x (PathArg.absPath l)).1).handler st.handlers.length =
         ({ isFile := true, path := l ++ [(st.node x).name ++ ".log"],
            level := 10, streamOpen := true } : Handler) ∧
       st.handlers.length ∈
         (((save_to_directory st x (PathArg.absPath l)).1).node x).ethHandlers ∧
       st.handlers.length ∈
         loggersByName ((save_to_directory st x (PathArg.absPath l)).1) (st.node x).name ∧
       st.handlers.length ∉
         (((save_to_directory st x (PathArg.absPath l)).1).node x).descHandlers ∧
       ∀ c ∈ (st.node x).children,
         (((save_to_directory st x (PathArg.absPath l)).1).node c).directory =
           some (l ++ [(st.node c).name]))) := by
  refine ⟨?_, ?_, ?_⟩
  · intro hdir
    show save_to_directoryAux (st.nodes.length + 1) x (PathArg.absPath l) st = (st, none)
    simp only [save_to_directoryAux]
    rw [hdir, if_pos (by simp [dirEq])]
  · intro d hdir hne
    show save_to_directoryAux (st.nodes.length + 1) x (PathArg.absPath l) st =
      (st, some PyErr.valueError)
    simp only [save_to_directoryAux]
    rw [hdir]
    rw [if_neg (by simp [dirEq, hne]), if_pos (by simp)]
  · intro hdir hsucc
    have hsucc' : (save_to_directoryAux (st.nodes.length + 1) x
        (PathArg.absPath l) st).2 = none := hsucc
    have hA := saveDir_assign_self (st.nodes.length + 1) x l st (by omega) hx hsucc'
    have hB := saveDir_mkdir st.nodes.length x l st hl hdir
    have hCDE := saveDir_attach_facts st.nodes.length x l st hx hlog hdir
    have hG := saveDir_children st.nodes.length x l st (by omega) hx hchild hdir hsucc'
    have hshape := save_to_directory_dirShape st x (PathArg.absPath l)
    refine ⟨hA, hB, hCDE.1, hCDE.2.1, hCDE.2.2, ?_, hG⟩
    intro hmem
    have hde : (((save_to_directory st x (PathArg.absPath l)).1).node x).descHandlers =
        (st.node x).descHandlers := (hshape.2.1 x).2.2.2.2.2.2
    rw [hde] at hmem
    exact absurd (hdesc _ hmem) (lt_irrefl _)

/-- A one-root arena with a registered console handler and logger, working
directory `/home`, empty filesystem. -/
def c4stA : St :=
  { nodes := [({ name := "root", parent := none, children := [],
                 logLevel := some 10, ethHandlers := [0], descHandlers := [],
                 directory := none, tmpdir := none, cleanupEmpty := false } : Node)],
    handlers := [consoleHandler],
    loggers := [("root", { level := 10, handlers := [0] })],
    fs := { dirs := [], files := [] }, cwd := ["home"], nextTmp := 0 }

/-- C4, counterexample to the claim as stated: assigning the SAME relative
path `"logs"` twice is NOT a no-op — the first call succeeds and stores
the realpath `/home/logs`, the second compares that stored value with the
raw relative argument (line 215), finds them different, and raises
`ValueError`. -/
theorem saveDir_cex :
    (save_to_directory c4stA 0 (PathArg.relPath ["logs"])).2 = none ∧
    (((save_to_directory c4stA 0 (PathArg.relPath ["logs"])).1).node 0).directory =
      some ["home", "logs"] ∧
    (save_to_directory ((save_to_directory c4stA 0 (PathArg.relPath ["logs"])).1) 0
        (PathArg.relPath ["logs"])).2 = some PyErr.valueError := by
  decide

/-- A root with one attached child, both with registered loggers. -/
def c4st : St :=
  { nodes := [({ name := "root", parent := none, children := [1],
                 logLevel := some 10, ethHandlers := [0], descHandlers := [],
                 directory := none, tmpdir := none, cleanupEmpty := false } : Node),
               ({ name := "child", parent := some 0, children := [],
                  logLevel := some 10, ethHandlers := [1], descHandlers := [],
                  directory := none, tmpdir := none, cleanupEmpty := false } : Node)],
    handlers := [consoleHandler, consoleHandler],
    loggers := [("root", { level := 10, handlers := [0] }),
                ("child", { level := 10, handlers := [1] })],
    fs := { dirs := [], files := [] }, cwd := ["home"], nextTmp := 0 }

/-- C4, witness: on the two-node arena, assigning `/logs` to the root
succeeds, stores the directory, creates it, records the `root.log` debug
sink as handler 2, propagates `/logs/child` to the child, and a second
assignment of the same (absolute) path is a no-op. -/
theorem saveDir_spec_witness :
    (save_to_directory c4st 0 (PathArg.absPath ["logs"])).2 = none ∧
    (((save_to_directory c4st 0 (PathArg.absPath ["logs"])).1).node 0).directory =
      some ["logs"] ∧
    ["logs"] ∈ ((save_to_directory c4st 0 (PathArg.absPath ["logs"])).1).fs.dirs ∧
    ((save_to_directory c4st 0 (PathArg.absPath ["logs"])).1).handler 2 =
      ({ isFile := true, path := ["logs", "root.log"], level := 10,
         streamOpen := true } : Handler) ∧
    (((save_to_directory c4st 0 (PathArg.absPath ["logs"])).1).node 1).directory =
      some ["logs", "child"] ∧
    save_to_directory ((save_to_directory c4st 0 (PathArg.absPath ["logs"])).1) 0
      (PathArg.absPath ["logs"]) =
      ((save_to_directory c4st 0 (PathArg.absPath ["logs"])).1, none) := by
  have h := saveDir_spec c4st 0 ["logs"] (by decide) (by decide) (by decide)
    (by decide) (by decide)
  have hsucc : (save_to_directory c4st 0 (PathArg.absPath ["logs"])).2 = none := by
    decide
  have h3 := h.2.2 (by decide) hsucc
  have h2 := saveDir_spec ((save_to_directory c4st 0 (PathArg.absPath ["logs"])).1) 0
    ["logs"] (by decide) (by decide) (by decide) (by decide) (by decide)
  exact ⟨hsucc, h3.1, h3.2.1, h3.2.2.1, h3.2.2.2.2.2.2 1 (by decide),
    h2.1 (by decide)⟩

/-! ### C10: `close` — zero-byte file and empty-directory cleanup -/

theorem foldl_fs_pred {α : Type} (g : FS → α → FS) (P : FS → Prop) :
    ∀ (l : List α), (∀ f a, a ∈ l → P f → P (g f a)) →
    ∀ f, P f → P (l.foldl g f) := by
  intro l
  induction l with
  | nil => intro _ f hf; exact hf
  | cons a t ih =>
    intro hg f hf
    exact ih (fun f' a' ha' => hg f' a' (List.mem_cons_of_mem a ha')) (g f a)
      (hg f a (List.mem_cons_self a t) hf)

theorem foldl_st_pred {α : Type} (g : St → α → St) (P : St → Prop) :
    ∀ (l : List α), (∀ s a, a ∈ l → P s → P (g s a)) →
    ∀ s, P s → P (l.foldl g s) := by
  intro l
  induction l with
  | nil => intro _ s hs; exact hs
  | cons a t ih =>
    intro hg s hs
    exact ih (fun s' a' ha' => hg s' a' (List.mem_cons_of_mem a ha')) (g s a)
      (hg s a (List.mem_cons_self a t) hs)

theorem walkCleanupAux_files : ∀ fuel top root fs,
    (walkCleanupAux fuel top root fs).files = fs.files := by
  intro fuel
  induction fuel with
  | zero => intro top root fs; rfl
  | succ fuel ih =>
    intro top root fs
    simp only [walkCleanupAux]
    have hfold := foldl_fs_pred (fun f d => walkCleanupAux fuel d root f)
      (fun f' => (f'.files = fs.files))
      (fs.dirs.filter
        (fun q => decide (q.length = top.length + 1 ∧ q.take top.length = top)))
      (fun f' a _ hP => (ih a root f').trans hP) fs rfl
    split
    · exact hfold
    · exact hfold

theorem walkCleanupAux_dirs_sublist : ∀ fuel top root fs,
    ((walkCleanupAux fuel top root fs).dirs).Sublist fs.dirs := by
  intro fuel
  induction fuel with
  | zero => intro top root fs; exact List.Sublist.refl _
  | succ fuel ih =>
    intro top root fs
    simp only [walkCleanupAux]
    have hfold := foldl_fs_pred (fun f d => walkCleanupAux fuel d root f)
      (fun f' => (f'.dirs.Sublist fs.dirs))
      (fs.dirs.filter
        (fun q => decide (q.length = top.length + 1 ∧ q.take top.length = top)))
      (fun f' a _ hP => (ih a root f').trans hP) fs (List.Sublist.refl _)
    split
    · refine List.Sublist.trans ?_ hfold
      exact List.filter_sublist _
    · exact hfold

theorem walkCleanupAux_keeps : ∀ fuel top root fs w, w ∈ fs.dirs →
    w.take top.length ≠ top → w ∈ (walkCleanupAux fuel top root fs).dirs := by
  intro fuel
  induction fuel with
  | zero => intro top root fs w hw _; exact hw
  | succ fuel ih =>
    intro top root fs w hw hnp
    simp only [walkCleanupAux]
    have hfold : w ∈ ((fs.dirs.filter
        (fun q => decide (q.length = top.length + 1 ∧ q.take top.length = top))).foldl
        (fun f d => walkCleanupAux fuel d root f) fs).dirs := by
      refine foldl_fs_pred _ (fun f' => (w ∈ f'.dirs)) _ ?_ fs hw
      intro f' a ha hP
      have hashape : a.length = top.length + 1 ∧ a.take top.length = top := by
        simpa using (List.mem_filter.mp ha).2
      refine ih a root f' w hP ?_
      intro hcon
      apply hnp
      have h1 : (w.take a.length).take top.length = a.take top.length := by rw [hcon]
      rw [List.take_take, Nat.min_eq_left (by omega)] at h1
      rw [h1, hashape.2]
    split
    · refine List.mem_filter.mpr ⟨hfold, ?_⟩
      simp only [decide_eq_true_eq]
      intro hcon
      apply hnp
      rw [hcon]
      exact List.take_length top
    · exact hfold

theorem walkCleanupAux_root : ∀ fuel top root fs, root ∈ fs.dirs →
    root ∈ (walkCleanupAux fuel top root fs).dirs := by
  intro fuel
  induction fuel with
  | zero => intro top root fs h; exact h
  | succ fuel ih =>
    intro top root fs hroot
    simp only [walkCleanupAux]
    have hfold : root ∈ ((fs.dirs.filter
        (fun q => decide (q.length = top.length + 1 ∧ q.take top.length = top))).foldl
        (fun f d => walkCleanupAux fuel d root f) fs).dirs :=
      foldl_fs_pred _ (fun f' => (root ∈ f'.dirs)) _
        (fun f' a _ hP => ih a root f' hP) fs hroot
    split
    · rename_i hcnd
      have htr : top ≠ root := by
        simp only [Bool.and_eq_true, decide_eq_true_eq] at hcnd
        exact hcnd.2
      refine List.mem_filter.mpr ⟨hfold, ?_⟩
      simp only [decide_eq_true_eq]
      exact fun hcon => htr hcon.symm
    · exact hfold

theorem foldl_max_init_le : ∀ (l : List (List String)) (m : Nat),
    m ≤ l.foldl (fun acc q => max acc q.length) m := by
  intro l
  induction l with
  | nil => intro m; exact Nat.le_refl m
  | cons a t ih =>
    intro m
    exact (Nat.le_max_left m a.length).trans (ih (max m a.length))

theorem mem_foldl_max : ∀ (l : List (List String)) (m : Nat) (p : List String),
    p ∈ l → p.length ≤ l.foldl (fun acc q => max acc q.length) m := by
  intro l
  induction l with
  | nil => intro m p hp; exact absurd hp (List.not_mem_nil p)
  | cons a t ih =>
    intro m p hp
    rcases List.mem_cons.mp hp with rfl | hpt
    · exact (Nat.le_max_right m p.length).trans (foldl_max_init_le t (max m p.length))
    · exact ih (max m a.length) p hpt

theorem mem_le_maxPathLen (fs : FS) (p : List String) (hp : p ∈ fs.dirs) :
    p.length ≤ fs.maxPathLen :=
  mem_foldl_max fs.dirs 0 p hp

theorem hasFile_eq_of_files_eq {f1 f2 : FS} (h : f1.files = f2.files)
    (p : List String) : f1.hasFile p = f2.hasFile p := by
  unfold FS.hasFile
  rw [h]

theorem cleanupStep_files_sublist (s : St) (h : Nat) :
    ((cleanupStep s h).fs.files).Sublist s.fs.files := by
  simp only [cleanupStep]
  split
  · split
    · split
      · exact List.filter_sublist _
      · exact List.Sublist.refl _
    · exact List.Sublist.refl _
  · exact List.Sublist.refl _

theorem cleanupStep_dirs (s : St) (h : Nat) : (cleanupStep s h).fs.dirs = s.fs.dirs := by
  simp only [cleanupStep]
  split
  · split
    · split
      · rfl
      · rfl
    · rfl
  · rfl

theorem cleanupStep_nodes (s : St) (h : Nat) : (cleanupStep s h).nodes = s.nodes := by
  simp only [cleanupStep]
  split
  · split
    · split
      · rfl
      · rfl
    · rfl
  · rfl

theorem cleanupStep_handler_ne (s : St) (h j : Nat) (hj : j ≠ h) :
    (cleanupStep s h).handler j = s.handler j := by
  simp only [cleanupStep]
  split
  · split
    · split
      · show (s.updHandler h (fun hh => { hh with streamOpen := false })).handler j =
          s.handler j
        exact St.handler_updHandler_ne s h j _ (fun e => hj e.symm)
      · rfl
    · rfl
  · rfl

theorem keys_nodup_eq : ∀ (l : List (List String × Nat)),
    (l.map Prod.fst).Nodup → ∀ p a b, (p, a) ∈ l → (p, b) ∈ l → a = b := by
  intro l
  induction l with
  | nil => intro _ p a b ha _; exact absurd ha (List.not_mem_nil _)
  | cons e t ih =>
    intro hnd p a b ha hb
    rw [List.map_cons, List.nodup_cons] at hnd
    rcases List.mem_cons.mp ha with ha1 | ha2 <;> rcases List.mem_cons.mp hb with hb1 | hb2
    · have := ha1.trans hb1.symm
      exact ((Prod.mk.injEq _ _ _ _).mp this).2
    · exfalso
      apply hnd.1
      have he1 : e.1 = p := by rw [← ha1]
      rw [he1]
      exact List.mem_map_of_mem Prod.fst hb2
    · exfalso
      apply hnd.1
      have he1 : e.1 = p := by rw [← hb1]
      rw [he1]
      exact List.mem_map_of_mem Prod.fst ha2
    · exact ih hnd.2 p a b ha2 hb2

theorem hasFile_removeFile (fs : FS) (p : List String) :
    (fs.removeFile p).hasFile p = false := by
  simp only [FS.removeFile, FS.hasFile]
  rw [List.any_eq_false]
  intro e he
  have := (List.mem_filter.mp he).2
  simp only [decide_eq_true_eq] at this ⊢
  exact this

theorem cleanupStep_keep_nonzero (s : St) (h : Nat) (p : List String) (n : Nat)
    (hkeys : (s.fs.files.map Prod.fst).Nodup)
    (hmem : (p, n) ∈ s.fs.files) (hn : n ≠ 0) :
    (p, n) ∈ (cleanupStep s h).fs.files := by
  simp only [cleanupStep]
  split
  · split
    · rename_i entry hfind
      split
      · rename_i hz
        refine List.mem_filter.mpr ⟨hmem, ?_⟩
        simp only [decide_eq_true_eq]
        intro hcon
        have hent1 : entry.1 = (s.handler h).path := by
          simpa using List.find?_some hfind
        have hentmem : entry ∈ s.fs.files := List.mem_of_find?_eq_some hfind
        have hE : entry = (p, entry.2) := by
          rw [show p = entry.1 from hcon.trans hent1.symm]
        have hne : n = entry.2 :=
          keys_nodup_eq s.fs.files hkeys p n entry.2 hmem (hE ▸ hentmem)
        omega
      · exact hmem
    · exact hmem
  · exact hmem

theorem cleanupStep_removes (s : St) (h : Nat)
    (hkeys : (s.fs.files.map Prod.fst).Nodup)
    (hisf : (s.handler h).isFile = true) (hopen : (s.handler h).streamOpen = true)
    (hmem : ((s.handler h).path, 0) ∈ s.fs.files) :
    ¬ ((cleanupStep s h).fs.hasFile (s.handler h).path = true) := by
  simp only [cleanupStep]
  rw [if_pos (by rw [hisf, hopen]; rfl)]
  rcases hfind : s.fs.files.find? (fun e => decide (e.1 = (s.handler h).path))
    with _ | entry
  · exfalso
    have := List.find?_eq_none.mp hfind ((s.handler h).path, 0) hmem
    simp at this
  · simp only [hfind]
    have hent1 : entry.1 = (s.handler h).path := by
      simpa using List.find?_some hfind
    have hentmem : entry ∈ s.fs.files := List.mem_of_find?_eq_some hfind
    have hE : entry = ((s.handler h).path, entry.2) := by rw [← hent1]
    have hz : entry.2 = 0 :=
      keys_nodup_eq s.fs.files hkeys (s.handler h).path entry.2 0 (hE ▸ hentmem) hmem
    rw [if_pos hz]
    show ¬ (((s.updHandler h (fun hh => { hh with streamOpen := false })).fs.removeFile
        (s.handler h).path).hasFile (s.handler h).path = true)
    rw [hasFile_removeFile]
    simp

theorem cleanupStep_keeps_absent (s : St) (a : Nat) (p : List String)
    (hab : ¬ (s.fs.hasFile p = true)) : ¬ ((cleanupStep s a).fs.hasFile p = true) := by
  intro hcon
  apply hab
  simp only [FS.hasFile, List.any_eq_true] at hcon ⊢
  obtain ⟨e, he, hep⟩ := hcon
  exact ⟨e, (cleanupStep_files_sublist s a).subset he, hep⟩

theorem fileCleanup_nodes (st : St) (x : Nat) : (fileCleanup st x).nodes = st.nodes := by
  unfold fileCleanup
  exact foldl_st_pred cleanupStep (fun s => s.nodes = st.nodes) _
    (fun s a _ hP => (cleanupStep_nodes s a).trans hP) st rfl

theorem fileCleanup_dirs (st : St) (x : Nat) :
    (fileCleanup st x).fs.dirs = st.fs.dirs := by
  unfold fileCleanup
  exact foldl_st_pred cleanupStep (fun s => s.fs.dirs = st.fs.dirs) _
    (fun s a _ hP => (cleanupStep_dirs s a).trans hP) st rfl

theorem fileCleanup_keep_nonzero (st : St) (x : Nat) (p : List String) (n : Nat)
    (hkeys : (st.fs.files.map Prod.fst).Nodup)
    (hmem : (p, n) ∈ st.fs.files) (hn : n ≠ 0) :
    (p, n) ∈ (fileCleanup st x).fs.files := by
  unfold fileCleanup
  have hfold := foldl_st_pred cleanupStep
    (fun s => ((p, n) ∈ s.fs.files ∧ (s.fs.files.map Prod.fst).Nodup))
    ((st.node x).ethHandlers)
    (fun s a _ hP => ⟨cleanupStep_keep_nonzero s a p n hP.2 hP.1 hn,
      hP.2.sublist ((cleanupStep_files_sublist s a).map Prod.fst)⟩)
    st ⟨hmem, hkeys⟩
  have hfold2 : (p, n) ∈ ((st.node x).ethHandlers.foldl cleanupStep st).fs.files ∧
      (((st.node x).ethHandlers.foldl cleanupStep st).fs.files.map Prod.fst).Nodup :=
    hfold
  exact hfold2.1

theorem fileCleanup_removes (st : St) (x h : Nat)
    (hmem : h ∈ (st.node x).ethHandlers)
    (hkeys : (st.fs.files.map Prod.fst).Nodup)
    (hisf : (st.handler h).isFile = true) (hopen : (st.handler h).streamOpen = true)
    (hfile : ((st.handler h).path, 0) ∈ st.fs.files) :
    ¬ ((fileCleanup st x).fs.hasFile (st.handler h).path = true) := by
  unfold fileCleanup
  obtain ⟨pre, post, hsplit⟩ := List.append_of_mem hmem
  rw [hsplit, List.foldl_append, List.foldl_cons]
  have hstep : ∀ (s : St) (a : Nat),
      ((¬ (s.fs.hasFile (st.handler h).path = true)) ∨
        (((st.handler h).path, 0) ∈ s.fs.files ∧ (s.fs.files.map Prod.fst).Nodup ∧
          s.handler h = st.handler h)) →
      ((¬ ((cleanupStep s a).fs.hasFile (st.handler h).path = true)) ∨
        (((st.handler h).path, 0) ∈ (cleanupStep s a).fs.files ∧
          ((cleanupStep s a).fs.files.map Prod.fst).Nodup ∧
          (cleanupStep s a).handler h = st.handler h)) := by
    intro s a hP
    rcases hP with hL | ⟨h1, h2, h3⟩
    · exact Or.inl (cleanupStep_keeps_absent s a _ hL)
    · by_cases hres : ((cleanupStep s a).fs.hasFile (st.handler h).path = true)
      · by_cases hah : a = h
        · subst hah
          exfalso
          rw [← h3] at hres
          refine cleanupStep_removes s a h2 ?_ ?_ ?_ hres
          · rw [h3]; exact hisf
          · rw [h3]; exact hopen
          · rw [h3]; exact h1
        · refine Or.inr ⟨?_, h2.sublist ((cleanupStep_files_sublist s a).map Prod.fst),
            (cleanupStep_handler_ne s a h (fun e => hah e.symm)).trans h3⟩
          simp only [FS.hasFile, List.any_eq_true] at hres
          obtain ⟨e, he, hep⟩ := hres
          simp only [decide_eq_true_eq] at hep
          have hemem : e ∈ s.fs.files := (cleanupStep_files_sublist s a).subset he
          have hE : e = ((st.handler h).path, e.2) := by rw [← hep]
          have he2 : e.2 = 0 :=
            keys_nodup_eq s.fs.files h2 (st.handler h).path e.2 0 (hE ▸ hemem) h1
          have heq : e = ((st.handler h).path, 0) := by rw [hE, he2]
          rw [← heq]
          exact he
      · exact Or.inl hres
  have hInv := foldl_st_pred cleanupStep
    (fun s => ((¬ (s.fs.hasFile (st.handler h).path = true)) ∨
      (((st.handler h).path, 0) ∈ s.fs.files ∧ (s.fs.files.map Prod.fst).Nodup ∧
        s.handler h = st.handler h))) pre
    (fun s a _ hP => hstep s a hP) st (Or.inr ⟨hfile, hkeys, rfl⟩)
  have hInv2 : (¬ ((pre.foldl cleanupStep st).fs.hasFile (st.handler h).path = true)) ∨
      (((st.handler h).path, 0) ∈ (pre.foldl cleanupStep st).fs.files ∧
        ((pre.foldl cleanupStep st).fs.files.map Prod.fst).Nodup ∧
        (pre.foldl cleanupStep st).handler h = st.handler h) := hInv
  have habs : ¬ ((cleanupStep (pre.foldl cleanupStep st) h).fs.hasFile
      (st.handler h).path = true) := by
    rcases hInv2 with hL | ⟨h1, h2, h3⟩
    · exact cleanupStep_keeps_absent _ h _ hL
    · have hres := cleanupStep_removes (pre.foldl cleanupStep st) h h2
        (by rw [h3]; exact hisf) (by rw [h3]; exact hopen) (by rw [h3]; exact h1)
      rw [h3] at hres
      exact hres
  exact foldl_st_pred cleanupStep
    (fun s => ¬ (s.fs.hasFile (st.handler h).path = true)) post
    (fun s a _ hP => cleanupStep_keeps_absent s a _ hP) _ habs

/-- The bottom-up walk removes a directory strictly under the walk root
that has no subdirectory and no file directly inside it: every frame on
the chain from `top` down to `q` recurses into the next chain member, and
`q`'s own frame sees empty listings and `q ≠ root`, so `os.rmdir(q)`
runs. -/
theorem walkCleanupAux_removes :
    ∀ fuel top root fs q,
      q.take top.length = top →
      top.length ≤ q.length →
      q ≠ root →
      (∀ k, top.length < k → k ≤ q.length → q.take k ∈ fs.dirs) →
      (∀ d ∈ fs.dirs, ¬(d.length = q.length + 1 ∧ d.take q.length = q)) →
      (∀ e ∈ fs.files, ¬(e.1.length = q.length + 1 ∧ e.1.take q.length = q)) →
      fs.dirs.Nodup →
      q.length - top.length < fuel →
      q ∉ (walkCleanupAux fuel top root fs).dirs := by
  intro fuel
  induction fuel with
  | zero => intro top root fs q _ _ _ _ _ _ _ hf; omega
  | succ fuel ih =>
    intro top root fs q htake hlen hqr hchain hnosub hnofile hnd hfuel
    simp only [walkCleanupAux]
    by_cases heq : top.length = q.length
    · have htq : top = q := by rw [← htake, heq, List.take_length]
      subst htq
      have hsd : fs.dirs.filter
          (fun d => decide (d.length = top.length + 1 ∧ d.take top.length = top)) = [] := by
        rw [List.filter_eq_nil_iff]
        intro d hd
        simp only [decide_eq_true_eq]
        exact hnosub d hd
      have hsf : fs.files.filter
          (fun e => decide (e.1.length = top.length + 1 ∧ e.1.take top.length = top)) = [] := by
        rw [List.filter_eq_nil_iff]
        intro e he
        simp only [decide_eq_true_eq]
        exact hnofile e he
      rw [hsd, hsf]
      rw [if_pos (by simp [hqr])]
      show top ∉ (fs.rmdir top).dirs
      simp [FS.rmdir, List.mem_filter]
    · have hlt : top.length < q.length := by omega
      have hdmem : q.take (top.length + 1) ∈ fs.dirs :=
        hchain (top.length + 1) (by omega) (by omega)
      have hdlen : (q.take (top.length + 1)).length = top.length + 1 := by
        rw [List.length_take]
        omega
      have hdtake : (q.take (top.length + 1)).take top.length = top := by
        rw [List.take_take, Nat.min_eq_left (by omega)]
        exact htake
      have hdsub : q.take (top.length + 1) ∈ fs.dirs.filter
          (fun d2 => decide (d2.length = top.length + 1 ∧ d2.take top.length = top)) := by
        rw [List.mem_filter]
        exact ⟨hdmem, by simp [hdlen, hdtake]⟩
      obtain ⟨pre, post, hsplit⟩ := List.append_of_mem hdsub
      have hndf : (fs.dirs.filter
          (fun d2 => decide (d2.length = top.length + 1 ∧ d2.take top.length = top))).Nodup :=
        hnd.filter _
      have hdpre : q.take (top.length + 1) ∉ pre := by
        rw [hsplit, List.nodup_append] at hndf
        intro hcon
        exact hndf.2.2 hcon (List.mem_cons_self _ _)
      rw [hsplit, List.foldl_append, List.foldl_cons]
      have hkeep : ∀ k, top.length + 1 < k → k ≤ q.length →
          q.take k ∈ (pre.foldl (fun f d2 => walkCleanupAux fuel d2 root f) fs).dirs := by
        have hgen := foldl_fs_pred (fun f d2 => walkCleanupAux fuel d2 root f)
          (fun f => ∀ k, top.length + 1 < k → k ≤ q.length → q.take k ∈ f.dirs) pre
          ?_ fs (fun k hk1 hk2 => hchain k (by omega) hk2)
        · exact hgen
        · intro f a ha hP k hk1 hk2
          have hamem : a ∈ fs.dirs.filter
              (fun d2 => decide (d2.length = top.length + 1 ∧ d2.take top.length = top)) := by
            rw [hsplit]
            exact List.mem_append_left _ ha
          have hashape : a.length = top.length + 1 ∧ a.take top.length = top := by
            simpa using (List.mem_filter.mp hamem).2
          have hane : a ≠ q.take (top.length + 1) := fun e => hdpre (e ▸ ha)
          refine walkCleanupAux_keeps fuel a root f (q.take k) (hP k hk1 hk2) ?_
          intro hcon
          apply hane
          have h1 : a = (q.take k).take a.length := hcon.symm
          rw [hashape.1, List.take_take, Nat.min_eq_left (by omega)] at h1
          exact h1
      have hfilesP : (pre.foldl (fun f d2 => walkCleanupAux fuel d2 root f) fs).files =
          fs.files :=
        foldl_fs_pred (fun f d2 => walkCleanupAux fuel d2 root f)
          (fun f => f.files = fs.files) pre
          (fun f a _ hP => (walkCleanupAux_files fuel a root f).trans hP) fs rfl
      have hsubP : ((pre.foldl (fun f d2 => walkCleanupAux fuel d2 root f) fs).dirs).Sublist
          fs.dirs :=
        foldl_fs_pred (fun f d2 => walkCleanupAux fuel d2 root f)
          (fun f => f.dirs.Sublist fs.dirs) pre
          (fun f a _ hP => (walkCleanupAux_dirs_sublist fuel a root f).trans hP) fs
          (List.Sublist.refl _)
      have hrem : q ∉ (walkCleanupAux fuel (q.take (top.length + 1)) root
          (pre.foldl (fun f d2 => walkCleanupAux fuel d2 root f) fs)).dirs := by
        refine ih (q.take (top.length + 1)) root
          (pre.foldl (fun f d2 => walkCleanupAux fuel d2 root f) fs) q
          (by rw [hdlen]) (by rw [hdlen]; omega) hqr ?_ ?_ ?_ (hnd.sublist hsubP) ?_
        · intro k hk1 hk2
          rw [hdlen] at hk1
          exact hkeep k hk1 hk2
        · intro d2 hd2
          exact hnosub d2 (hsubP.subset hd2)
        · intro e he
          rw [hfilesP] at he
          exact hnofile e he
        · rw [hdlen]
          omega
      have habs : q ∉ (post.foldl (fun f d2 => walkCleanupAux fuel d2 root f)
          (walkCleanupAux fuel (q.take (top.length + 1)) root
            (pre.foldl (fun f d2 => walkCleanupAux fuel d2 root f) fs))).dirs := by
        refine foldl_fs_pred _ (fun f => q ∉ f.dirs) post ?_ _ hrem
        intro f a _ hP hcon
        exact hP ((walkCleanupAux_dirs_sublist fuel a root f).subset hcon)
      split
      · intro hcon
        exact habs ((List.filter_sublist _).subset hcon)
      · exact habs

/-- C10, confirmed: closing a `cleanup_empty` node recurses into the
children first (last conjunct, the unfolding of `close`), and for a
childless node with an assigned directory and no temporary directory:
every zero-byte file belonging to an open `FileHandler` of the node is
removed; every file of nonzero size is preserved with its size; a
directory strictly under the assigned directory that has no
subdirectory and, after the zero-byte pass, no file directly inside it,
is removed by the bottom-up walk; and the assigned directory itself is
never removed. -/
theorem close_spec (st : St) (x : Nat) (root : List String)
    (hclean : (st.node x).cleanupEmpty = true)
    (hnoch : (st.node x).children = [])
    (htmp : (st.node x).tmpdir = none)
    (hdirx : (st.node x).directory = some root)
    (hkeys : (st.fs.files.map Prod.fst).Nodup)
    (hdnodup : st.fs.dirs.Nodup) :
    (∀ h ∈ (st.node x).ethHandlers, (st.handler h).isFile = true →
      (st.handler h).streamOpen = true →
      ((st.handler h).path, 0) ∈ st.fs.files →
      ¬ ((closeLogger st x).fs.hasFile (st.handler h).path = true)) ∧
    (∀ p n, (p, n) ∈ st.fs.files → n ≠ 0 → (p, n) ∈ (closeLogger st x).fs.files) ∧
    (∀ q, root.length < q.length → q.take root.length = root →
      (∀ k, root.length < k → k ≤ q.length → q.take k ∈ st.fs.dirs) →
      (∀ d ∈ st.fs.dirs, ¬(d.length = q.length + 1 ∧ d.take q.length = q)) →
      (∀ e ∈ (fileCleanup st x).fs.files,
        ¬(e.1.length = q.length + 1 ∧ e.1.take q.length = q)) →
      q ∉ (closeLogger st x).fs.dirs) ∧
    (root ∈ st.fs.dirs → root ∈ (closeLogger st x).fs.dirs) ∧
    (closeLogger st x =
      closeNodePhase ((st.node x).children.foldl
        (fun s c => closeAux st.nodes.length c s) st) x) := by
  have hfold0 : (st.node x).children.foldl (fun s c => closeAux st.nodes.length c s) st
      = st := by
    rw [hnoch]
    rfl
  have hnodes : (fileCleanup st x).nodes = st.nodes := fileCleanup_nodes st x
  have hnode : (fileCleanup st x).node x = st.node x := St.node_eq_of_nodes_eq hnodes x
  have hclose : closeLogger st x = ({ fileCleanup st x with fs := dirCleanup (fileCleanup st x).fs root } : St) := by
    show closeNodePhase ((st.node x).children.foldl
      (fun s c => closeAux st.nodes.length c s) st) x = _
    rw [hfold0]
    simp only [closeNodePhase]
    rw [if_pos hclean, hnode, hdirx]
    split
    · rename_i t hteq
      exfalso
      have hcon : ((({ fileCleanup st x with fs := dirCleanup (fileCleanup st x).fs root } : St)).node x).tmpdir = some t := hteq
      have hnx : (({ fileCleanup st x with fs := dirCleanup (fileCleanup st x).fs root } : St)).node x = st.node x :=
        @St.node_eq_of_nodes_eq st ({ fileCleanup st x with fs := dirCleanup (fileCleanup st x).fs root } : St) hnodes x
      rw [hnx, htmp] at hcon
      exact Option.noConfusion hcon
    · rfl
  refine ⟨?_, ?_, ?_, ?_, rfl⟩
  · intro h hmem hisf hopen hfile
    rw [hclose]
    show ¬ ((walkCleanupAux ((fileCleanup st x).fs.maxPathLen + 1) root root
        (fileCleanup st x).fs).hasFile (st.handler h).path = true)
    rw [hasFile_eq_of_files_eq
      (walkCleanupAux_files ((fileCleanup st x).fs.maxPathLen + 1) root root
        (fileCleanup st x).fs) ((st.handler h).path)]
    exact fileCleanup_removes st x h hmem hkeys hisf hopen hfile
  · intro p n hmem hn
    rw [hclose]
    show (p, n) ∈ (walkCleanupAux ((fileCleanup st x).fs.maxPathLen + 1) root root
        (fileCleanup st x).fs).files
    rw [walkCleanupAux_files]
    exact fileCleanup_keep_nonzero st x p n hkeys hmem hn
  · intro q hql hqt hch hnsub hnfil
    rw [hclose]
    show q ∉ (walkCleanupAux ((fileCleanup st x).fs.maxPathLen + 1) root root
        (fileCleanup st x).fs).dirs
    have hqmem : q ∈ (fileCleanup st x).fs.dirs := by
      have hq := hch q.length hql (Nat.le_refl q.length)
      rw [List.take_length] at hq
      rw [fileCleanup_dirs]
      exact hq
    refine walkCleanupAux_removes _ root root (fileCleanup st x).fs q hqt (by omega)
      ?_ ?_ ?_ hnfil ?_ ?_
    · intro e
      rw [e] at hql
      exact absurd hql (lt_irrefl _)
    · intro k h1 h2
      rw [fileCleanup_dirs]
      exact hch k h1 h2
    · intro d hd
      rw [fileCleanup_dirs] at hd
      exact hnsub d hd
    · rw [fileCleanup_dirs]
      exact hdnodup
    · have := mem_le_maxPathLen (fileCleanup st x).fs q hqmem
      omega
  · intro hroot
    rw [hclose]
    show root ∈ (walkCleanupAux ((fileCleanup st x).fs.maxPathLen + 1) root root
        (fileCleanup st x).fs).dirs
    refine walkCleanupAux_root _ root root _ ?_
    rw [fileCleanup_dirs]
    exact hroot

/-- A single `cleanup_empty` node whose directory `/logs` holds a
zero-byte `empty.log` inside `/logs/sub` and a 5-byte `run.log`, with an
open `FileHandler` on each. -/
def c10st : St :=
  { nodes := [({ name := "root", parent := none, children := [],
                 logLevel := some 10, ethHandlers := [0, 1], descHandlers := [],
                 directory := some ["logs"], tmpdir := none,
                 cleanupEmpty := true } : Node)],
    handlers := [({ isFile := true, path := ["logs", "sub", "empty.log"],
                    level := 10, streamOpen := true } : Handler),
                 ({ isFile := true, path := ["logs", "run.log"],
                    level := 10, streamOpen := true } : Handler)],
    loggers := [("root", { level := 10, handlers := [0, 1] })],
    fs := { dirs := [["logs"], ["logs", "sub"]],
            files := [(["logs", "sub", "empty.log"], 0), (["logs", "run.log"], 5)] },
    cwd := ["home"], nextTmp := 0 }

/-- C10, witness: closing the node removes the zero-byte `empty.log`,
removes the consequently empty `/logs/sub`, preserves the 5-byte
`run.log`, and keeps `/logs` itself. -/
theorem close_spec_witness :
    ¬ ((closeLogger c10st 0).fs.hasFile ["logs", "sub", "empty.log"] = true) ∧
    (["logs", "run.log"], 5) ∈ (closeLogger c10st 0).fs.files ∧
    ["logs", "sub"] ∉ (closeLogger c10st 0).fs.dirs ∧
    ["logs"] ∈ (closeLogger c10st 0).fs.dirs := by
  have h := close_spec c10st 0 ["logs"] (by decide) (by decide) (by decide)
    (by decide) (by decide) (by decide)
  exact ⟨h.1 0 (by decide) (by decide) (by decide) (by decide),
    h.2.1 ["logs", "run.log"] 5 (by decide) (by decide),
    h.2.2.1 ["logs", "sub"] (by decide) (by decide)
      (by intro k h1 h2
          simp only [List.length_cons, List.length_nil] at h1 h2
          have hk : k = 2 := by omega
          subst hk
          decide)
      (by decide) (by decide),
    h.2.2.2.1 (by decide)⟩

/-! ### C2: handler propagation over current and future subtrees -/

theorem loggersByName_loggerAdd (s : St) (nm' : String) (hh : Nat) (nm : String) :
    loggersByName (s.loggerAdd nm' hh) nm =
      if nm = nm' ∧ (s.loggers.lookup nm).isSome ∧ hh ∉ loggersByName s nm
      then loggersByName s nm ++ [hh]
      else loggersByName s nm := by
  unfold loggersByName St.loggerAdd
  show (((updLoggerAssoc s.loggers nm'
    (fun lo => if hh ∈ lo.handlers then lo
               else { lo with handlers := lo.handlers ++ [hh] })).lookup nm).getD
      default).handlers = _
  rw [lookup_updLoggerAssoc]
  by_cases he : nm = nm'
  · rw [if_pos he]
    rcases hl : s.loggers.lookup nm with _ | lo
    · rw [if_neg (by simp)]
      simp
    · simp only [Option.getD_some]
      show (if hh ∈ lo.handlers then lo
        else { lo with handlers := lo.handlers ++ [hh] } : LoggerObj).handlers = _
      by_cases hm : hh ∈ lo.handlers
      · rw [if_pos hm, if_neg (by simp [hm])]
      · rw [if_neg hm, if_pos ⟨he, by simp, by simpa using hm⟩]
  · rw [if_neg he, if_neg (fun hcon => he hcon.1)]

theorem count_loggerAdd_le (s : St) (nm' : String) (hh : Nat) (nm : String) (h : Nat)
    (hle : (loggersByName s nm).count h ≤ 1) :
    (loggersByName (s.loggerAdd nm' hh) nm).count h ≤ 1 := by
  rw [loggersByName_loggerAdd]
  split
  · rename_i hcond
    rw [List.count_append]
    by_cases hhe : hh = h
    · subst hhe
      have h0 : (loggersByName s nm).count hh = 0 := by
        rw [List.count_eq_zero]
        exact hcond.2.2
      rw [h0]
      simp
    · have h0 : List.count h [hh] = 0 := by
        rw [List.count_eq_zero]
        intro hcon
        exact hhe (List.mem_singleton.mp hcon).symm
      omega
  · exact hle

theorem count_loggerAdd_one (s : St) (nm' : String) (hh : Nat) (nm : String) (h : Nat)
    (hone : (loggersByName s nm).count h = 1) :
    (loggersByName (s.loggerAdd nm' hh) nm).count h = 1 := by
  rw [loggersByName_loggerAdd]
  split
  · rename_i hcond
    rw [List.count_append]
    by_cases hhe : hh = h
    · subst hhe
      exfalso
      apply hcond.2.2
      rw [← List.count_pos_iff]
      omega
    · have h0 : List.count h [hh] = 0 := by
        rw [List.count_eq_zero]
        intro hcon
        exact hhe (List.mem_singleton.mp hcon).symm
      omega
  · exact hone

theorem count_loggerAdd_other (s : St) (nm' : String) (hh : Nat) (nm : String) (h : Nat)
    (hne : hh ≠ h) :
    (loggersByName (s.loggerAdd nm' hh) nm).count h = (loggersByName s nm).count h := by
  rw [loggersByName_loggerAdd]
  split
  · rw [List.count_append]
    have h0 : List.count h [hh] = 0 := by
      rw [List.count_eq_zero]
      intro hcon
      exact hne (List.mem_singleton.mp hcon).symm
    omega
  · rfl

theorem count_loggerAdd_self (s : St) (nm : String) (h : Nat)
    (hsome : (s.loggers.lookup nm).isSome)
    (hle : (loggersByName s nm).count h ≤ 1) :
    (loggersByName (s.loggerAdd nm h) nm).count h = 1 := by
  rw [loggersByName_loggerAdd]
  by_cases hm : h ∈ loggersByName s nm
  · rw [if_neg (fun hcon => hcon.2.2 hm)]
    have := List.count_pos_iff.mpr hm
    omega
  · rw [if_pos ⟨rfl, hsome, hm⟩, List.count_append]
    have h0 : (loggersByName s nm).count h = 0 := by
      rw [List.count_eq_zero]
      exact hm
    rw [h0]
    simp

theorem lookup_isSome_congr :
    ∀ (l l' : List (String × LoggerObj)), l.map Prod.fst = l'.map Prod.fst →
      ∀ nm, (l.lookup nm).isSome = (l'.lookup nm).isSome := by
  intro l
  induction l with
  | nil =>
    intro l' hmap nm
    have : l' = [] := by
      cases l' with
      | nil => rfl
      | cons b t' => simp at hmap
    rw [this]
  | cons a t ih =>
    intro l' hmap nm
    cases l' with
    | nil => simp at hmap
    | cons b t' =>
      simp only [List.map_cons, List.cons.injEq] at hmap
      simp only [List.lookup]
      rw [hmap.1]
      by_cases hb : nm == b.1
      · rw [hb]
        simp
      · rw [Bool.not_eq_true] at hb
        rw [hb]
        simp only [Bool.false_eq_true, if_false]
        exact ih t' hmap.2 nm

theorem reaches_congr {st st' : St}
    (hch : ∀ j, (st'.node j).children = (st.node j).children) {c d : Nat} :
    Reaches st c d → Reaches st' c d := by
  intro hr
  induction hr with
  | refl y => exact Reaches.refl y
  | step hm _ ih =>
    refine Reaches.step ?_ ih
    rw [hch]
    exact hm

/-- Through any `addHandler` recursion the per-logger count of a handler
stays at most one, an exact one is preserved, and adding a DIFFERENT
handler id leaves the count unchanged (CPython `Logger.addHandler`
dedups, and nothing removes). -/
theorem addHandlerAux_count_pres (h hh : Nat) (inc slvl : Bool) (nm : String) :
    ∀ fuel y s,
      ((loggersByName s nm).count h ≤ 1 →
        (loggersByName (addHandlerAux hh inc slvl fuel y s) nm).count h ≤ 1) ∧
      ((loggersByName s nm).count h = 1 →
        (loggersByName (addHandlerAux hh inc slvl fuel y s) nm).count h = 1) ∧
      (hh ≠ h →
        (loggersByName (addHandlerAux hh inc slvl fuel y s) nm).count h =
          (loggersByName s nm).count h) := by
  intro fuel
  induction fuel with
  | zero => intro y s; exact ⟨fun hle => hle, fun h1 => h1, fun _ => rfl⟩
  | succ fuel ih =>
    intro y s
    simp only [addHandlerAux]
    have hst1 : loggersByName (if slvl = true then
        s.updHandler hh (fun hd => { hd with level := s.getLogLevel y }) else s) nm =
        loggersByName s nm := by
      split
      · rfl
      · rfl
    by_cases hinc : inc
    · rw [if_pos hinc]
      refine ⟨?_, ?_, ?_⟩
      · intro hle
        refine foldl_st_pred _ (fun s2 => ((loggersByName s2 nm).count h ≤ 1)) _
          (fun s2 a _ hP => (ih a s2).1 hP) _ ?_
        exact count_loggerAdd_le _ _ hh nm h (by rw [hst1]; exact hle)
      · intro h1
        refine foldl_st_pred _ (fun s2 => ((loggersByName s2 nm).count h = 1)) _
          (fun s2 a _ hP => (ih a s2).2.1 hP) _ ?_
        exact count_loggerAdd_one _ _ hh nm h (by rw [hst1]; exact h1)
      · intro hne
        refine foldl_st_pred _ (fun s2 => ((loggersByName s2 nm).count h =
            (loggersByName s nm).count h)) _
          (fun s2 a _ hP => ((ih a s2).2.2 hne).trans hP) _ ?_
        exact (count_loggerAdd_other _ _ hh nm h hne).trans (by rw [hst1])
    · rw [if_neg hinc]
      exact ⟨fun hle => count_loggerAdd_le _ _ hh nm h (by rw [hst1]; exact hle),
        fun h1 => count_loggerAdd_one _ _ hh nm h (by rw [hst1]; exact h1),
        fun hne => (count_loggerAdd_other _ _ hh nm h hne).trans (by rw [hst1])⟩

/-- `addHandler` with `include_descendants=True` reaches every node
currently reachable by child links: each gets the handler in its
`_handlers`, in its `_descendant_handlers`, and exactly once in its
underlying `logging.Logger`. -/
theorem addHandlerAux_reaches (h : Nat) (slvl : Bool) :
    ∀ fuel st x,
      (∀ i, i < st.nodes.length → ∀ c ∈ (st.node i).children,
        i < c ∧ c < st.nodes.length) →
      x < st.nodes.length →
      st.nodes.length - x ≤ fuel →
      (∀ j, j < st.nodes.length → (st.loggers.lookup (st.node j).name).isSome) →
      (∀ j, j < st.nodes.length →
        (loggersByName st (st.node j).name).count h ≤ 1) →
      ∀ d, Reaches st x d →
        h ∈ ((addHandlerAux h true slvl fuel x st).node d).ethHandlers ∧
        h ∈ ((addHandlerAux h true slvl fuel x st).node d).descHandlers ∧
        (loggersByName (addHandlerAux h true slvl fuel x st)
          (st.node d).name).count h = 1 := by
  intro fuel
  induction fuel with
  | zero =>
    intro st x _ hx hfuel _ _ d _
    omega
  | succ fuel ih =>
    intro st x hGt hx hfuel hlogAll hle d hreach
    simp only [addHandlerAux]
    rw [if_pos trivial]
    have h1n : (if slvl = true then st.updHandler h (fun hd => { hd with level := st.getLogLevel x }) else st).nodes = st.nodes := by split <;> rfl
    have h1l : (if slvl = true then st.updHandler h (fun hd => { hd with level := st.getLogLevel x }) else st).loggers = st.loggers := by split <;> rfl
    have hlb1 : ∀ nm, loggersByName (if slvl = true then st.updHandler h (fun hd => { hd with level := st.getLogLevel x }) else st) nm = loggersByName st nm := by
      intro nm
      unfold loggersByName
      rw [h1l]
    have hnx1 : ∀ j, (if slvl = true then st.updHandler h (fun hd => { hd with level := st.getLogLevel x }) else st).node j = st.node j :=
      fun j => St.node_eq_of_nodes_eq h1n j
    have hnx2 : ∀ j, ((if slvl = true then st.updHandler h (fun hd => { hd with level := st.getLogLevel x }) else st).loggerAdd ((if slvl = true then st.updHandler h (fun hd => { hd with level := st.getLogLevel x }) else st).node x).name h).node j = st.node j :=
      fun j => @St.node_eq_of_nodes_eq st ((if slvl = true then st.updHandler h (fun hd => { hd with level := st.getLogLevel x }) else st).loggerAdd ((if slvl = true then st.updHandler h (fun hd => { hd with level := st.getLogLevel x }) else st).node x).name h) h1n j
    have hlen2 : ((if slvl = true then st.updHandler h (fun hd => { hd with level := st.getLogLevel x }) else st).loggerAdd ((if slvl = true then st.updHandler h (fun hd => { hd with level := st.getLogLevel x }) else st).node x).name h).nodes.length = st.nodes.length := congrArg List.length h1n
    have hx2 : x < ((if slvl = true then st.updHandler h (fun hd => { hd with level := st.getLogLevel x }) else st).loggerAdd ((if slvl = true then st.updHandler h (fun hd => { hd with level := st.getLogLevel x }) else st).node x).name h).nodes.length := by
      rw [hlen2]
      exact hx
    have hn3x := St.node_updNode_self ((if slvl = true then st.updHandler h (fun hd => { hd with level := st.getLogLevel x }) else st).loggerAdd ((if slvl = true then st.updHandler h (fun hd => { hd with level := st.getLogLevel x }) else st).node x).name h) x
      (fun n => { n with ethHandlers := n.ethHandlers ++ [h] }) hx2
    have hx3 : x < (((if slvl = true then st.updHandler h (fun hd => { hd with level := st.getLogLevel x }) else st).loggerAdd ((if slvl = true then st.updHandler h (fun hd => { hd with level := st.getLogLevel x }) else st).node x).name h).updNode x (fun n => { n with ethHandlers := n.ethHandlers ++ [h] })).nodes.length := by
      simp only [St.updNode, St.setNode, List.length_set]
      exact hx2
    have hn4x := St.node_updNode_self (((if slvl = true then st.updHandler h (fun hd => { hd with level := st.getLogLevel x }) else st).loggerAdd ((if slvl = true then st.updHandler h (fun hd => { hd with level := st.getLogLevel x }) else st).node x).name h).updNode x (fun n => { n with ethHandlers := n.ethHandlers ++ [h] })) x
      (fun n => { n with descHandlers := n.descHandlers ++ [h] }) hx3
    have hval : ((((if slvl = true then st.updHandler h (fun hd => { hd with level := st.getLogLevel x }) else st).loggerAdd ((if slvl = true then st.updHandler h (fun hd => { hd with level := st.getLogLevel x }) else st).node x).name h).updNode x (fun n => { n with ethHandlers := n.ethHandlers ++ [h] })).updNode x (fun n => { n with descHandlers := n.descHandlers ++ [h] })).node x =
        ({ st.node x with ethHandlers := (st.node x).ethHandlers ++ [h], descHandlers := (st.node x).descHandlers ++ [h] } : Node) := by
      rw [hn4x, hn3x, hnx2 x]
    have hnode4 : ∀ j, j ≠ x → ((((if slvl = true then st.updHandler h (fun hd => { hd with level := st.getLogLevel x }) else st).loggerAdd ((if slvl = true then st.updHandler h (fun hd => { hd with level := st.getLogLevel x }) else st).node x).name h).updNode x (fun n => { n with ethHandlers := n.ethHandlers ++ [h] })).updNode x (fun n => { n with descHandlers := n.descHandlers ++ [h] })).node j = st.node j := by
      intro j hj
      rw [St.node_updNode_ne (((if slvl = true then st.updHandler h (fun hd => { hd with level := st.getLogLevel x }) else st).loggerAdd ((if slvl = true then st.updHandler h (fun hd => { hd with level := st.getLogLevel x }) else st).node x).name h).updNode x (fun n => { n with ethHandlers := n.ethHandlers ++ [h] })) x j _ (fun e => hj e.symm),
        St.node_updNode_ne ((if slvl = true then st.updHandler h (fun hd => { hd with level := st.getLogLevel x }) else st).loggerAdd ((if slvl = true then st.updHandler h (fun hd => { hd with level := st.getLogLevel x }) else st).node x).name h) x j _ (fun e => hj e.symm), hnx2 j]
    have hsh04 : NodeShape st ((((if slvl = true then st.updHandler h (fun hd => { hd with level := st.getLogLevel x }) else st).loggerAdd ((if slvl = true then st.updHandler h (fun hd => { hd with level := st.getLogLevel x }) else st).node x).name h).updNode x (fun n => { n with ethHandlers := n.ethHandlers ++ [h] })).updNode x (fun n => { n with descHandlers := n.descHandlers ++ [h] })) := by
      refine nodeShape_comp (nodeShape_comp (nodeShape_comp ?_
        (loggerAdd_nodeShape (if slvl = true then st.updHandler h (fun hd => { hd with level := st.getLogLevel x }) else st) ((if slvl = true then st.updHandler h (fun hd => { hd with level := st.getLogLevel x }) else st).node x).name h))
        (updNode_nodeShape ((if slvl = true then st.updHandler h (fun hd => { hd with level := st.getLogLevel x }) else st).loggerAdd ((if slvl = true then st.updHandler h (fun hd => { hd with level := st.getLogLevel x }) else st).node x).name h) x (fun n => { n with ethHandlers := n.ethHandlers ++ [h] }) (fun n => ⟨rfl, rfl, rfl, rfl, rfl, rfl, rfl⟩)))
        (updNode_nodeShape (((if slvl = true then st.updHandler h (fun hd => { hd with level := st.getLogLevel x }) else st).loggerAdd ((if slvl = true then st.updHandler h (fun hd => { hd with level := st.getLogLevel x }) else st).node x).name h).updNode x (fun n => { n with ethHandlers := n.ethHandlers ++ [h] })) x (fun n => { n with descHandlers := n.descHandlers ++ [h] }) (fun n => ⟨rfl, rfl, rfl, rfl, rfl, rfl, rfl⟩))
      split
      · exact updHandler_nodeShape st h _
      · exact nodeShape_refl st
    have hstep : ∀ (s2 : St) (a : Nat),
        (h ∈ (s2.node d).ethHandlers ∧ h ∈ (s2.node d).descHandlers ∧
          (loggersByName s2 (st.node d).name).count h = 1) →
        (h ∈ ((addHandlerAux h true slvl fuel a s2).node d).ethHandlers ∧
          h ∈ ((addHandlerAux h true slvl fuel a s2).node d).descHandlers ∧
          (loggersByName (addHandlerAux h true slvl fuel a s2)
            (st.node d).name).count h = 1) :=
      fun s2 a hP => ⟨(addHandlerAux_mono h true slvl fuel a s2).1 d h hP.1,
        (addHandlerAux_mono h true slvl fuel a s2).2.1 d h hP.2.1,
        (addHandlerAux_count_pres h h true slvl (st.node d).name fuel a s2).2.1 hP.2.2⟩
    cases hreach with
    | refl =>
      refine foldl_st_pred _ (fun s2 => (h ∈ (s2.node x).ethHandlers ∧
          h ∈ (s2.node x).descHandlers ∧
          (loggersByName s2 (st.node x).name).count h = 1)) _
        (fun s2 a _ hP => hstep s2 a hP) _ ?_
      refine ⟨?_, ?_, ?_⟩
      · rw [hval]
        exact List.mem_append_right _ (List.mem_singleton.mpr rfl)
      · rw [hval]
        exact List.mem_append_right _ (List.mem_singleton.mpr rfl)
      · rw [← hnx1 x]
        exact count_loggerAdd_self (if slvl = true then st.updHandler h (fun hd => { hd with level := st.getLogLevel x }) else st) ((if slvl = true then st.updHandler h (fun hd => { hd with level := st.getLogLevel x }) else st).node x).name h
          (by rw [h1l, hnx1 x]; exact hlogAll x hx)
          (by rw [hlb1, hnx1 x]; exact hle x hx)
    | step hm hr =>
      rename_i c
      have hxc := hGt x hx c hm
      have hmem4 : c ∈ (((((if slvl = true then st.updHandler h (fun hd => { hd with level := st.getLogLevel x }) else st).loggerAdd ((if slvl = true then st.updHandler h (fun hd => { hd with level := st.getLogLevel x }) else st).node x).name h).updNode x (fun n => { n with ethHandlers := n.ethHandlers ++ [h] })).updNode x (fun n => { n with descHandlers := n.descHandlers ++ [h] })).node x).children := by
        rw [show (((((if slvl = true then st.updHandler h (fun hd => { hd with level := st.getLogLevel x }) else st).loggerAdd ((if slvl = true then st.updHandler h (fun hd => { hd with level := st.getLogLevel x }) else st).node x).name h).updNode x (fun n => { n with ethHandlers := n.ethHandlers ++ [h] })).updNode x (fun n => { n with descHandlers := n.descHandlers ++ [h] })).node x).children = (st.node x).children from by rw [hval]]
        exact hm
      obtain ⟨pre, post, hsplit⟩ := List.append_of_mem hmem4
      rw [hsplit, List.foldl_append, List.foldl_cons]
      have hshmid : NodeShape st (pre.foldl
          (fun s c2 => addHandlerAux h true slvl fuel c2 s) ((((if slvl = true then st.updHandler h (fun hd => { hd with level := st.getLogLevel x }) else st).loggerAdd ((if slvl = true then st.updHandler h (fun hd => { hd with level := st.getLogLevel x }) else st).node x).name h).updNode x (fun n => { n with ethHandlers := n.ethHandlers ++ [h] })).updNode x (fun n => { n with descHandlers := n.descHandlers ++ [h] }))) :=
        nodeShape_comp hsh04 (foldl_nodeShape _
          (fun s2 a => addHandlerAux_nodeShape h true slvl fuel a s2) pre ((((if slvl = true then st.updHandler h (fun hd => { hd with level := st.getLogLevel x }) else st).loggerAdd ((if slvl = true then st.updHandler h (fun hd => { hd with level := st.getLogLevel x }) else st).node x).name h).updNode x (fun n => { n with ethHandlers := n.ethHandlers ++ [h] })).updNode x (fun n => { n with descHandlers := n.descHandlers ++ [h] })))
      have hc' : c < (pre.foldl
          (fun s c2 => addHandlerAux h true slvl fuel c2 s) ((((if slvl = true then st.updHandler h (fun hd => { hd with level := st.getLogLevel x }) else st).loggerAdd ((if slvl = true then st.updHandler h (fun hd => { hd with level := st.getLogLevel x }) else st).node x).name h).updNode x (fun n => { n with ethHandlers := n.ethHandlers ++ [h] })).updNode x (fun n => { n with descHandlers := n.descHandlers ++ [h] }))).nodes.length := by
        rw [hshmid.1]
        exact hxc.2
      have hGt' : ∀ i, i < (pre.foldl
          (fun s c2 => addHandlerAux h true slvl fuel c2 s) ((((if slvl = true then st.updHandler h (fun hd => { hd with level := st.getLogLevel x }) else st).loggerAdd ((if slvl = true then st.updHandler h (fun hd => { hd with level := st.getLogLevel x }) else st).node x).name h).updNode x (fun n => { n with ethHandlers := n.ethHandlers ++ [h] })).updNode x (fun n => { n with descHandlers := n.descHandlers ++ [h] }))).nodes.length →
          ∀ c2 ∈ ((pre.foldl (fun s c2 => addHandlerAux h true slvl fuel c2 s)
            ((((if slvl = true then st.updHandler h (fun hd => { hd with level := st.getLogLevel x }) else st).loggerAdd ((if slvl = true then st.updHandler h (fun hd => { hd with level := st.getLogLevel x }) else st).node x).name h).updNode x (fun n => { n with ethHandlers := n.ethHandlers ++ [h] })).updNode x (fun n => { n with descHandlers := n.descHandlers ++ [h] }))).node i).children,
          i < c2 ∧ c2 < (pre.foldl (fun s c2 => addHandlerAux h true slvl fuel c2 s)
            ((((if slvl = true then st.updHandler h (fun hd => { hd with level := st.getLogLevel x }) else st).loggerAdd ((if slvl = true then st.updHandler h (fun hd => { hd with level := st.getLogLevel x }) else st).node x).name h).updNode x (fun n => { n with ethHandlers := n.ethHandlers ++ [h] })).updNode x (fun n => { n with descHandlers := n.descHandlers ++ [h] }))).nodes.length := by
        intro i hi c2 hc2
        rw [hshmid.1] at hi ⊢
        rw [(hshmid.2.1 i).2.2.1] at hc2
        exact hGt i hi c2 hc2
      have hfuel' : (pre.foldl
          (fun s c2 => addHandlerAux h true slvl fuel c2 s) ((((if slvl = true then st.updHandler h (fun hd => { hd with level := st.getLogLevel x }) else st).loggerAdd ((if slvl = true then st.updHandler h (fun hd => { hd with level := st.getLogLevel x }) else st).node x).name h).updNode x (fun n => { n with ethHandlers := n.ethHandlers ++ [h] })).updNode x (fun n => { n with descHandlers := n.descHandlers ++ [h] }))).nodes.length - c
          ≤ fuel := by
        rw [hshmid.1]
        omega
      have hlogAll' : ∀ j, j < (pre.foldl
          (fun s c2 => addHandlerAux h true slvl fuel c2 s) ((((if slvl = true then st.updHandler h (fun hd => { hd with level := st.getLogLevel x }) else st).loggerAdd ((if slvl = true then st.updHandler h (fun hd => { hd with level := st.getLogLevel x }) else st).node x).name h).updNode x (fun n => { n with ethHandlers := n.ethHandlers ++ [h] })).updNode x (fun n => { n with descHandlers := n.descHandlers ++ [h] }))).nodes.length →
          (((pre.foldl (fun s c2 => addHandlerAux h true slvl fuel c2 s)
            ((((if slvl = true then st.updHandler h (fun hd => { hd with level := st.getLogLevel x }) else st).loggerAdd ((if slvl = true then st.updHandler h (fun hd => { hd with level := st.getLogLevel x }) else st).node x).name h).updNode x (fun n => { n with ethHandlers := n.ethHandlers ++ [h] })).updNode x (fun n => { n with descHandlers := n.descHandlers ++ [h] }))).loggers).lookup ((pre.foldl
              (fun s c2 => addHandlerAux h true slvl fuel c2 s) ((((if slvl = true then st.updHandler h (fun hd => { hd with level := st.getLogLevel x }) else st).loggerAdd ((if slvl = true then st.updHandler h (fun hd => { hd with level := st.getLogLevel x }) else st).node x).name h).updNode x (fun n => { n with ethHandlers := n.ethHandlers ++ [h] })).updNode x (fun n => { n with descHandlers := n.descHandlers ++ [h] }))).node j).name).isSome := by
        intro j hj
        rw [(hshmid.2.1 j).1,
          lookup_isSome_congr _ st.loggers hshmid.2.2.2.2.2.2 ((st.node j).name)]
        refine hlogAll j ?_
        rw [← hshmid.1]
        exact hj
      have hle' : ∀ j, j < (pre.foldl
          (fun s c2 => addHandlerAux h true slvl fuel c2 s) ((((if slvl = true then st.updHandler h (fun hd => { hd with level := st.getLogLevel x }) else st).loggerAdd ((if slvl = true then st.updHandler h (fun hd => { hd with level := st.getLogLevel x }) else st).node x).name h).updNode x (fun n => { n with ethHandlers := n.ethHandlers ++ [h] })).updNode x (fun n => { n with descHandlers := n.descHandlers ++ [h] }))).nodes.length →
          (loggersByName (pre.foldl (fun s c2 => addHandlerAux h true slvl fuel c2 s)
            ((((if slvl = true then st.updHandler h (fun hd => { hd with level := st.getLogLevel x }) else st).loggerAdd ((if slvl = true then st.updHandler h (fun hd => { hd with level := st.getLogLevel x }) else st).node x).name h).updNode x (fun n => { n with ethHandlers := n.ethHandlers ++ [h] })).updNode x (fun n => { n with descHandlers := n.descHandlers ++ [h] }))) ((pre.foldl (fun s c2 => addHandlerAux h true slvl fuel c2 s)
              ((((if slvl = true then st.updHandler h (fun hd => { hd with level := st.getLogLevel x }) else st).loggerAdd ((if slvl = true then st.updHandler h (fun hd => { hd with level := st.getLogLevel x }) else st).node x).name h).updNode x (fun n => { n with ethHandlers := n.ethHandlers ++ [h] })).updNode x (fun n => { n with descHandlers := n.descHandlers ++ [h] }))).node j).name).count h ≤ 1 := by
        intro j hj
        rw [(hshmid.2.1 j).1]
        have hj' : j < st.nodes.length := by
          rw [← hshmid.1]
          exact hj
        have hb : (loggersByName ((((if slvl = true then st.updHandler h (fun hd => { hd with level := st.getLogLevel x }) else st).loggerAdd ((if slvl = true then st.updHandler h (fun hd => { hd with level := st.getLogLevel x }) else st).node x).name h).updNode x (fun n => { n with ethHandlers := n.ethHandlers ++ [h] })).updNode x (fun n => { n with descHandlers := n.descHandlers ++ [h] })) ((st.node j).name)).count h ≤ 1 :=
          count_loggerAdd_le (if slvl = true then st.updHandler h (fun hd => { hd with level := st.getLogLevel x }) else st) ((if slvl = true then st.updHandler h (fun hd => { hd with level := st.getLogLevel x }) else st).node x).name h ((st.node j).name) h
            (by rw [hlb1]; exact hle j hj')
        exact foldl_st_pred _
          (fun s2 => ((loggersByName s2 ((st.node j).name)).count h ≤ 1)) pre
          (fun s2 a _ hP =>
            (addHandlerAux_count_pres h h true slvl ((st.node j).name) fuel a s2).1 hP)
          ((((if slvl = true then st.updHandler h (fun hd => { hd with level := st.getLogLevel x }) else st).loggerAdd ((if slvl = true then st.updHandler h (fun hd => { hd with level := st.getLogLevel x }) else st).node x).name h).updNode x (fun n => { n with ethHandlers := n.ethHandlers ++ [h] })).updNode x (fun n => { n with descHandlers := n.descHandlers ++ [h] })) hb
      have hreach' : Reaches (pre.foldl
          (fun s c2 => addHandlerAux h true slvl fuel c2 s) ((((if slvl = true then st.updHandler h (fun hd => { hd with level := st.getLogLevel x }) else st).loggerAdd ((if slvl = true then st.updHandler h (fun hd => { hd with level := st.getLogLevel x }) else st).node x).name h).updNode x (fun n => { n with ethHandlers := n.ethHandlers ++ [h] })).updNode x (fun n => { n with descHandlers := n.descHandlers ++ [h] }))) c d :=
        reaches_congr (fun j => (hshmid.2.1 j).2.2.1) hr
      have ihres := ih (pre.foldl (fun s c2 => addHandlerAux h true slvl fuel c2 s)
        ((((if slvl = true then st.updHandler h (fun hd => { hd with level := st.getLogLevel x }) else st).loggerAdd ((if slvl = true then st.updHandler h (fun hd => { hd with level := st.getLogLevel x }) else st).node x).name h).updNode x (fun n => { n with ethHandlers := n.ethHandlers ++ [h] })).updNode x (fun n => { n with descHandlers := n.descHandlers ++ [h] }))) c hGt' hc' hfuel' hlogAll' hle' d hreach'
      refine foldl_st_pred _ (fun s2 => (h ∈ (s2.node d).ethHandlers ∧
          h ∈ (s2.node d).descHandlers ∧
          (loggersByName s2 (st.node d).name).count h = 1)) post
        (fun s2 a _ hP => hstep s2 a hP) _ ?_
      refine ⟨ihres.1, ihres.2.1, ?_⟩
      rw [← (hshmid.2.1 d).1]
      exact ihres.2.2

/-! ### C2: handler propagation to future children (`_add_child` replay) -/

theorem updNode_eth_eq (s : St) (y : Nat) (f : Node → Node)
    (hf : ∀ n, (f n).ethHandlers = n.ethHandlers) :
    ∀ j, (((s.updNode y f).node j).ethHandlers) = ((s.node j).ethHandlers) := by
  intro j
  by_cases hy : y < s.nodes.length
  · by_cases hj : j = y
    · rw [hj, St.node_updNode_self s y f hy]
      exact hf _
    · rw [St.node_updNode_ne s y j f (fun e => hj e.symm)]
  · rw [St.node_eq_of_nodes_eq (St.node_updNode_oob s y f (by omega)) j]

theorem addHandlerAux_ff_eth_count (hid h : Nat) (hne : hid ≠ h) :
    ∀ fuel y s j,
      (((addHandlerAux hid false false fuel y s).node j).ethHandlers).count h =
        ((s.node j).ethHandlers).count h := by
  intro fuel
  cases fuel with
  | zero => intro y s j; rfl
  | succ fuel =>
    intro y s j
    simp only [addHandlerAux, Bool.false_eq_true, if_false]
    by_cases hylen : y < s.nodes.length
    · by_cases hj : j = y
      · rw [hj]
        rw [St.node_updNode_self (s.loggerAdd (s.node y).name hid) y
          (fun n => { n with ethHandlers := n.ethHandlers ++ [hid] })
          (by exact hylen)]
        show (((s.node y).ethHandlers ++ [hid]).count h =
          ((s.node y).ethHandlers).count h)
        rw [List.count_append]
        have h0 : List.count h [hid] = 0 := by
          rw [List.count_eq_zero]
          intro hcon
          exact hne (List.mem_singleton.mp hcon).symm
        omega
      · rw [St.node_updNode_ne (s.loggerAdd (s.node y).name hid) y j
          (fun n => { n with ethHandlers := n.ethHandlers ++ [hid] })
          (fun e => hj e.symm)]
        rfl
    · rw [St.node_eq_of_nodes_eq (St.node_updNode_oob
        (s.loggerAdd (s.node y).name hid) y
        (fun n => { n with ethHandlers := n.ethHandlers ++ [hid] })
        (by exact Nat.le_of_not_lt hylen)) j]
      rfl

theorem save_to_file_eth_count (st : St) (x : Nat) (path : List String) (lvl : Int)
    (h : Nat) (hlt : h < st.handlers.length) :
    ∀ j, (((save_to_file st x path false lvl).node j).ethHandlers).count h =
      ((st.node j).ethHandlers).count h := by
  intro j
  exact addHandlerAux_ff_eth_count st.handlers.length h
    (fun e => by omega)
    (saveFileMid st path lvl).nodes.length x (saveFileMid st path lvl) j

theorem save_to_file_logger_count (st : St) (x : Nat) (path : List String) (lvl : Int)
    (h : Nat) (hlt : h < st.handlers.length) (nm : String) :
    (loggersByName (save_to_file st x path false lvl) nm).count h =
      (loggersByName st nm).count h :=
  (addHandlerAux_count_pres h st.handlers.length false false nm
    (saveFileMid st path lvl).nodes.length x (saveFileMid st path lvl)).2.2
    (fun e => by omega)

theorem saveDirCount_tail (h : Nat) (fuel : Nat) (p : PathArg) (x : Nat)
    (rp : List String) (stA : St) (hlt : h < stA.handlers.length)
    (ih : ∀ y2 p2 s2, h < s2.handlers.length →
      h < ((save_to_directoryAux fuel y2 p2 s2).1).handlers.length ∧
      (∀ j, ((((save_to_directoryAux fuel y2 p2 s2).1).node j).ethHandlers).count h =
        ((s2.node j).ethHandlers).count h) ∧
      (∀ nm, (loggersByName ((save_to_directoryAux fuel y2 p2 s2).1) nm).count h =
        (loggersByName s2 nm).count h)) :
    h < (((((save_to_file ({ stA with fs := stA.fs.makedirs rp } : St) x
        (rp ++ [(({ stA with fs := stA.fs.makedirs rp } : St).node x).name ++ ".log"])
        false 10).node x).children.foldl
      (fun acc c => match acc with
        | (s1, some e1) => (s1, some e1)
        | (s1, none) => save_to_directoryAux fuel c (pathJoin p (s1.node c).name) s1)
      (save_to_file ({ stA with fs := stA.fs.makedirs rp } : St) x
        (rp ++ [(({ stA with fs := stA.fs.makedirs rp } : St).node x).name ++ ".log"])
        false 10, none))).1).handlers.length ∧
    (∀ j, ((((((((save_to_file ({ stA with fs := stA.fs.makedirs rp } : St) x
        (rp ++ [(({ stA with fs := stA.fs.makedirs rp } : St).node x).name ++ ".log"])
        false 10).node x).children.foldl
      (fun acc c => match acc with
        | (s1, some e1) => (s1, some e1)
        | (s1, none) => save_to_directoryAux fuel c (pathJoin p (s1.node c).name) s1)
      (save_to_file ({ stA with fs := stA.fs.makedirs rp } : St) x
        (rp ++ [(({ stA with fs := stA.fs.makedirs rp } : St).node x).name ++ ".log"])
        false 10, none))).1).node j)).ethHandlers).count h =
      ((stA.node j).ethHandlers).count h) ∧
    (∀ nm, (loggersByName (((((save_to_file ({ stA with fs := stA.fs.makedirs rp } : St) x
        (rp ++ [(({ stA with fs := stA.fs.makedirs rp } : St).node x).name ++ ".log"])
        false 10).node x).children.foldl
      (fun acc c => match acc with
        | (s1, some e1) => (s1, some e1)
        | (s1, none) => save_to_directoryAux fuel c (pathJoin p (s1.node c).name) s1)
      (save_to_file ({ stA with fs := stA.fs.makedirs rp } : St) x
        (rp ++ [(({ stA with fs := stA.fs.makedirs rp } : St).node x).name ++ ".log"])
        false 10, none))).1) nm).count h =
      (loggersByName stA nm).count h) := by
  have hltB : h < ({ stA with fs := stA.fs.makedirs rp } : St).handlers.length := hlt
  have hlt3 : h < (save_to_file ({ stA with fs := stA.fs.makedirs rp } : St) x
        (rp ++ [(({ stA with fs := stA.fs.makedirs rp } : St).node x).name ++ ".log"])
        false 10).handlers.length :=
    Nat.lt_of_lt_of_le hltB (save_to_file_HPres ({ stA with fs := stA.fs.makedirs rp } : St) x
      (rp ++ [(({ stA with fs := stA.fs.makedirs rp } : St).node x).name ++ ".log"]) 10).1
  have heth3 : ∀ j, (((save_to_file ({ stA with fs := stA.fs.makedirs rp } : St) x
        (rp ++ [(({ stA with fs := stA.fs.makedirs rp } : St).node x).name ++ ".log"])
        false 10).node j).ethHandlers).count h =
      ((stA.node j).ethHandlers).count h :=
    fun j => save_to_file_eth_count ({ stA with fs := stA.fs.makedirs rp } : St) x
      (rp ++ [(({ stA with fs := stA.fs.makedirs rp } : St).node x).name ++ ".log"]) 10 h hltB j
  have hlog3 : ∀ nm, (loggersByName (save_to_file ({ stA with fs := stA.fs.makedirs rp } : St) x
        (rp ++ [(({ stA with fs := stA.fs.makedirs rp } : St).node x).name ++ ".log"])
        false 10) nm).count h =
      (loggersByName stA nm).count h :=
    fun nm => save_to_file_logger_count ({ stA with fs := stA.fs.makedirs rp } : St) x
      (rp ++ [(({ stA with fs := stA.fs.makedirs rp } : St).node x).name ++ ".log"]) 10 h hltB nm
  refine foldl_exc_pred
    (fun s1 c => save_to_directoryAux fuel c (pathJoin p (s1.node c).name) s1)
    (fun s2 => h < s2.handlers.length ∧
      (∀ j, (((s2.node j).ethHandlers).count h =
        ((stA.node j).ethHandlers).count h)) ∧
      (∀ nm, (loggersByName s2 nm).count h = (loggersByName stA nm).count h))
    _ (fun s2 a _ hP => ?_) _ ⟨hlt3, heth3, hlog3⟩
  have hP2 : h < s2.handlers.length ∧
      (∀ j, (((s2.node j).ethHandlers).count h =
        ((stA.node j).ethHandlers).count h)) ∧
      (∀ nm, (loggersByName s2 nm).count h = (loggersByName stA nm).count h) := hP
  obtain ⟨q1, q2, q3⟩ := hP2
  obtain ⟨r1, r2, r3⟩ := ih a (pathJoin p (s2.node a).name) s2 q1
  exact ⟨r1, fun j => (r2 j).trans (q2 j), fun nm => (r3 nm).trans (q3 nm)⟩

/-- `save_to_directory` never changes how often an EXISTING handler id is
attached: per-node `_handlers` counts and per-logger counts of any id
below the current handler-arena size are preserved (the file sinks it
attaches are fresh ids). -/
theorem save_to_directoryAux_count_pres (h : Nat) :
    ∀ fuel y p s, h < s.handlers.length →
      h < ((save_to_directoryAux fuel y p s).1).handlers.length ∧
      (∀ j, ((((save_to_directoryAux fuel y p s).1).node j).ethHandlers).count h =
        ((s.node j).ethHandlers).count h) ∧
      (∀ nm, (loggersByName ((save_to_directoryAux fuel y p s).1) nm).count h =
        (loggersByName s nm).count h) := by
  intro fuel
  induction fuel with
  | zero => intro y p s hlt; exact ⟨hlt, fun j => rfl, fun nm => rfl⟩
  | succ fuel ih =>
    intro y p s hlt
    simp only [save_to_directoryAux]
    by_cases h1 : dirEq (s.node y).directory p
    · rw [if_pos h1]; exact ⟨hlt, fun j => rfl, fun nm => rfl⟩
    · rw [if_neg h1]
      by_cases h2 : (s.node y).directory.isSome
      · rw [if_pos h2]; exact ⟨hlt, fun j => rfl, fun nm => rfl⟩
      · rw [if_neg h2]
        rcases hr : realpath s.cwd p with e | rp
        · exact ⟨hlt, fun j => rfl, fun nm => rfl⟩
        · simp only [hr]
          obtain ⟨t1, t2, t3⟩ := saveDirCount_tail h fuel p y rp
            (s.updNode y (fun n => { n with directory := some rp }))
            hlt (fun y2 p2 s2 => ih y2 p2 s2)
          exact ⟨t1, fun j => (t2 j).trans (by
            rw [updNode_eth_eq s y (fun n => { n with directory := some rp })
              (fun n => rfl) j]), fun nm => t3 nm⟩

theorem chainLength_pos (st : St) (fuel i : Nat) (hf : 0 < fuel) :
    1 ≤ chainLength st fuel i := by
  cases fuel with
  | zero => omega
  | succ fuel =>
    simp only [chainLength]
    rcases hp : (st.node i).parent with _ | q
    · exact Nat.le_refl 1
    · show 1 ≤ chainLength st fuel q + 1
      omega

theorem chainLength_two (st : St) (fuel i q : Nat) (hq : (st.node i).parent = some q)
    (hf : 1 ≤ fuel) :
    2 ≤ chainLength st (fuel + 1) i := by
  simp only [chainLength, hq]
  have := chainLength_pos st fuel q hf
  omega

theorem addHandlerAux_leaf_facts (s : St) (c hh f : Nat)
    (hc : c < s.nodes.length) (hchld : (s.node c).children = []) :
    ((addHandlerAux hh true true (f + 1) c s).node c).ethHandlers =
      (s.node c).ethHandlers ++ [hh] ∧
    ((addHandlerAux hh true true (f + 1) c s).node c).descHandlers =
      (s.node c).descHandlers ++ [hh] ∧
    (∀ j, j ≠ c → (addHandlerAux hh true true (f + 1) c s).node j = s.node j) ∧
    (∀ nm, loggersByName (addHandlerAux hh true true (f + 1) c s) nm =
      loggersByName (s.loggerAdd (s.node c).name hh) nm) := by
  simp only [addHandlerAux]
  rw [if_pos trivial, if_pos trivial]
  have hc2 : c < ((s.updHandler hh (fun hd => { hd with level := s.getLogLevel c })).loggerAdd ((s.updHandler hh (fun hd => { hd with level := s.getLogLevel c })).node c).name hh).nodes.length := hc
  have hc3 : c < (((s.updHandler hh (fun hd => { hd with level := s.getLogLevel c })).loggerAdd ((s.updHandler hh (fun hd => { hd with level := s.getLogLevel c })).node c).name hh).updNode c (fun n => { n with ethHandlers := n.ethHandlers ++ [hh] })).nodes.length := by
    simp only [St.updNode, St.setNode, List.length_set]
    exact hc2
  have hval : ((((s.updHandler hh (fun hd => { hd with level := s.getLogLevel c })).loggerAdd ((s.updHandler hh (fun hd => { hd with level := s.getLogLevel c })).node c).name hh).updNode c (fun n => { n with ethHandlers := n.ethHandlers ++ [hh] })).updNode c (fun n => { n with descHandlers := n.descHandlers ++ [hh] })).node c =
      ({ s.node c with
            ethHandlers := (s.node c).ethHandlers ++ [hh],
            descHandlers := (s.node c).descHandlers ++ [hh] } : Node) := by
    rw [St.node_updNode_self (((s.updHandler hh (fun hd => { hd with level := s.getLogLevel c })).loggerAdd ((s.updHandler hh (fun hd => { hd with level := s.getLogLevel c })).node c).name hh).updNode c (fun n => { n with ethHandlers := n.ethHandlers ++ [hh] })) c
        (fun n => { n with descHandlers := n.descHandlers ++ [hh] }) hc3,
      St.node_updNode_self ((s.updHandler hh (fun hd => { hd with level := s.getLogLevel c })).loggerAdd ((s.updHandler hh (fun hd => { hd with level := s.getLogLevel c })).node c).name hh) c
        (fun n => { n with ethHandlers := n.ethHandlers ++ [hh] }) hc2]
    rfl
  have hch4 : (((((s.updHandler hh (fun hd => { hd with level := s.getLogLevel c })).loggerAdd ((s.updHandler hh (fun hd => { hd with level := s.getLogLevel c })).node c).name hh).updNode c (fun n => { n with ethHandlers := n.ethHandlers ++ [hh] })).updNode c (fun n => { n with descHandlers := n.descHandlers ++ [hh] })).node c).children = [] := by
    rw [hval]
    exact hchld
  rw [hch4]
  refine ⟨?_, ?_, ?_, ?_⟩
  · show (((((s.updHandler hh (fun hd => { hd with level := s.getLogLevel c })).loggerAdd ((s.updHandler hh (fun hd => { hd with level := s.getLogLevel c })).node c).name hh).updNode c (fun n => { n with ethHandlers := n.ethHandlers ++ [hh] })).updNode c (fun n => { n with descHandlers := n.descHandlers ++ [hh] })).node c).ethHandlers = (s.node c).ethHandlers ++ [hh]
    rw [hval]
  · show (((((s.updHandler hh (fun hd => { hd with level := s.getLogLevel c })).loggerAdd ((s.updHandler hh (fun hd => { hd with level := s.getLogLevel c })).node c).name hh).updNode c (fun n => { n with ethHandlers := n.ethHandlers ++ [hh] })).updNode c (fun n => { n with descHandlers := n.descHandlers ++ [hh] })).node c).descHandlers = (s.node c).descHandlers ++ [hh]
    rw [hval]
  · intro j hj
    show ((((s.updHandler hh (fun hd => { hd with level := s.getLogLevel c })).loggerAdd ((s.updHandler hh (fun hd => { hd with level := s.getLogLevel c })).node c).name hh).updNode c (fun n => { n with ethHandlers := n.ethHandlers ++ [hh] })).updNode c (fun n => { n with descHandlers := n.descHandlers ++ [hh] })).node j = s.node j
    rw [St.node_updNode_ne (((s.updHandler hh (fun hd => { hd with level := s.getLogLevel c })).loggerAdd ((s.updHandler hh (fun hd => { hd with level := s.getLogLevel c })).node c).name hh).updNode c (fun n => { n with ethHandlers := n.ethHandlers ++ [hh] })) c j
        (fun n => { n with descHandlers := n.descHandlers ++ [hh] })
        (fun e => hj e.symm),
      St.node_updNode_ne ((s.updHandler hh (fun hd => { hd with level := s.getLogLevel c })).loggerAdd ((s.updHandler hh (fun hd => { hd with level := s.getLogLevel c })).node c).name hh) c j
        (fun n => { n with ethHandlers := n.ethHandlers ++ [hh] })
        (fun e => hj e.symm)]
    rfl
  · intro nm
    rfl

theorem addHandler_leaf_facts (s : St) (c hh : Nat)
    (hc : c < s.nodes.length) (hchld : (s.node c).children = []) :
    ((addHandler s c hh true true).node c).ethHandlers =
      (s.node c).ethHandlers ++ [hh] ∧
    ((addHandler s c hh true true).node c).descHandlers =
      (s.node c).descHandlers ++ [hh] ∧
    (∀ j, j ≠ c → (addHandler s c hh true true).node j = s.node j) ∧
    (∀ nm, loggersByName (addHandler s c hh true true) nm =
      loggersByName (s.loggerAdd (s.node c).name hh) nm) := by
  obtain ⟨f, hf⟩ : ∃ f, s.nodes.length = f + 1 := ⟨s.nodes.length - 1, by omega⟩
  unfold addHandler
  rw [hf]
  exact addHandlerAux_leaf_facts s c hh f hc hchld

/-- One replay pass of `_add_child`: folding `addHandler(h2, True, True)`
over a list `hs` at a childless node `c`.  The node's `_handlers` count
of `h` grows by exactly the number of occurrences of `h` in `hs`, `h`
lands in `_descendant_handlers` whenever `h ∈ hs`, and the underlying
logger's count obeys the CPython dedup (stays `≤ 1`, reaches exactly `1`
when `h ∈ hs`). -/
theorem pass_facts (c h : Nat) (nm : String) :
    ∀ (hs : List Nat) (s : St), c < s.nodes.length → (s.node c).children = [] →
      (s.node c).name = nm → (s.loggers.lookup nm).isSome = true →
      ((hs.foldl (fun s2 h2 => addHandler s2 c h2 true true) s).nodes.length = s.nodes.length ∧
       ((hs.foldl (fun s2 h2 => addHandler s2 c h2 true true) s).node c).children = [] ∧
       ((hs.foldl (fun s2 h2 => addHandler s2 c h2 true true) s).node c).name = nm ∧
       ((hs.foldl (fun s2 h2 => addHandler s2 c h2 true true) s).loggers.lookup nm).isSome = true ∧
       (((hs.foldl (fun s2 h2 => addHandler s2 c h2 true true) s).node c).ethHandlers).count h =
         ((s.node c).ethHandlers).count h + hs.count h ∧
       (h ∈ hs → h ∈ ((hs.foldl (fun s2 h2 => addHandler s2 c h2 true true) s).node c).descHandlers) ∧
       ((loggersByName s nm).count h ≤ 1 →
         (loggersByName (hs.foldl (fun s2 h2 => addHandler s2 c h2 true true) s) nm).count h ≤ 1) ∧
       ((loggersByName s nm).count h = 1 →
         (loggersByName (hs.foldl (fun s2 h2 => addHandler s2 c h2 true true) s) nm).count h = 1) ∧
       (h ∈ hs → (loggersByName s nm).count h ≤ 1 →
         (loggersByName (hs.foldl (fun s2 h2 => addHandler s2 c h2 true true) s) nm).count h = 1) ∧
       (h ∈ (s.node c).descHandlers →
         h ∈ ((hs.foldl (fun s2 h2 => addHandler s2 c h2 true true) s).node c).descHandlers)) := by
  intro hs
  induction hs with
  | nil =>
    intro s hc hch hnm hlk
    exact ⟨rfl, hch, hnm, hlk, rfl,
      fun hmem => absurd hmem (List.not_mem_nil h),
      fun hle => hle, fun h1 => h1,
      fun hmem _ => absurd hmem (List.not_mem_nil h), fun hd => hd⟩
  | cons a t iht =>
    intro s hc hch hnm hlk
    simp only [List.foldl_cons]
    obtain ⟨e1, e2, e3, e4⟩ := addHandler_leaf_facts s c a hc hch
    have hsh := addHandler_nodeShape s c a true true
    have hc1 : c < (addHandler s c a true true).nodes.length := by
      rw [hsh.1]
      exact hc
    have hch1 : ((addHandler s c a true true).node c).children = [] := by
      rw [(hsh.2.1 c).2.2.1]
      exact hch
    have hnm1 : ((addHandler s c a true true).node c).name = nm := by
      rw [(hsh.2.1 c).1]
      exact hnm
    have hlk1 : ((addHandler s c a true true).loggers.lookup nm).isSome = true := by
      rw [lookup_isSome_congr (addHandler s c a true true).loggers s.loggers
        hsh.2.2.2.2.2.2 nm]
      exact hlk
    have he4 : loggersByName (addHandler s c a true true) nm =
        loggersByName (s.loggerAdd nm a) nm := by
      rw [e4 nm, hnm]
    obtain ⟨i1, i2, i3, i4, i5, i6, i7, i8, i9, i10⟩ :=
      iht (addHandler s c a true true) hc1 hch1 hnm1 hlk1
    have hs1c : (((addHandler s c a true true).node c).ethHandlers).count h =
        ((s.node c).ethHandlers).count h + List.count h [a] := by
      rw [e1, List.count_append]
    have hcc : List.count h (a :: t) = List.count h t + List.count h [a] := by
      show List.count h ([a] ++ t) = List.count h t + List.count h [a]
      rw [List.count_append]
      omega
    refine ⟨i1.trans hsh.1, i2, i3, i4, ?_, ?_, ?_, ?_, ?_, ?_⟩
    · rw [hcc]
      omega
    · intro hmem
      rcases List.mem_cons.mp hmem with hah | hat
      · refine i10 ?_
        rw [e2, hah]
        exact List.mem_append_right _ (List.mem_singleton.mpr rfl)
      · exact i6 hat
    · intro hle
      refine i7 ?_
      rw [he4]
      exact count_loggerAdd_le s nm a nm h hle
    · intro h1
      refine i8 ?_
      rw [he4]
      exact count_loggerAdd_one s nm a nm h h1
    · intro hmem hle
      rcases List.mem_cons.mp hmem with hah | hat
      · refine i8 ?_
        rw [he4, ← hah]
        exact count_loggerAdd_self s nm h hlk hle
      · refine i9 hat ?_
        rw [he4]
        exact count_loggerAdd_le s nm a nm h hle
    · intro hd
      refine i10 ?_
      rw [e2]
      exact List.mem_append_left _ hd

/-- `repeatAddHandlers` — the whole `while parent is not None` loop of
`_add_child`: `k` passes over `hs`.  The `_handlers` count of `h` grows
by `k * hs.count h`, while the underlying logger stays deduped. -/
theorem repeat_facts (c h : Nat) (nm : String) (hs : List Nat) :
    ∀ k s, c < s.nodes.length → (s.node c).children = [] →
      (s.node c).name = nm → (s.loggers.lookup nm).isSome = true →
      ((repeatAddHandlers c hs k s).nodes.length = s.nodes.length ∧
       (((repeatAddHandlers c hs k s).node c).ethHandlers).count h =
         ((s.node c).ethHandlers).count h + k * hs.count h ∧
       ((loggersByName s nm).count h ≤ 1 →
         (loggersByName (repeatAddHandlers c hs k s) nm).count h ≤ 1) ∧
       ((loggersByName s nm).count h = 1 →
         (loggersByName (repeatAddHandlers c hs k s) nm).count h = 1) ∧
       (h ∈ hs → 1 ≤ k → (loggersByName s nm).count h ≤ 1 →
         (loggersByName (repeatAddHandlers c hs k s) nm).count h = 1) ∧
       (h ∈ hs → 1 ≤ k → h ∈ ((repeatAddHandlers c hs k s).node c).descHandlers) ∧
       (h ∈ (s.node c).descHandlers →
         h ∈ ((repeatAddHandlers c hs k s).node c).descHandlers)) := by
  intro k
  induction k with
  | zero =>
    intro s hc hch hnm hlk
    refine ⟨rfl, by simp [repeatAddHandlers], fun hle => hle, fun h1 => h1,
      fun _ hk _ => absurd hk (by omega), fun _ hk => absurd hk (by omega),
      fun hd => hd⟩
  | succ k ihk =>
    intro s hc hch hnm hlk
    simp only [repeatAddHandlers]
    obtain ⟨p1, p2, p3, p4, p5, p6, p7, p8, p9, p10⟩ :=
      pass_facts c h nm hs s hc hch hnm hlk
    obtain ⟨q1, q2, q3, q4, q5, q6, q7⟩ :=
      ihk (hs.foldl (fun s2 h2 => addHandler s2 c h2 true true) s) (by rw [p1]; exact hc) p2 p3 p4
    have hsm : (k + 1) * List.count h hs =
        k * List.count h hs + List.count h hs := by ring
    refine ⟨q1.trans p1, ?_, fun hle => q3 (p7 hle), fun h1 => q4 (p8 h1),
      fun hmem _ hle => q4 (p9 hmem hle), fun hmem _ => q7 (p6 hmem),
      fun hd => q7 (p10 hd)⟩
    rw [hsm, q2, p5]
    ring

/-- C2 (corrected): `addHandler` at `x` with `include_descendants=True`
reaches `x` and every node currently reachable from `x` by child links —
each gets the handler in `_handlers`, in `_descendant_handlers`, and
exactly once in its underlying `logging.Logger`.  A child later attached
(by a successful `_add_child`) under a node `p` whose
`_descendant_handlers` records the handler receives it at attachment
time — but the `while parent is not None` loop (lines 147-151) replays
`self._descendant_handlers` once per node on the chain from `p` to the
root, so whenever `p` itself has a parent the child ends up with the
handler AT LEAST TWICE in `_handlers`; only the underlying
`logging.Logger` (CPython-side dedup) holds it exactly once. -/
theorem addHandler_spec (st : St) (x h : Nat) (slvl : Bool)
    (hGt : ∀ i, i < st.nodes.length → ∀ c ∈ (st.node i).children,
      i < c ∧ c < st.nodes.length)
    (hx : x < st.nodes.length)
    (hlogAll : ∀ j, j < st.nodes.length →
      ((st.loggers.lookup (st.node j).name).isSome = true))
    (hle : ∀ j, j < st.nodes.length →
      (loggersByName st (st.node j).name).count h ≤ 1) :
    (∀ d, Reaches st x d →
      h ∈ ((addHandler st x h true slvl).node d).ethHandlers ∧
      h ∈ ((addHandler st x h true slvl).node d).descHandlers ∧
      (loggersByName (addHandler st x h true slvl) (st.node d).name).count h = 1) ∧
    (∀ (st2 : St) (p c : Nat) (st3 : St),
      p < st2.nodes.length → c < st2.nodes.length → p ≠ c →
      h ∈ (st2.node p).descHandlers →
      h < st2.handlers.length →
      (st2.node c).children = [] →
      ((st2.loggers.lookup (st2.node c).name).isSome = true) →
      (loggersByName st2 (st2.node c).name).count h ≤ 1 →
      add_child st2 p c = (st3, none) →
      (h ∈ (st3.node c).ethHandlers ∧
       h ∈ (st3.node c).descHandlers ∧
       (loggersByName st3 (st2.node c).name).count h = 1 ∧
       (∀ q, (st2.node p).parent = some q →
         2 ≤ ((st3.node c).ethHandlers).count h))) := by
  constructor
  · intro d hr
    exact addHandlerAux_reaches h slvl st.nodes.length st x hGt hx (by omega)
      hlogAll hle d hr
  · intro st2 p c st3 hp hcN hpc hdesc hhlt hchld hlk hcle hsucc
    unfold add_child at hsucc
    by_cases hmem : c ∈ (st2.node p).children
    · rw [if_pos hmem] at hsucc
      simp at hsucc
    · rw [if_neg hmem] at hsucc
      rcases hdir : ((st2.updNode p fun n => { n with children := n.children ++ [c] }).node p).directory with _ | d
      · simp only [hdir] at hsucc
        rcases hres : add_child_dirless (st2.updNode p fun n => { n with children := n.children ++ [c] }) c with ⟨sA, eA⟩
        simp only [hres] at hsucc
        cases eA with
        | some e2 => simp at hsucc
        | none =>
          obtain ⟨e2, he2⟩ := add_child_dirless_err (st2.updNode p fun n => { n with children := n.children ++ [c] }) c
          rw [hres] at he2
          simp at he2
      · simp only [hdir] at hsucc
        rcases hres : save_to_directory (st2.updNode p fun n => { n with children := n.children ++ [c] }) c (PathArg.absPath (d ++ [((st2.updNode p fun n => { n with children := n.children ++ [c] }).node c).name])) with ⟨sA, eA⟩
        simp only [hres] at hsucc
        cases eA with
        | some e => simp at hsucc
        | none =>
          have hst3 : st3 = repeatAddHandlers c ((sA.node p).descHandlers)
              (chainLength sA (sA.nodes.length + 1) p) sA :=
            (congrArg Prod.fst hsucc).symm
          subst hst3
          have hdirsh : DirShape (st2.updNode p fun n => { n with children := n.children ++ [c] }) sA := by
            have hh2 := save_to_directory_dirShape (st2.updNode p fun n => { n with children := n.children ++ [c] }) c (PathArg.absPath (d ++ [((st2.updNode p fun n => { n with children := n.children ++ [c] }).node c).name]))
            rw [hres] at hh2
            exact hh2
          have hnodec1 : (st2.updNode p fun n => { n with children := n.children ++ [c] }).node c = st2.node c :=
            St.node_updNode_ne st2 p c _ hpc
          have hnodep1 : (st2.updNode p fun n => { n with children := n.children ++ [c] }).node p =
              ({ st2.node p with children := (st2.node p).children ++ [c] } : Node) :=
            St.node_updNode_self st2 p _ hp
          have hlen1 : (st2.updNode p fun n => { n with children := n.children ++ [c] }).nodes.length = st2.nodes.length := by
            simp [St.updNode, St.setNode]
          have hlenA : sA.nodes.length = st2.nodes.length := hdirsh.1.trans hlen1
          have hcA : c < sA.nodes.length := by
            rw [hlenA]
            exact hcN
          have hchA : (sA.node c).children = [] := by
            rw [(hdirsh.2.1 c).2.2.1, hnodec1]
            exact hchld
          have hnmA : (sA.node c).name = (st2.node c).name := by
            rw [(hdirsh.2.1 c).1, hnodec1]
          have hlkA : (sA.loggers.lookup (st2.node c).name).isSome = true := by
            rw [lookup_isSome_congr sA.loggers (st2.updNode p fun n => { n with children := n.children ++ [c] }).loggers
              hdirsh.2.2.2.2 (st2.node c).name]
            exact hlk
          have hdescA : (sA.node p).descHandlers = (st2.node p).descHandlers := by
            rw [(hdirsh.2.1 p).2.2.2.2.2.2, hnodep1]
          have hparA : (sA.node p).parent = (st2.node p).parent := by
            rw [(hdirsh.2.1 p).2.1, hnodep1]
          have hmemA : h ∈ (sA.node p).descHandlers := by
            rw [hdescA]
            exact hdesc
          have hcp := save_to_directoryAux_count_pres h
            ((st2.updNode p fun n => { n with children := n.children ++ [c] }).nodes.length + 1) c (PathArg.absPath (d ++ [((st2.updNode p fun n => { n with children := n.children ++ [c] }).node c).name])) (st2.updNode p fun n => { n with children := n.children ++ [c] }) hhlt
          have hfst : (save_to_directoryAux ((st2.updNode p fun n => { n with children := n.children ++ [c] }).nodes.length + 1)
              c (PathArg.absPath (d ++ [((st2.updNode p fun n => { n with children := n.children ++ [c] }).node c).name])) (st2.updNode p fun n => { n with children := n.children ++ [c] })).1 = sA :=
            congrArg Prod.fst hres
          have hcleA : (loggersByName sA (st2.node c).name).count h ≤ 1 := by
            rw [← hfst, hcp.2.2 ((st2.node c).name)]
            exact hcle
          obtain ⟨r1, r2, r3, r4, r5, r6, r7⟩ := repeat_facts c h ((st2.node c).name)
            ((sA.node p).descHandlers) (chainLength sA (sA.nodes.length + 1) p) sA
            hcA hchA hnmA hlkA
          have hkpos : 1 ≤ chainLength sA (sA.nodes.length + 1) p :=
            chainLength_pos sA (sA.nodes.length + 1) p (by omega)
          have hcnt1 : 0 < List.count h ((sA.node p).descHandlers) :=
            List.count_pos_iff.mpr hmemA
          have hmul : 0 < (chainLength sA (sA.nodes.length + 1) p) *
              List.count h ((sA.node p).descHandlers) :=
            Nat.mul_pos (by omega) hcnt1
          have hpos : 0 < (((repeatAddHandlers c ((sA.node p).descHandlers)
              (chainLength sA (sA.nodes.length + 1) p) sA).node c).ethHandlers).count h := by
            rw [r2]
            exact Nat.lt_of_lt_of_le hmul (Nat.le_add_left _ _)
          refine ⟨List.count_pos_iff.mp hpos, r6 hmemA hkpos, r5 hmemA hkpos hcleA, ?_⟩
          intro q hq
          have hparSome : (sA.node p).parent = some q := by
            rw [hparA]
            exact hq
          have hk2 : 2 ≤ chainLength sA (sA.nodes.length + 1) p :=
            chainLength_two sA sA.nodes.length p q hparSome (by
              have : p < sA.nodes.length := by
                rw [hlenA]
                exact hp
              omega)
          have hmul2 : 2 ≤ (chainLength sA (sA.nodes.length + 1) p) *
              List.count h ((sA.node p).descHandlers) :=
            Nat.le_trans (by decide) (Nat.mul_le_mul hk2 hcnt1)
          rw [r2]
          exact Nat.le_trans hmul2 (Nat.le_add_left _ _)

/-- Run of C2's counterexample: root logger with a directory, child `A`,
a descendant-propagated handler attached at the root, then `B` created
as a child of `A`. -/
def c2ops : List Op :=
  [Op.newLogger "root" (some 10) none false,
   Op.saveDir 0 (PathArg.absPath ["logs"]),
   Op.newLogger "A" none (some 0) false,
   Op.attachFresh 0 false [] true true,
   Op.newLogger "B" none (some 1) false]

/-- Counterexample to C2's "attached exactly once, never duplicated":
node `B` (arena id 2) sits two levels below the root, so `_add_child`'s
replay loop hands it handler 4 TWICE — `_handlers` and
`_descendant_handlers` each hold it twice; only the underlying
`logging.Logger` (CPython dedup) holds it once. -/
theorem addHandler_dup_cex :
    (runOps (St.empty ["home"]) c2ops).2 = none ∧
    (((runOps (St.empty ["home"]) c2ops).1.node 2).ethHandlers).count 4 = 2 ∧
    (((runOps (St.empty ["home"]) c2ops).1.node 2).descHandlers).count 4 = 2 ∧
    ((loggerHandlersOf (runOps (St.empty ["home"]) c2ops).1 2)).count 4 = 1 :=
  ⟨by decide, by decide, by decide, by decide⟩

/-- State for the witness, part 1: root (id 0, directory `logs`) with
child `A` (id 1). -/
def c2w1ops : List Op :=
  [Op.newLogger "root" (some 10) none false,
   Op.saveDir 0 (PathArg.absPath ["logs"]),
   Op.newLogger "A" none (some 0) false]

/-- State for the witness, part 2: additionally a handler (id 4)
attached at `A` with descendants, and a detached root logger `B`
(id 2). -/
def c2w2ops : List Op :=
  [Op.newLogger "root" (some 10) none false,
   Op.saveDir 0 (PathArg.absPath ["logs"]),
   Op.newLogger "A" none (some 0) false,
   Op.attachFresh 1 false [] true true,
   Op.newLogger "B" (some 10) none false]

theorem addHandler_spec_witness :
    4 ∈ ((addHandler (runOps (St.empty ["home"]) c2w1ops).1 0 4 true false).node 1).ethHandlers ∧
    4 ∈ (((add_child (runOps (St.empty ["home"]) c2w2ops).1 1 2).1.node 2).ethHandlers) ∧
    2 ≤ ((((add_child (runOps (St.empty ["home"]) c2w2ops).1 1 2).1.node 2).ethHandlers).count 4) := by
  have h1 := addHandler_spec (runOps (St.empty ["home"]) c2w1ops).1 0 4 false
    (by decide) (by decide) (by decide) (by decide)
  have h2 := h1.2 (runOps (St.empty ["home"]) c2w2ops).1 1 2
    ((add_child (runOps (St.empty ["home"]) c2w2ops).1 1 2).1)
    (by decide) (by decide) (by decide) (by decide) (by decide) (by decide)
    (by decide) (by decide) (by decide)
  exact ⟨(h1.1 1 (Reaches.step (by decide) (Reaches.refl 1))).1, h2.1,
    h2.2.2.2 0 (by decide)⟩

end Etheno












